import Mathlib

/-!
Cache coherency engine (`cacheshr/CoherencyManager.cpp`).

A shallow embedding of the coherency protocol engine: the wire codec used by
`handleMessage`, the five inbound handlers and the two accessor hooks
`checkRead` / `checkWrite`.

Conventions of the embedding:

* C `int` values are `Int`, with `int` and `unsigned int` 32 bits wide
  (`sizeof(int) = 4`); the conversions `int -> unsigned int` and
  `unsigned int -> int` that happen at the wire are explicit (`toUInt32`,
  `toInt32`), a `char` read from a buffer is sign-extended (`toInt8`), and
  the one arithmetic step on an `int`, the increment of the timestamp, wraps
  (`wrapInt32`).
* A buffer is a `List Nat` of bytes (values `0..255`); a read that leaves the
  buffer has no defined result and is `none`.
* The store (`SharedDataManager`), the channel (`Channel`) and the channel
  factory (`ChannelFactory`) are not part of this source file; what the engine
  consumes from them is modelled from the interface description and marked so.
* A handler returns the new store together with the list of effects it
  performed, in program order.
-/

namespace CoherencyManager

/-! ## Machine integers and native memory -/

/-- Conversion `int -> unsigned int` (32 bit): reduction modulo `2^32`. -/
def toUInt32 (x : Int) : Nat := (x % 4294967296).toNat

/-- Conversion `unsigned int -> int` (32 bit): two's complement reading. -/
def toInt32 (x : Nat) : Int :=
  if x % 4294967296 < 2147483648 then ((x % 4294967296 : Nat) : Int)
  else ((x % 4294967296 : Nat) : Int) - 4294967296

/-- The C `int` that holds the low 32 bits of an integer in two's complement:
what an `int` variable holds after arithmetic that leaves its range. -/
def wrapInt32 (x : Int) : Int := toInt32 (toUInt32 x)

/-- Reading of one buffer byte as a (signed) `char`. -/
def toInt8 (b : Nat) : Int :=
  if b % 256 < 128 then ((b % 256 : Nat) : Int) else ((b % 256 : Nat) : Int) - 256

/-- Conversion of an integer to the `char` stored in a buffer: its low byte. -/
def toChar (x : Int) : Nat := (x % 256).toNat

/-- The four bytes of a 32-bit word, most significant first. -/
def bytesBE (x : Nat) : List Nat :=
  [x / 16777216 % 256, x / 65536 % 256, x / 256 % 256, x % 256]

/-- The 32-bit word whose bytes, most significant first, are the first four
entries of the list (missing entries read as zero). -/
def wordBE (bs : List Nat) : Nat :=
  bs.getD 0 0 % 256 * 16777216 + bs.getD 1 0 % 256 * 65536
    + bs.getD 2 0 % 256 * 256 + bs.getD 3 0 % 256

/-- Store of an `unsigned int` through an `unsigned int *` on a host whose
byte order is little-endian (`le = true`) or big-endian. -/
def storeNative (le : Bool) (x : Nat) : List Nat :=
  if le then (bytesBE x).reverse else bytesBE x

/-- Load of an `unsigned int` through `(unsigned int *)(buf + off)`; `none`
when the four bytes are not all inside the buffer. -/
def loadNative (le : Bool) (buf : List Nat) (off : Nat) : Option Nat :=
  if off + 4 ≤ buf.length then
    some (if le then wordBE ((buf.drop off).take 4).reverse
          else wordBE ((buf.drop off).take 4))
  else none

/-- Reversal of the four bytes of a 32-bit word. -/
def byteSwap (x : Nat) : Nat := wordBE (bytesBE x).reverse

/-- Modelled from the spec: `Channel::fromNative` (`to_wire`) is missing from
the sources; it converts a host word to network byte order (most significant
byte first), so it swaps bytes on a little-endian host and is the identity on
a big-endian one. -/
def fromNative (le : Bool) (x : Nat) : Nat :=
  if le then byteSwap x else x % 4294967296

/-- Modelled from the spec: `Channel::toNative` (`from_wire`) is missing from
the sources; it converts a word in network byte order to the host order. -/
def toNative (le : Bool) (x : Nat) : Nat :=
  if le then byteSwap x else x % 4294967296

/-! ## The environment of one peer -/

/-- What the engine reads from the channel factory, the channel and the
message-type constants of one peer. The type tags are constants of a header
that is not part of the sources, so they are parameters. -/
structure Env where
  /-- Value of `chanFactory.getThisAddressIdx()`. -/
  thisAddressIdx : Int
  /-- Value of `chanFactory.getOtherAddresses(numAddresses)`, in array order. -/
  otherAddresses : List Int
  /-- Value of `chanFactory.isCommunicationEnabled()`. -/
  communicationEnabled : Bool
  /-- Byte order of the host (`true` for little-endian). -/
  littleEndian : Bool
  REQUEST_DATA_TYPE : Int
  OWNERSHIP_TYPE : Int
  OWNERSHIP_WARM_ACK_TYPE : Int
  DATA_TYPE : Int
  DIRTY_TYPE : Int
deriving Repr

/-- Modelled from the spec: `chanFactory.getAddress(idx)` is missing from the
sources; the lookup maps a peer index to the address of that peer, which the
model identifies with the index. -/
def getAddress (idx : Int) : Int := idx

/-! ## The store -/

/-- Per-node coherency record held by the store. -/
structure CoherencyInfo where
  isOwner : Bool
  ownerIdx : Int
  isWarm : Bool
  isDirty : Bool
  timestamp : Int
  warmList : List Int
  readerList : List Int
deriving DecidableEq, Repr

/-- The record of a node that has never been referenced: no owner, timestamp
zero, flags clear, no subscribers. -/
def CoherencyInfo.fresh : CoherencyInfo :=
  { isOwner := false, ownerIdx := -1, isWarm := false, isDirty := false,
    timestamp := 0, warmList := [], readerList := [] }

/-- State of the store of one peer: the coherency record and the serialized
payload of every `(treeIdx, nid)`. -/
structure SharedDataManager where
  info : Int → Int → CoherencyInfo
  serialized : Int → Int → List Nat

/-- Replacement of the record of one node. -/
def SharedDataManager.modifyInfo (dm : SharedDataManager) (treeIdx nid : Int)
    (f : CoherencyInfo → CoherencyInfo) : SharedDataManager :=
  { dm with info := fun t n => if t = treeIdx ∧ n = nid then f (dm.info t n) else dm.info t n }

/-- Modelled from the spec: `SharedDataManager::getCoherencyInfo` (both
overloads) is missing from the sources; it returns the fields of the record. -/
def getCoherencyInfo (dm : SharedDataManager) (treeIdx nid : Int) : CoherencyInfo :=
  dm.info treeIdx nid

/-- Modelled from the spec: `SharedDataManager::setOwner` is missing from the
sources; it installs owner and timestamp, so that `is_owner` is
`owner_idx == this_peer_idx`, clears `readers`/`warms` if this peer loses
ownership, and does not touch `is_warm` or `is_dirty`. -/
def setOwner (env : Env) (dm : SharedDataManager) (treeIdx nid ownerIdx timestamp : Int) :
    SharedDataManager :=
  dm.modifyInfo treeIdx nid fun r =>
    { r with
      isOwner := decide (ownerIdx = env.thisAddressIdx)
      ownerIdx := ownerIdx
      timestamp := timestamp
      warmList := if r.isOwner && !decide (ownerIdx = env.thisAddressIdx) then [] else r.warmList
      readerList := if r.isOwner && !decide (ownerIdx = env.thisAddressIdx) then [] else r.readerList }

/-- Modelled from the spec: `SharedDataManager::setDirty` is missing from the
sources; it sets the dirty flag of the record. -/
def setDirty (dm : SharedDataManager) (treeIdx nid : Int) (isDirty : Bool) : SharedDataManager :=
  dm.modifyInfo treeIdx nid fun r => { r with isDirty := isDirty }

/-- Modelled from the spec: `SharedDataManager::setCoherencyInfo` is missing
from the sources; it installs owner flag, owner index, warm flag, timestamp
and the two subscriber lists, and leaves the dirty flag alone. -/
def setCoherencyInfo (dm : SharedDataManager) (treeIdx nid : Int) (isOwner : Bool)
    (ownerIdx : Int) (isWarm : Bool) (timestamp : Int) (warmList readerList : List Int) :
    SharedDataManager :=
  dm.modifyInfo treeIdx nid fun r =>
    { r with
      isOwner := isOwner
      ownerIdx := ownerIdx
      isWarm := isWarm
      timestamp := timestamp
      warmList := warmList
      readerList := readerList }

/-- Idempotent insertion into a list that represents a set. -/
def setInsert (x : Int) (xs : List Int) : List Int :=
  if x ∈ xs then xs else xs ++ [x]

/-- Modelled from the spec: `SharedDataManager::addReader` is missing from
the sources; set-insert of the peer into `readers`. -/
def addReader (dm : SharedDataManager) (treeIdx nid readerIdx : Int) : SharedDataManager :=
  dm.modifyInfo treeIdx nid fun r => { r with readerList := setInsert readerIdx r.readerList }

/-- Modelled from the spec: `SharedDataManager::addWarm` is missing from the
sources; set-insert of the peer into `warms`. -/
def addWarm (dm : SharedDataManager) (treeIdx nid warmIdx : Int) : SharedDataManager :=
  dm.modifyInfo treeIdx nid fun r => { r with warmList := setInsert warmIdx r.warmList }

/-- Modelled from the spec: `SharedDataManager::getSerializedSize` is missing
from the sources; the length of the serialized payload of the node. -/
def getSerializedSize (dm : SharedDataManager) (treeIdx nid : Int) : Nat :=
  (dm.serialized treeIdx nid).length

/-- Modelled from the spec: `SharedDataManager::getSerialized` is missing from
the sources; the serialized payload of the node, copied to the output buffer. -/
def getSerialized (dm : SharedDataManager) (treeIdx nid : Int) : List Nat :=
  dm.serialized treeIdx nid

/-- Modelled from the spec: `SharedDataManager::setSerializedData` is missing
from the sources; it replaces the payload of the node by the first `dataLen`
bytes of the given buffer. -/
def setSerializedData (dm : SharedDataManager) (treeIdx nid : Int) (serializedData : List Nat)
    (dataLen : Nat) : SharedDataManager :=
  { dm with serialized := fun t n =>
      if t = treeIdx ∧ n = nid then serializedData.take dataLen else dm.serialized t n }

/-! ## Effects -/

/-- Observable actions of the engine. -/
inductive Effect where
  /-- Call `channel->sendMessage(addr, buf, bufLen, type)`; `buf` holds the
  `bufLen` bytes handed to the channel. -/
  | send (addr : Int) (buf : List Nat) (type : Int)
  /-- Call `signal()` on the event of the node. -/
  | signal (treeIdx nid : Int)
  /-- Call `wait()` on the event of the node. -/
  | wait (treeIdx nid : Int)
  /-- The `printf` of the default case of `handleMessage`. -/
  | unsupported (type : Int)
deriving DecidableEq, Repr

/-- Call `channel->sendMessage(addr, buf, bufLen, type)`: the first `bufLen`
bytes of `buf` go to `addr` under tag `type`. -/
def sendMessage (addr : Int) (buf : List Nat) (bufLen : Nat) (type : Int) : Effect :=
  Effect.send addr (buf.take bufLen) type

/-- Buffer contents after `*(int *)p = channel->fromNative(v)`. -/
def putWire (env : Env) (v : Int) : List Nat :=
  storeNative env.littleEndian (fromNative env.littleEndian (toUInt32 v))

/-- Buffer contents after `*(int *)p = v` (no conversion). -/
def putRaw (env : Env) (v : Int) : List Nat :=
  storeNative env.littleEndian (toUInt32 v)

/-- Value of `(int) channel->toNative(*(unsigned int *)(buf + off))`. -/
def getWire (env : Env) (buf : List Nat) (off : Nat) : Option Int :=
  (loadNative env.littleEndian buf off).map fun w => toInt32 (toNative env.littleEndian w)

/-! ## Inbound handlers -/

/-- Source `CoherencyManager::handleRequestDataMsg`. -/
def handleRequestDataMsg (env : Env) (dm : SharedDataManager) (treeIdx nid senderIdx : Int) :
    SharedDataManager × List Effect :=
  let serializedSize := getSerializedSize dm treeIdx nid
  let serialized := putWire env nid ++ putWire env treeIdx ++ getSerialized dm treeIdx nid
  let dm1 := addReader dm treeIdx nid senderIdx
  let retAddr := getAddress senderIdx
  (dm1, [sendMessage retAddr serialized (serializedSize + 2 * 4) env.DATA_TYPE])

/-- Source `CoherencyManager::handleOwnershipMsg`: the comparison of
timestamps is commented out in the source, so the update is unconditional. -/
def handleOwnershipMsg (env : Env) (dm : SharedDataManager)
    (treeIdx nid timestamp ownerIdx senderIdx : Int) : SharedDataManager × List Effect :=
  let prev := getCoherencyInfo dm treeIdx nid
  let dm1 := setOwner env dm treeIdx nid ownerIdx timestamp
  if prev.isWarm then
    let msgInfo := putRaw env nid ++ putRaw env treeIdx
    let retAddr := getAddress senderIdx
    (dm1, [sendMessage retAddr msgInfo (2 * 4) env.OWNERSHIP_WARM_ACK_TYPE])
  else
    (setDirty dm1 treeIdx nid true, [])

/-- Source `CoherencyManager::handleDataMsg`. The event returned by
`getDataEvent` is the per-node event of the store interface, which always
exists, so it is always signalled. -/
def handleDataMsg (_env : Env) (dm : SharedDataManager) (treeIdx nid : Int)
    (serializedData : List Nat) (dataLen : Nat) (_senderIdx : Int) :
    SharedDataManager × List Effect :=
  let dm1 := setSerializedData dm treeIdx nid serializedData dataLen
  (setDirty dm1 treeIdx nid false, [Effect.signal treeIdx nid])

/-- Source `CoherencyManager::handleDirtyMsg`. -/
def handleDirtyMsg (_env : Env) (dm : SharedDataManager) (treeIdx nid _senderIdx : Int) :
    SharedDataManager × List Effect :=
  (setDirty dm treeIdx nid true, [])

/-- Source `CoherencyManager::handleOwnershipWarmMessage`. -/
def handleOwnershipWarmMessage (env : Env) (dm : SharedDataManager)
    (treeIdx nid senderIdx : Int) : SharedDataManager × List Effect :=
  let cur := getCoherencyInfo dm treeIdx nid
  if !cur.isOwner then (dm, [])
  else
    let dm1 := addWarm dm treeIdx nid senderIdx
    let serializedSize := getSerializedSize dm1 treeIdx nid
    let serialized := putWire env nid ++ putWire env treeIdx ++ getSerialized dm1 treeIdx nid
    let retAddr := getAddress senderIdx
    (dm1, [sendMessage retAddr serialized (serializedSize + 2 * 4) env.DATA_TYPE])

/-- Source `CoherencyManager::handleMessage`. `bufLen` is the length of `buf`.
The second header word is read with `((unsigned int *)buf)[sizeof(int)]`,
that is element `4` of the word array, at byte offset `16`. -/
def handleMessage (env : Env) (dm : SharedDataManager) (senderIdx : Int) (buf : List Nat)
    (type : Int) : Option (SharedDataManager × List Effect) :=
  if type = env.REQUEST_DATA_TYPE then
    (getWire env buf 0).bind fun nid =>
    (getWire env buf (4 * 4)).bind fun treeIdx =>
    some (handleRequestDataMsg env dm treeIdx nid senderIdx)
  else if type = env.OWNERSHIP_TYPE then
    (getWire env buf 0).bind fun nid =>
    (getWire env buf (4 * 4)).bind fun treeIdx =>
    (getWire env buf (2 * 4)).bind fun timestamp =>
    (buf.get? (3 * 4)).bind fun ownerByte =>
    some (handleOwnershipMsg env dm treeIdx nid timestamp (toInt8 ownerByte) senderIdx)
  else if type = env.OWNERSHIP_WARM_ACK_TYPE then
    (getWire env buf 0).bind fun nid =>
    (getWire env buf (4 * 4)).bind fun treeIdx =>
    some (handleOwnershipWarmMessage env dm treeIdx nid senderIdx)
  else if type = env.DATA_TYPE then
    (getWire env buf 0).bind fun nid =>
    (getWire env buf (4 * 4)).bind fun treeIdx =>
    some (handleDataMsg env dm treeIdx nid (buf.drop (2 * 4)) (buf.length - 2 * 4) senderIdx)
  else if type = env.DIRTY_TYPE then
    (getWire env buf 0).bind fun nid =>
    (getWire env buf (4 * 4)).bind fun treeIdx =>
    some (handleDirtyMsg env dm treeIdx nid senderIdx)
  else
    some (dm, [Effect.unsupported type])

/-! ## Accessor hooks -/

/-- Source `CoherencyManager::checkRead`. -/
def checkRead (env : Env) (dm : SharedDataManager) (treeIdx nid : Int) :
    SharedDataManager × List Effect :=
  if !env.communicationEnabled then (dm, [])
  else
    let cur := getCoherencyInfo dm treeIdx nid
    if cur.isOwner || decide (cur.ownerIdx = -1) || cur.isWarm || !cur.isDirty then (dm, [])
    else
      let addr := getAddress cur.ownerIdx
      let sendInfo := putWire env nid ++ putWire env treeIdx
      (dm, [sendMessage addr sendInfo (2 * 4) env.REQUEST_DATA_TYPE, Effect.wait treeIdx nid])

/-- Source `CoherencyManager::checkWrite`. The increment `timestamp++` is made
on a C `int`: the successor, which at `INT_MAX` wraps to `INT_MIN`. -/
def checkWrite (env : Env) (dm : SharedDataManager) (treeIdx nid : Int) :
    SharedDataManager × List Effect :=
  if !env.communicationEnabled then (dm, [])
  else
    let cur := getCoherencyInfo dm treeIdx nid
    if !cur.isOwner then
      let timestamp := wrapInt32 (cur.timestamp + 1)
      let outBuf := putWire env nid ++ putWire env treeIdx ++ putWire env timestamp
        ++ [toChar env.thisAddressIdx]
      let dm1 := setCoherencyInfo dm treeIdx nid true (-1) cur.isWarm timestamp [] []
      (dm1, env.otherAddresses.map fun a => sendMessage a outBuf (3 * 4 + 1) env.OWNERSHIP_TYPE)
    else if decide (cur.warmList.length > 0) || decide (cur.readerList.length > 0) then
      let warmEffects :=
        if cur.warmList.length > 0 then
          let serializedSize := getSerializedSize dm treeIdx nid
          let serialized := putWire env nid ++ putWire env treeIdx ++ getSerialized dm treeIdx nid
          cur.warmList.map fun w =>
            sendMessage (getAddress w) serialized (serializedSize + 2 * 4) env.DATA_TYPE
        else []
      let msgInfo := putWire env nid ++ putWire env treeIdx
      let readerEffects := cur.readerList.map fun r =>
        sendMessage (getAddress r) msgInfo (2 * 4) env.DIRTY_TYPE
      (dm, warmEffects ++ readerEffects)
    else (dm, [])

/-! ## A system of peers -/

/-- Environment of peer `p` in a system whose peers are `peers`: the other
known peers are all the other peers of the system, and communication is
enabled. Byte order and type tags come from `base`. -/
def peerEnv (base : Env) (peers : List Int) (p : Int) : Env :=
  { base with
    thisAddressIdx := p
    otherAddresses := peers.filter fun q => decide (q ≠ p)
    communicationEnabled := true }

/-! ## Steps of the engine at one peer -/

/-- One step of the engine at a peer: a call of one of the five inbound
handlers (as dispatched by `handleMessage`) or of one of the two accessor
hooks, with its arguments. -/
inductive Step where
  | requestData (treeIdx nid senderIdx : Int)
  | ownership (treeIdx nid timestamp ownerIdx senderIdx : Int)
  | ownershipWarm (treeIdx nid senderIdx : Int)
  | data (treeIdx nid : Int) (serializedData : List Nat) (dataLen : Nat) (senderIdx : Int)
  | dirty (treeIdx nid senderIdx : Int)
  | read (treeIdx nid : Int)
  | write (treeIdx nid : Int)
deriving DecidableEq, Repr

/-- The call a step stands for. -/
def Step.run (env : Env) (dm : SharedDataManager) : Step → SharedDataManager × List Effect
  | Step.requestData treeIdx nid senderIdx => handleRequestDataMsg env dm treeIdx nid senderIdx
  | Step.ownership treeIdx nid timestamp ownerIdx senderIdx =>
    handleOwnershipMsg env dm treeIdx nid timestamp ownerIdx senderIdx
  | Step.ownershipWarm treeIdx nid senderIdx =>
    handleOwnershipWarmMessage env dm treeIdx nid senderIdx
  | Step.data treeIdx nid serializedData dataLen senderIdx =>
    handleDataMsg env dm treeIdx nid serializedData dataLen senderIdx
  | Step.dirty treeIdx nid senderIdx => handleDirtyMsg env dm treeIdx nid senderIdx
  | Step.read treeIdx nid => checkRead env dm treeIdx nid
  | Step.write treeIdx nid => checkWrite env dm treeIdx nid

/-- The `treeIdx` argument of the call. -/
def Step.treeIdx : Step → Int
  | Step.requestData treeIdx _ _ => treeIdx
  | Step.ownership treeIdx _ _ _ _ => treeIdx
  | Step.ownershipWarm treeIdx _ _ => treeIdx
  | Step.data treeIdx _ _ _ _ => treeIdx
  | Step.dirty treeIdx _ _ => treeIdx
  | Step.read treeIdx _ => treeIdx
  | Step.write treeIdx _ => treeIdx

/-- The `nid` argument of the call. -/
def Step.nid : Step → Int
  | Step.requestData _ nid _ => nid
  | Step.ownership _ nid _ _ _ => nid
  | Step.ownershipWarm _ nid _ => nid
  | Step.data _ nid _ _ _ => nid
  | Step.dirty _ nid _ => nid
  | Step.read _ nid => nid
  | Step.write _ nid => nid

/-- Stores a peer can be in: it starts with no record for any node (every
record is the fresh one) and arbitrary payloads, and then runs handlers and
accessors, directly or through `handleMessage`. -/
inductive Reachable (env : Env) : SharedDataManager → Prop where
  | start (payload : Int → Int → List Nat) :
    Reachable env { info := fun _ _ => CoherencyInfo.fresh, serialized := payload }
  | step (dm : SharedDataManager) (s : Step) :
    Reachable env dm → Reachable env (s.run env dm).1
  | message (dm : SharedDataManager) (senderIdx : Int) (buf : List Nat) (type : Int)
    (r : SharedDataManager × List Effect) :
    Reachable env dm → handleMessage env dm senderIdx buf type = some r → Reachable env r.1

/-! ## Delivery of messages between peers -/

/-- Peer `p` (environment `env`, store `dm`) handles, in the order they were
sent, the messages of the effect list of peer `senderIdx` that are addressed
to `p`: each body goes to `handleMessage` with its tag, as the channel hands
it over. `none` when one of these calls reads outside the body. -/
def handleAddressed (env : Env) (p senderIdx : Int) :
    SharedDataManager → List Effect → Option SharedDataManager
  | dm, [] => some dm
  | dm, Effect.send addr buf type :: es =>
    if addr = p then
      (handleMessage env dm senderIdx buf type).bind fun r =>
        handleAddressed env p senderIdx r.1 es
    else handleAddressed env p senderIdx dm es
  | dm, _ :: es => handleAddressed env p senderIdx dm es

/-- The five type tags are pairwise different (they are the case labels of
one `switch`). -/
@[reducible]
def Env.tagsDistinct (env : Env) : Prop :=
  [env.REQUEST_DATA_TYPE, env.OWNERSHIP_TYPE, env.OWNERSHIP_WARM_ACK_TYPE, env.DATA_TYPE,
    env.DIRTY_TYPE].Nodup

/-! ## Concrete environments and stores of the scenarios -/

/-- An environment with five distinct type tags. -/
def testEnv (thisIdx : Int) (others : List Int) (le : Bool) : Env :=
  { thisAddressIdx := thisIdx, otherAddresses := others, communicationEnabled := true,
    littleEndian := le, REQUEST_DATA_TYPE := 1, OWNERSHIP_TYPE := 2,
    OWNERSHIP_WARM_ACK_TYPE := 3, DATA_TYPE := 4, DIRTY_TYPE := 5 }

/-- A store in which every node has record `r` and payload `p`. -/
def constStore (r : CoherencyInfo) (p : List Nat) : SharedDataManager :=
  { info := fun _ _ => r, serialized := fun _ _ => p }

/-- A non-owner, non-warm, clean record with the given owner and timestamp. -/
def nonOwnerRecord (ownerIdx timestamp : Int) : CoherencyInfo :=
  { isOwner := false, ownerIdx := ownerIdx, isWarm := false, isDirty := false,
    timestamp := timestamp, warmList := [], readerList := [] }

/-- An owner record of peer `thisIdx` with the given subscriber lists. -/
def ownerRecord (thisIdx timestamp : Int) (warmList readerList : List Int) : CoherencyInfo :=
  { isOwner := true, ownerIdx := thisIdx, isWarm := false, isDirty := false,
    timestamp := timestamp, warmList := warmList, readerList := readerList }

/-- A warm record that is not owner, with the given owner, timestamp and
dirty flag. -/
def warmRecord (ownerIdx timestamp : Int) (isDirty : Bool) : CoherencyInfo :=
  { isOwner := false, ownerIdx := ownerIdx, isWarm := true, isDirty := isDirty,
    timestamp := timestamp, warmList := [], readerList := [] }

/-- The environment `testEnv` with communication disabled. -/
def disabledEnv (thisIdx : Int) (others : List Int) (le : Bool) : Env :=
  { testEnv thisIdx others le with communicationEnabled := false }

/-- The stores a peer goes through when it runs the steps of a list, in
order. -/
def runSteps (env : Env) (dm : SharedDataManager) (steps : List Step) : SharedDataManager :=
  steps.foldl (fun d s => (s.run env d).1) dm

end CoherencyManager

/-!
Command line queries (`cli_present`, `cli_get_value`), command dispatch
(`dispatchToHandler`) and command tables (`mdsdclAddCommands`, `findEntity`,
`cmdExecute`) of `mdsdcl/cmdExecute.c`, on the command structures of
`mdsdcl/dcl_p.h`.

A C array with its count field is a `List` (the count is its length), a
`char *` that the code tests against `NULL` is an `Option String`, and a
`char *` that the code reads without test is a `String`; a test that only
guards a `free` does not count, memory is not modelled.
-/

namespace Mdsdcl

/-- C library `strcasecmp`, of which the code only tests the result against
`0`: the result is `0` exactly when the two strings are equal after lowering
their ASCII letters, and `1` stands for every other result. -/
def strcasecmp (a b : String) : Int :=
  if a.data.map Char.toLower = b.data.map Char.toLower then 0 else 1

/-- Source `dclParameter` of `dcl_p.h`; `value_count` is the length of
`values`. -/
structure dclParameter where
  name : String
  prompt : Option String
  label : Option String
  type : Option String
  required : Int
  value_idx : Nat
  values : List String
  restOfLine : Option String
  useRestOfLine : Int
  listOk : Int
  help : Option String
deriving DecidableEq, Repr

/-- Source `dclQualifier` of `dcl_p.h`; `value_count` is the length of
`values`, and `syntaxName` is the field `syntax`. -/
structure dclQualifier where
  name : String
  value_idx : Nat
  values : List String
  position : Int
  valueRequired : Int
  isDefault : Int
  nonnegatable : Int
  negated : Int
  listOk : Int
  defaultValue : Option String
  type : Option String
  syntaxName : Option String
  help : Option String
deriving DecidableEq, Repr

/-- Source `dclCommand` of `dcl_p.h`; `parameter_count` and `qualifier_count`
are the lengths of `parameters` and `qualifiers`. -/
structure dclCommand where
  command_line : String
  rest_of_line : Int
  verb : Option String
  parameters : List dclParameter
  qualifiers : List dclQualifier
  routine : Option String
deriving DecidableEq, Repr

/-- The status codes `CLI_STS_*` of the header `dcl.h`, which is not part of
the sources: they are parameters. -/
structure CliStatus where
  CLI_STS_ABSENT : Int
  CLI_STS_PRESENT : Int
  CLI_STS_NEGATED : Int
  CLI_STS_IVQUAL : Int
  CLI_STS_IVVERB : Int
  CLI_STS_TOO_MANY_PRMS : Int
  CLI_STS_TOO_MANY_VALS : Int
  CLI_STS_MISSING_VALUE : Int
  CLI_STS_NOTNEGATABLE : Int
  CLI_STS_PROMPT_MORE : Int
deriving DecidableEq, Repr

/-- First loop of source `cli_present`: the parameters from index `i` on,
with the current value of `ans`. A parameter with a label is compared by its
label only. -/
def cli_present_parameters (sts : CliStatus) (name : String) : List dclParameter → Int → Int
  | [], ans => ans
  | p :: ps, ans =>
    if ans = sts.CLI_STS_ABSENT then
      let pname := match p.label with
        | some label => label
        | none => p.name
      cli_present_parameters sts name ps
        (if strcasecmp name pname = 0 then sts.CLI_STS_PRESENT else ans)
    else ans

/-- Second loop of source `cli_present`: the qualifiers from index `i` on. -/
def cli_present_qualifiers (sts : CliStatus) (name : String) : List dclQualifier → Int → Int
  | [], ans => ans
  | q :: qs, ans =>
    if ans = sts.CLI_STS_ABSENT then
      cli_present_qualifiers sts name qs
        (if strcasecmp name q.name = 0 then
          (if q.negated ≠ 0 then sts.CLI_STS_NEGATED else sts.CLI_STS_PRESENT)
        else ans)
    else ans

/-- Source `cli_present`. -/
def cli_present (sts : CliStatus) (cmd : dclCommand) (name : String) : Int :=
  cli_present_qualifiers sts name cmd.qualifiers
    (cli_present_parameters sts name cmd.parameters sts.CLI_STS_ABSENT)

/-- The test of the parameter loop of `cli_get_value`: the name equals the
parameter name, or the parameter has a label and the name equals it. -/
def parameterMatches (name : String) (p : dclParameter) : Bool :=
  decide (strcasecmp name p.name = 0) ||
    (match p.label with
      | some label => decide (strcasecmp name label = 0)
      | none => false)

/-- The test of the qualifier loops: the name equals the qualifier name. -/
def qualifierMatches (name : String) (q : dclQualifier) : Bool :=
  decide (strcasecmp name q.name = 0)

/-- First loop of source `cli_get_value`: the parameters from index `i` on,
with the current `ans` and the current content of `*value` (`none` while it
has not been written); it returns the parameters with their new value
indices. -/
def cli_get_value_parameters (sts : CliStatus) (name : String) :
    List dclParameter → Int → Option String → List dclParameter × Int × Option String
  | [], ans, value => ([], ans, value)
  | p :: ps, ans, value =>
    if ans = sts.CLI_STS_ABSENT then
      if parameterMatches name p then
        if p.value_idx ≥ p.values.length then
          let r := cli_get_value_parameters sts name ps sts.CLI_STS_ABSENT value
          ({ p with value_idx := 0 } :: r.1, r.2)
        else
          let r := cli_get_value_parameters sts name ps sts.CLI_STS_PRESENT
            (p.values.get? p.value_idx)
          ({ p with value_idx := p.value_idx + 1 } :: r.1, r.2)
      else
        let r := cli_get_value_parameters sts name ps ans value
        (p :: r.1, r.2)
    else (p :: ps, ans, value)

/-- Second loop of source `cli_get_value`: the qualifiers from index `i` on. -/
def cli_get_value_qualifiers (sts : CliStatus) (name : String) :
    List dclQualifier → Int → Option String → List dclQualifier × Int × Option String
  | [], ans, value => ([], ans, value)
  | q :: qs, ans, value =>
    if ans = sts.CLI_STS_ABSENT then
      if qualifierMatches name q then
        if q.value_idx ≥ q.values.length then
          let r := cli_get_value_qualifiers sts name qs sts.CLI_STS_ABSENT value
          ({ q with value_idx := 0 } :: r.1, r.2)
        else
          let r := cli_get_value_qualifiers sts name qs sts.CLI_STS_PRESENT
            (q.values.get? q.value_idx)
          ({ q with value_idx := q.value_idx + 1 } :: r.1, r.2)
      else
        let r := cli_get_value_qualifiers sts name qs ans value
        (q :: r.1, r.2)
    else (q :: qs, ans, value)

/-- Source `cli_get_value`: the returned status, the string written to
`*value` (`none` when nothing is written) and the command with its new value
indices. -/
def cli_get_value (sts : CliStatus) (cmd : dclCommand) (name : String) :
    Int × Option String × dclCommand :=
  if strcasecmp name "command_line" = 0 then (1, some cmd.command_line, cmd)
  else
    let rp := cli_get_value_parameters sts name cmd.parameters sts.CLI_STS_ABSENT none
    let rq := cli_get_value_qualifiers sts name cmd.qualifiers rp.2.1 rp.2.2
    (rq.2.1, rq.2.2, { cmd with parameters := rp.1, qualifiers := rq.1 })

/-- Results (status and value) of `k` successive calls of `cli_get_value`
with the same name, and the command after them. -/
def cli_get_values (sts : CliStatus) (name : String) :
    Nat → dclCommand → List (Int × Option String) × dclCommand
  | 0, cmd => ([], cmd)
  | k + 1, cmd =>
    let r := cli_get_value sts cmd name
    let rest := cli_get_values sts name k r.2.2
    ((r.1, r.2.1) :: rest.1, rest.2)

/-- The parameters with the value index of those that match `name` set to
`k`. -/
def parametersAt (name : String) (k : Nat) (ps : List dclParameter) : List dclParameter :=
  ps.map fun p => if parameterMatches name p then { p with value_idx := k } else p

/-- The qualifiers with the value index of those that match `name` set to
`k`. -/
def qualifiersAt (name : String) (k : Nat) (qs : List dclQualifier) : List dclQualifier :=
  qs.map fun q => if qualifierMatches name q then { q with value_idx := k } else q

/-- The command with the value index of the parameters and qualifiers that
match `name` set to `k`. -/
def commandAt (name : String) (k : Nat) (cmd : dclCommand) : dclCommand :=
  { cmd with
    parameters := parametersAt name k cmd.parameters
    qualifiers := qualifiersAt name k cmd.qualifiers }

/-- Status codes that are pairwise different. -/
def testStatus : CliStatus :=
  { CLI_STS_ABSENT := 100, CLI_STS_PRESENT := 101, CLI_STS_NEGATED := 102,
    CLI_STS_IVQUAL := 103, CLI_STS_IVVERB := 104, CLI_STS_TOO_MANY_PRMS := 105,
    CLI_STS_TOO_MANY_VALS := 106, CLI_STS_MISSING_VALUE := 107, CLI_STS_NOTNEGATABLE := 108,
    CLI_STS_PROMPT_MORE := 109 }

/-- A parameter with the given name, label and values, value index `0`. -/
def testParameter (name : String) (label : Option String) (values : List String) :
    dclParameter :=
  { name := name, prompt := none, label := label, type := none, required := 0,
    value_idx := 0, values := values, restOfLine := none, useRestOfLine := 0, listOk := 1,
    help := none }

/-- A qualifier with the given name, negation flag and values, value index
`0`. -/
def testQualifier (name : String) (negated : Int) (values : List String) : dclQualifier :=
  { name := name, value_idx := 0, values := values, position := 0, valueRequired := 0,
    isDefault := 0, nonnegatable := 0, negated := negated, listOk := 1, defaultValue := none,
    type := none, syntaxName := none, help := none }

/-- A command with the given command line, parameters and qualifiers. -/
def testCommand (line : String) (parameters : List dclParameter)
    (qualifiers : List dclQualifier) : dclCommand :=
  { command_line := line, rest_of_line := 0, verb := none, parameters := parameters,
    qualifiers := qualifiers, routine := none }

/-- The test of the parameter loop of `cli_present`: the name equals the
label of the parameter, or its name when it has no label. -/
def presentMatches (name : String) (p : dclParameter) : Bool :=
  decide (strcasecmp name (match p.label with
    | some label => label
    | none => p.name) = 0)

/-! ## Command dispatch: `dispatchToHandler` -/

/-- C library `strncasecmp`, of which the code only tests the result against
`0`: the result is `0` exactly when the two strings, each cut after its first
`n` characters, are equal after lowering their ASCII letters, and `1` stands
for every other result. -/
def strncasecmp (a b : String) (n : Nat) : Int :=
  if (a.data.map Char.toLower).take n = (b.data.map Char.toLower).take n then 0 else 1

/-- Undefined behaviour met by `dispatchToHandler`. -/
inductive Fault where
  /-- An array of parameters or qualifiers is read at an index that is not
  below its count. -/
  | index
  /-- A null pointer is read or written through. -/
  | memory
deriving DecidableEq, Repr

/-- Outcome of a stage of `dispatchToHandler`: undefined behaviour, a
`return` with a status (and the strings left in `*prompt` and `*error`), or
the state with which the next stage goes on. The messages are unbounded
strings (the code formats them in buffers of 100 bytes).

`passedNull` is `passed` for a state in which `values[0]` of the user's last
parameter is a null pointer, stored there by line 519: the lists of values of
the model hold strings, so the empty string stands in that place and the
constructor tells that the pointer is null. -/
inductive Checked (α : Type) where
  | fault (f : Fault) : Checked α
  | returned (status : Int) (prompt error : Option String) : Checked α
  | passed (a : α) : Checked α
  | passedNull (a : α) : Checked α
deriving DecidableEq, Repr

/-- The next stage `f` on the state of a stage that passed; a fault or a
`return` ends the function, and a null `values[0]` stays recorded. -/
def Checked.andThen {α β : Type} (x : Checked α) (f : α → Checked β) : Checked β :=
  match x with
  | Checked.fault e => Checked.fault e
  | Checked.returned status prompt error => Checked.returned status prompt error
  | Checked.passed a => f a
  | Checked.passedNull a =>
    match f a with
    | Checked.passed b => Checked.passedNull b
    | r => r

/-- Index of the first defined parameter with `useRestOfLine` set (the loop
of lines 496-534 of `cmdExecute.c` breaks there); `i` is the index of the head
of the list. -/
def useRestOfLineIndex : List dclParameter → Nat → Option Nat
  | [], _ => none
  | pdef :: pdefs, i => if pdef.useRestOfLine ≠ 0 then some i else useRestOfLineIndex pdefs (i + 1)

/-- Lines 501-521: the user's parameters when defined parameter `i` uses the
rest of the line. If the user gave parameter `i`, the parameters after it are
dropped, its `restOfLine` is cleared, and the pointer it held is stored in
`values[0]`, with a value count of `1`, also when that pointer is null. The
store goes through `values`, which has no slot `0` when the parameter has no
value. -/
def restOfLineParameters (i : Nat) (parameters : List dclParameter) :
    Checked (List dclParameter) :=
  if parameters.length > i then
    match parameters.get? i with
    | none => Checked.fault Fault.index
    | some p =>
      match p.values with
      | [] => Checked.fault Fault.memory
      | _ :: _ =>
        match p.restOfLine with
        | some rol =>
          Checked.passed (parameters.take i ++ [{ p with restOfLine := none, values := [rol] }])
        | none =>
          Checked.passedNull
            (parameters.take i ++ [{ p with restOfLine := none, values := [""] }])
  else Checked.passed parameters

/-- Lines 522-531: the user's qualifiers when defined parameter `i` uses the
rest of the line. Every qualifier with a position above `i` is freed, its
slot is set to null (`freeQualifier`), and the count goes down by one; the
slots are not moved, so the result is the first slots up to the new count,
`none` for a null slot. -/
def restOfLineQualifiers (i : Nat) (qualifiers : List dclQualifier) :
    List (Option dclQualifier) :=
  (qualifiers.map fun q => if q.position > (i : Int) then none else some q).take
    (qualifiers.length - (qualifiers.filter fun q => decide (q.position > (i : Int))).length)

/-- The test of the validity check (lines 541-549) for the user's text and
one defined qualifier: the text is a case-insensitive beginning of the defined
name, or it starts with `no`, is longer than `2`, and its rest is a
case-insensitive beginning of the defined name. -/
def qualifierValid (user : String) (qdef : dclQualifier) : Bool :=
  decide (strncasecmp user qdef.name user.length = 0) ||
    (decide (strncasecmp user "no" 2 = 0) && decide (user.length > 2) &&
      decide (strncasecmp (String.mk (user.data.drop 2)) qdef.name (user.length - 2) = 0))

/-- Inner loop of the validity check (lines 540-551): the index `j` at
which it breaks, `none` when it runs to `qualifier_count`. -/
def validQualifierIndex (user : String) : List dclQualifier → Option Nat
  | [] => none
  | qdef :: qdefs =>
    if qualifierValid user qdef then some 0
    else (validQualifierIndex user qdefs).map (· + 1)

/-- Validity check of the qualifiers (lines 538-558), on the slots left by
`restOfLineQualifiers`. -/
def checkQualifiers (sts : CliStatus) (qdefs : List dclQualifier) :
    List (Option dclQualifier) → Checked (List dclQualifier)
  | [] => Checked.passed []
  | none :: _ => Checked.fault Fault.memory
  | some q :: qs =>
    match validQualifierIndex q.name qdefs with
    | none =>
      Checked.returned sts.CLI_STS_IVQUAL none
        (some ("Qualifier \"" ++ q.name ++ "\" is not valid for this command\n"))
    | some _ => (checkQualifiers sts qdefs qs).andThen fun qs1 => Checked.passed (q :: qs1)

/-- The parameter made from the defaults of a defined parameter (lines
590-598): name, label and values of the definition, every other field
zero. -/
def defaultParameter (pdef : dclParameter) : dclParameter :=
  { name := pdef.name, prompt := none, label := pdef.label, type := none, required := 0,
    value_idx := 0, values := pdef.values, restOfLine := none, useRestOfLine := 0, listOk := 0,
    help := none }

/-- Loop over the defined parameters (lines 572-616), from defined parameter
`i` on, on the user's parameters: the check of lists of values, the merge of
the default values, which are added after the user's last parameter, and the
check of required parameters. -/
def checkParameters (sts : CliStatus) :
    List dclParameter → Nat → List dclParameter → Checked (List dclParameter)
  | [], _, parameters => Checked.passed parameters
  | pdef :: pdefs, i, parameters =>
    if pdef.listOk = 0 ∧ i < parameters.length ∧
        (match parameters.get? i with
          | some p => decide (p.values.length > 1)
          | none => false) = true then
      Checked.returned sts.CLI_STS_TOO_MANY_VALS none
        (some ("Parameter number " ++ toString (i + 1) ++
          " does not accept a list of values. " ++
          "Perhaps that parameter needs to enclosed in double quotes?\n"))
    else
      let parameters1 :=
        if pdef.values.length > 0 ∧ i + 1 > parameters.length then
          parameters ++ [defaultParameter pdef]
        else parameters
      if pdef.required ≠ 0 ∧ parameters1.length < i + 1 then
        Checked.returned sts.CLI_STS_PROMPT_MORE
          (some (match pdef.prompt with
            | some prompt => prompt
            | none => "What")) none
      else checkParameters sts pdefs (i + 1) parameters1

/-- The test of the loops of lines 626-639 and 647-653: the user's text is a
case-insensitive beginning of the defined name. -/
def qualifierBegins (qdef : dclQualifier) (q : dclQualifier) : Bool :=
  decide (strncasecmp q.name qdef.name q.name.length = 0)

/-- The qualifier added for a default qualifier (lines 658-664): the defined
name, the default value if there is one, every other field zero. -/
def defaultQualifier (qdef : dclQualifier) : dclQualifier :=
  { name := qdef.name, value_idx := 0,
    values := (match qdef.defaultValue with
      | some v => [v]
      | none => []),
    position := 0, valueRequired := 0, isDefault := 0, nonnegatable := 0, negated := 0,
    listOk := 0, defaultValue := none, type := none, syntaxName := none, help := none }

/-- Loop over the defined qualifiers (lines 620-675), on the user's
qualifiers: a qualifier that requires a value must have one, and a default
qualifier that the user did not give is added after the last one. -/
def checkDefinedQualifiers (sts : CliStatus) :
    List dclQualifier → List dclQualifier → Checked (List dclQualifier)
  | [], qualifiers => Checked.passed qualifiers
  | qdef :: qdefs, qualifiers =>
    if qdef.valueRequired ≠ 0 ∧
        (match qualifiers.find? (qualifierBegins qdef) with
          | some q => decide (q.values.length = 0)
          | none => false) = true then
      Checked.returned sts.CLI_STS_MISSING_VALUE none
        (some ("Qualifier \"" ++ qdef.name ++ "\" requires a value and none was provided\n"))
    else
      checkDefinedQualifiers sts qdefs
        (if qdef.isDefault ≠ 0 ∧ (qualifiers.any (qualifierBegins qdef)) = false then
          qualifiers ++ [defaultQualifier qdef]
        else qualifiers)

/-- Loop of lines 679-687, from the user's parameter `i` on: each of the
user's parameters takes the name and the label of the defined parameter with
the same index, read from `cmdDef->parameters[i]`. -/
def renameParameters (pdefs : List dclParameter) :
    List dclParameter → Nat → Checked (List dclParameter)
  | [], _ => Checked.passed []
  | p :: ps, i =>
    match pdefs.get? i with
    | none => Checked.fault Fault.index
    | some pdef =>
      (renameParameters pdefs ps (i + 1)).andThen fun ps1 =>
        Checked.passed ({ p with name := pdef.name, label := pdef.label } :: ps1)

/-- The test of the renaming loop (lines 700-702) for the user's text and
one defined qualifier: the text is a case-insensitive beginning of the defined
name, or of `no` followed by the defined name. -/
def qualifierRenames (user : String) (qdef : dclQualifier) : Bool :=
  decide (strncasecmp user qdef.name user.length = 0) ||
    decide (strncasecmp user ("no" ++ qdef.name) user.length = 0)

/-- Inner loop of the renaming (lines 696-737) for the user's qualifier `q`
of index `i`, over the defined qualifiers that are left. At the first defined
qualifier that passes the test: the check of lists of values, whose message
reads `cmdDef->qualifiers[i]` with the index of the user's qualifier; the
negation; the new name. -/
def renameQualifier (sts : CliStatus) (cmdDef_qualifiers : List dclQualifier) (i : Nat)
    (q : dclQualifier) : List dclQualifier → Checked dclQualifier
  | [] =>
    Checked.returned sts.CLI_STS_IVQUAL none
      (some ("Qualifier \"" ++ q.name ++ "\" is not valid for this command\n"))
  | qdef :: qdefs =>
    if qualifierRenames q.name qdef then
      if q.values.length > 1 ∧ qdef.listOk = 0 then
        match cmdDef_qualifiers.get? i with
        | none => Checked.fault Fault.index
        | some qdef_i =>
          Checked.returned sts.CLI_STS_TOO_MANY_VALS none
            (some ("Qualifier \"" ++ qdef_i.name ++ "\" does not permit a list of values\n"))
      else if strncasecmp q.name "no" 2 = 0 ∧ strncasecmp qdef.name "no" 2 ≠ 0 then
        if qdef.nonnegatable ≠ 0 then
          Checked.returned sts.CLI_STS_NOTNEGATABLE none
            (some ("Qualifier \"" ++ qdef.name ++ "\" cannot be negated\n"))
        else Checked.passed { q with negated := 1, name := qdef.name }
      else Checked.passed { q with name := qdef.name }
    else renameQualifier sts cmdDef_qualifiers i q qdefs

/-- Loop of lines 691-744, from the user's qualifier `i` on. -/
def renameQualifiers (sts : CliStatus) (cmdDef_qualifiers : List dclQualifier) :
    List dclQualifier → Nat → Checked (List dclQualifier)
  | [], _ => Checked.passed []
  | q :: qs, i =>
    (renameQualifier sts cmdDef_qualifiers i q cmdDef_qualifiers).andThen fun q1 =>
      (renameQualifiers sts cmdDef_qualifiers qs (i + 1)).andThen fun qs1 =>
        Checked.passed (q1 :: qs1)

/-- Lines 496-534 of source `dispatchToHandler`: at the first defined
parameter that uses the rest of the line, the user's parameters and the slots
of the user's qualifiers are cut down; without such a parameter they are left
as they are. -/
def restOfLine (cmd cmdDef : dclCommand) :
    Checked (List dclParameter × List (Option dclQualifier)) :=
  match useRestOfLineIndex cmdDef.parameters 0 with
  | some i =>
    (restOfLineParameters i cmd.parameters).andThen fun ps =>
      Checked.passed (ps, restOfLineQualifiers i cmd.qualifiers)
  | none => Checked.passed (cmd.parameters, cmd.qualifiers.map some)

/-- Lines 496-744 of source `dispatchToHandler`, which run when the command
definition is not `rest_of_line`: the checks of the user's command `cmd`
against the definition `cmdDef`, with the merge of the defaults and the
renaming. `passed` holds the user's command as it stands at the label
`rest_of_line`. -/
def dispatchToHandler_checks (sts : CliStatus) (cmd cmdDef : dclCommand) :
    Checked dclCommand :=
  (restOfLine cmd cmdDef).andThen fun st =>
  (checkQualifiers sts cmdDef.qualifiers st.2).andThen fun qs0 =>
  if st.1.length > cmdDef.parameters.length then
    Checked.returned sts.CLI_STS_TOO_MANY_PRMS none
      (some ("Too many parameters specified in the command. Maximum supported is " ++
        toString cmdDef.parameters.length ++ ". Provided was " ++ toString st.1.length ++
        ".\n"))
  else
    (checkParameters sts cmdDef.parameters 0 st.1).andThen fun ps1 =>
    (checkDefinedQualifiers sts cmdDef.qualifiers qs0).andThen fun qs1 =>
    (renameParameters cmdDef.parameters ps1 0).andThen fun ps2 =>
    (renameQualifiers sts cmdDef.qualifiers qs1 0).andThen fun qs2 =>
    Checked.passed { cmd with parameters := ps2, qualifiers := qs2 }

/-- Source `dispatchToHandler`. The lookup of the handler in the shared
library is the parameter `LibFindImageSymbol_C`, which gives the status of the
lookup and the handler; of a handler only the returned status is kept.
`passed` holds the returned status and the command given to the handler. -/
def dispatchToHandler (sts : CliStatus)
    (LibFindImageSymbol_C : String → String → Int × (dclCommand → Int))
    (image : String) (cmd cmdDef : dclCommand) : Checked (Int × dclCommand) :=
  (if cmdDef.rest_of_line ≠ 0 then Checked.passed cmd
    else dispatchToHandler_checks sts cmd cmdDef).andThen fun cmd1 =>
  match cmdDef.routine with
  | none =>
    Checked.returned sts.CLI_STS_IVVERB none
      (some ("No execution routine specified in command definition. " ++
        "Internal error, please report to MDSplus developers\n"))
  | some routine =>
    if (LibFindImageSymbol_C (if image = "mdsdcl_commands" then "Mdsdcl" else image)
        routine).1 % 2 = 1 then
      Checked.passed
        ((LibFindImageSymbol_C (if image = "mdsdcl_commands" then "Mdsdcl" else image)
          routine).2 { cmd1 with routine := some routine },
          { cmd1 with routine := some routine })
    else
      Checked.passed
        ((LibFindImageSymbol_C (if image = "mdsdcl_commands" then "Mdsdcl" else image)
          routine).1, { cmd1 with routine := some routine })

/-! ## Command tables: `mdsdclAddCommands`, `findEntity`, `cmdExecute` -/

/-- C library `strstr` on strings as lists of characters: the index of the
first occurrence of `needle` in `haystack`, `none` for a null result. -/
def strstr : List Char → List Char → Option Nat
  | [], needle => if needle = [] then some 0 else none
  | c :: cs, needle =>
    if (c :: cs).take needle.length = needle then some 0
    else (strstr cs needle).map (· + 1)

/-- The table name `commands` built by lines 999-1014 of source
`mdsdclAddCommands`: the name in lower case, cut at the first occurrence of
`_commands` when that occurrence starts at `strlen(name_in) - strlen("_commands")`,
followed by `_commands`. -/
def mdsdclAddCommands_commands (name_in : String) : String :=
  let name := name_in.data.map Char.toLower
  let name1 :=
    match strstr name "_commands".data with
    | some commands_part =>
      if (name_in.length : Int) - ("_commands".length : Int) = (commands_part : Int) then
        name.take commands_part
      else name
    | none => name
  String.mk (name1 ++ "_commands".data)

/-- The first child of an attribute of libxml2, of which the code reads the
`content`. -/
structure xmlAttrChild where
  content : Option String
deriving DecidableEq, Repr

/-- Source `xmlAttr` of libxml2, of which the code reads the first child. -/
structure xmlAttr where
  children : Option xmlAttrChild
deriving DecidableEq, Repr

/-- A pointer to an `xmlNode` of libxml2: null, or a node with its name, its
first property, its next sibling and its first child. -/
inductive xmlNode where
  | null : xmlNode
  | node (name : Option String) (properties : Option xmlAttr) (next children : xmlNode) : xmlNode
deriving DecidableEq, Repr

/-- Source `xmlDoc` of libxml2, of which the code reads `children`. -/
structure xmlDoc where
  children : xmlNode
deriving DecidableEq, Repr

/-- Source `dclDocList` of `dcl_p.h`, without its `next` field: the loaded
tables are a `List`, the top of the stack first. -/
structure dclDocList where
  name : String
  doc : xmlDoc
deriving DecidableEq, Repr

/-- The content `node->properties->children->content`, `none` when one of the
three pointers is null. -/
def propertyContent (properties : Option xmlAttr) : Option String :=
  match properties with
  | none => none
  | some attr =>
    match attr.children with
    | none => none
    | some child => child.content

/-- The test of lines 413-418 of source `findEntity` on the fields of a
node. -/
def entityMatches (category name : String) (nodeName : Option String)
    (properties : Option xmlAttr) : Bool :=
  match nodeName, propertyContent properties with
  | some nm, some content =>
    decide (strcasecmp nm category = 0) && decide (strncasecmp name content name.length = 0)
  | _, _ => false

/-- The test of line 421 of source `findEntity`: the name and the content
have the same length. -/
def entityExact (name : String) (properties : Option xmlAttr) : Bool :=
  match propertyContent properties with
  | some content => decide (name.length = content.length)
  | none => false

/-- Source `findEntity`, on the pair of the list `list` and the flag
`*exactFound`. The calls on `node->next` and `node->children` are made when
these are not null; for a null node the pair is returned as it is. -/
def findEntity (category name : String) : xmlNode → List xmlNode × Int → List xmlNode × Int
  | xmlNode.null, st => st
  | xmlNode.node nodeName properties next children, st =>
    if st.2 ≠ 0 then st
    else if entityMatches category name nodeName properties = true ∧
        entityExact name properties = true then
      ([xmlNode.node nodeName properties next children], 1)
    else
      findEntity category name children
        (findEntity category name next
          (if entityMatches category name nodeName properties then
            (st.1 ++ [xmlNode.node nodeName properties next children], st.2)
          else st))

/-- Loop of lines 1020-1031 of source `mdsdclAddCommands`: the first loaded
table with the name `commands`, with the tables before it and after it. -/
def findLoaded (commands : String) :
    List dclDocList → Option (List dclDocList × dclDocList × List dclDocList)
  | [] => none
  | doc_l :: docs =>
    if doc_l.name = commands then some ([], doc_l, docs)
    else (findLoaded commands docs).map fun r => (doc_l :: r.1, r.2.1, r.2.2)

/-- What a call of `mdsdclAddCommands` leaves: the returned status, the
loaded tables `dclDocs`, the string in `*error`, and the document given to
`mdsdclSetupCommands`. -/
structure AddCommands where
  status : Int
  dclDocs : List dclDocList
  error : Option String
  setup : Option xmlDoc
deriving DecidableEq, Repr

/-- Source `mdsdclAddCommands`. The environment and the parser of libxml2 are
the parameters `getenv` and `xmlParseFile` (`none` for a null result). -/
def mdsdclAddCommands (getenv : String → Option String)
    (xmlParseFile : String → Option xmlDoc) (dclDocs : List dclDocList) (name_in : String) :
    AddCommands :=
  let commands := mdsdclAddCommands_commands name_in
  match findLoaded commands dclDocs with
  | some (before, doc_l, after) =>
    { status := 0, dclDocs := doc_l :: (before ++ after), error := none, setup := some doc_l.doc }
  | none =>
    let mdsplus_dir :=
      match getenv "MDSPLUS_DIR" with
      | none => "."
      | some dir => dir ++ "/xml"
    let filename := mdsplus_dir ++ "/" ++ commands ++ ".xml"
    match xmlParseFile filename with
    | none =>
      { status := -1, dclDocs := dclDocs,
        error := some (" Error: unable to parse " ++ filename ++ "\n"), setup := none }
    | some doc =>
      { status := 0, dclDocs := { name := commands, doc := doc } :: dclDocs, error := none,
        setup := some doc }

/-- Loop of lines 1096-1131 of source `cmdExecute` over the loaded tables,
with the current `status`. `cli_status` is `CLI_STS(0)` of `dcl.h`; the status
of `processCommand` on a table and the node of the verb is a parameter. -/
def cmdExecute_tables (sts : CliStatus) (cli_status : Int)
    (processCommand : dclDocList → xmlNode → Int) (verb : String) :
    List dclDocList → Int → Int
  | [], status => status
  | doc_l :: docs, status =>
    if Nat.land (status % 4294967296).toNat 4294901760 = (cli_status % 4294967296).toNat ∧
        status ≠ sts.CLI_STS_PROMPT_MORE then
      let matchingVerbs := (findEntity "verb" verb doc_l.doc.children ([], 0)).1
      if matchingVerbs.length = 0 ∨ matchingVerbs.length > 1 then
        cmdExecute_tables sts cli_status processCommand verb docs sts.CLI_STS_IVVERB
      else
        match matchingVerbs with
        | [] => cmdExecute_tables sts cli_status processCommand verb docs sts.CLI_STS_IVVERB
        | verbNode :: _ =>
          if processCommand doc_l verbNode = 0 then processCommand doc_l verbNode
          else cmdExecute_tables sts cli_status processCommand verb docs
            (processCommand doc_l verbNode)
    else status

/-- The status returned by source `cmdExecute` for a command with the verb
`verb`, and the loaded tables after the call. -/
def cmdExecute (sts : CliStatus) (cli_status : Int) (getenv : String → Option String)
    (xmlParseFile : String → Option xmlDoc) (processCommand : dclDocList → xmlNode → Int)
    (dclDocs : List dclDocList) (verb : String) : Int × List dclDocList :=
  let dclDocs1 :=
    match dclDocs with
    | [] => (mdsdclAddCommands getenv xmlParseFile dclDocs "mdsdcl_commands").dclDocs
    | _ :: _ => dclDocs
  (cmdExecute_tables sts cli_status processCommand verb dclDocs1 sts.CLI_STS_IVVERB, dclDocs1)

/-- The nodes of a tree in the order of the visit: the node, the nodes
reached from its next sibling, the nodes reached from its first child. -/
def visitOrder : xmlNode → List xmlNode
  | xmlNode.null => []
  | xmlNode.node nodeName properties next children =>
    xmlNode.node nodeName properties next children :: (visitOrder next ++ visitOrder children)

/-- A node of the category whose first property has `name` as a
case-insensitive beginning. -/
def nodeMatches (category name : String) : xmlNode → Bool
  | xmlNode.null => false
  | xmlNode.node nodeName properties _ _ =>
    match nodeName, propertyContent properties with
    | some nm, some content =>
      decide (strcasecmp nm category = 0) &&
        decide ((name.data.map Char.toLower) = (content.data.map Char.toLower).take name.length)
    | _, _ => false

/-- A node of the category whose first property equals `name` without regard
to case. -/
def nodeEquals (category name : String) : xmlNode → Bool
  | xmlNode.null => false
  | xmlNode.node nodeName properties _ _ =>
    match nodeName, propertyContent properties with
    | some nm, some content =>
      decide (strcasecmp nm category = 0) && decide (strcasecmp name content = 0)
    | _, _ => false

/-- A node `<verb name="..."/>` without children, with its next sibling. -/
def testVerb (name : String) (next : xmlNode) : xmlNode :=
  xmlNode.node (some "verb") (some (xmlAttr.mk (some (xmlAttrChild.mk (some name))))) next
    xmlNode.null

/-- A table with the given name: a document whose root `<module name="...">`
has the given nodes as children. -/
def testTable (name : String) (verbs : xmlNode) : dclDocList :=
  dclDocList.mk name
    (xmlDoc.mk
      (xmlNode.node (some "module") (some (xmlAttr.mk (some (xmlAttrChild.mk (some name)))))
        xmlNode.null verbs))

end Mdsdcl

namespace CoherencyManager

/-! ## Wire codec lemmas -/


theorem bytesBE_length (x : Nat) : (bytesBE x).length = 4 := rfl

theorem wordBE_quad (a b c d : Nat) :
    wordBE [a, b, c, d] = a % 256 * 16777216 + b % 256 * 65536 + c % 256 * 256 + d % 256 := rfl

theorem bytesBE_wordBE (a b c d : Nat) :
    bytesBE (wordBE [a, b, c, d]) = [a % 256, b % 256, c % 256, d % 256] := by
  rw [wordBE_quad]
  simp only [bytesBE, List.cons.injEq, and_true]
  refine ⟨?_, ?_, ?_, ?_⟩ <;> omega

theorem wordBE_bytesBE (x : Nat) : wordBE (bytesBE x) = x % 4294967296 := by
  simp only [bytesBE, wordBE_quad]
  omega

theorem byteSwap_bytes (x : Nat) : bytesBE (byteSwap x) = (bytesBE x).reverse := by
  have h : (bytesBE x).reverse = [x % 256, x / 256 % 256, x / 65536 % 256, x / 16777216 % 256] :=
    rfl
  rw [byteSwap, h, bytesBE_wordBE]
  simp only [Nat.mod_mod]

theorem bytesBE_mod (x : Nat) : bytesBE (x % 4294967296) = bytesBE x := by
  simp only [bytesBE, List.cons.injEq, and_true]
  refine ⟨?_, ?_, ?_, ?_⟩ <;> omega

/-- On either host, a converted store leaves the word in network byte order. -/
theorem putWire_eq (env : Env) (v : Int) : putWire env v = bytesBE (toUInt32 v) := by
  unfold putWire storeNative fromNative
  cases env.littleEndian
  · simp [bytesBE_mod]
  · simp [byteSwap_bytes]

theorem putWire_length (env : Env) (v : Int) : (putWire env v).length = 4 := by
  rw [putWire_eq]; rfl

theorem quad_of_length {l : List Nat} (h : l.length = 4) :
    ∃ a b c d, l = [a, b, c, d] := by
  match l, h with
  | [a, b, c, d], _ => exact ⟨a, b, c, d, rfl⟩

theorem toInt32_mod (x : Nat) : toInt32 (x % 4294967296) = toInt32 x := by
  simp [toInt32]

theorem byteSwap_wordBE_reverse (a b c d : Nat) :
    byteSwap (wordBE [d, c, b, a]) = wordBE [a, b, c, d] := by
  have h : [d % 256, c % 256, b % 256, a % 256].reverse = [a % 256, b % 256, c % 256, d % 256] :=
    rfl
  rw [byteSwap, bytesBE_wordBE, h]
  simp only [wordBE_quad, Nat.mod_mod]

/-- On either host, a converted load reads the four bytes at `off` in network
byte order. -/
theorem getWire_eq (env : Env) (buf : List Nat) (off : Nat) :
    getWire env buf off =
      if off + 4 ≤ buf.length then some (toInt32 (wordBE ((buf.drop off).take 4))) else none := by
  unfold getWire loadNative toNative
  by_cases h : off + 4 ≤ buf.length
  · have hl : ((buf.drop off).take 4).length = 4 := by
      simp [List.length_take, List.length_drop]; omega
    obtain ⟨a, b, c, d, hq⟩ := quad_of_length hl
    rw [if_pos h, if_pos h, hq]
    cases env.littleEndian
    · simp [toInt32_mod]
    · simp [byteSwap_wordBE_reverse]
  · simp [h]

theorem toInt32_toUInt32 (v : Int) (h1 : -2147483648 ≤ v) (h2 : v < 2147483648) :
    toInt32 (toUInt32 v) = v := by
  unfold toInt32 toUInt32
  have h3 : ((v % 4294967296).toNat : Int) = v % 4294967296 :=
    Int.toNat_of_nonneg (Int.emod_nonneg _ (by norm_num))
  have h4 : (v % 4294967296).toNat % 4294967296 = (v % 4294967296).toNat := by
    apply Nat.mod_eq_of_lt
    have : v % 4294967296 < 4294967296 := Int.emod_lt_of_pos _ (by norm_num)
    omega
  rw [h4]
  split_ifs with h <;> omega

theorem toInt8_toChar (v : Int) (h1 : -128 ≤ v) (h2 : v ≤ 127) : toInt8 (toChar v) = v := by
  unfold toInt8 toChar
  have h3 : ((v % 256).toNat : Int) = v % 256 :=
    Int.toNat_of_nonneg (Int.emod_nonneg _ (by norm_num))
  have h4 : (v % 256).toNat % 256 = (v % 256).toNat := by
    apply Nat.mod_eq_of_lt
    have : v % 256 < 256 := Int.emod_lt_of_pos _ (by norm_num)
    omega
  rw [h4]
  split_ifs with h <;> omega

theorem toUInt32_lt (v : Int) : toUInt32 v < 4294967296 := by
  unfold toUInt32
  have : v % 4294967296 < 4294967296 := Int.emod_lt_of_pos _ (by norm_num)
  have : 0 ≤ v % 4294967296 := Int.emod_nonneg _ (by norm_num)
  omega

theorem toInt32_wordBE_bytesBE (v : Int) (h1 : -2147483648 ≤ v) (h2 : v < 2147483648) :
    toInt32 (wordBE (bytesBE (toUInt32 v))) = v := by
  rw [wordBE_bytesBE, toInt32_mod, toInt32_toUInt32 v h1 h2]

/-! ## Store lemmas -/

theorem modifyInfo_info_same (dm : SharedDataManager) (treeIdx nid : Int)
    (f : CoherencyInfo → CoherencyInfo) :
    (dm.modifyInfo treeIdx nid f).info treeIdx nid = f (dm.info treeIdx nid) := by
  simp [SharedDataManager.modifyInfo]

theorem modifyInfo_info_other (dm : SharedDataManager) (treeIdx nid t n : Int)
    (f : CoherencyInfo → CoherencyInfo) (h : ¬ (t = treeIdx ∧ n = nid)) :
    (dm.modifyInfo treeIdx nid f).info t n = dm.info t n := by
  simp [SharedDataManager.modifyInfo, h]

theorem modifyInfo_serialized (dm : SharedDataManager) (treeIdx nid : Int)
    (f : CoherencyInfo → CoherencyInfo) :
    (dm.modifyInfo treeIdx nid f).serialized = dm.serialized := rfl

/-- The record of the node after `handleOwnershipMsg`. -/
theorem handleOwnershipMsg_info (env : Env) (dm : SharedDataManager)
    (treeIdx nid timestamp ownerIdx senderIdx : Int) :
    (handleOwnershipMsg env dm treeIdx nid timestamp ownerIdx senderIdx).1.info treeIdx nid =
      { isOwner := decide (ownerIdx = env.thisAddressIdx)
        ownerIdx := ownerIdx
        isWarm := (dm.info treeIdx nid).isWarm
        isDirty := if (dm.info treeIdx nid).isWarm then (dm.info treeIdx nid).isDirty else true
        timestamp := timestamp
        warmList := if (dm.info treeIdx nid).isOwner && !decide (ownerIdx = env.thisAddressIdx)
          then [] else (dm.info treeIdx nid).warmList
        readerList := if (dm.info treeIdx nid).isOwner && !decide (ownerIdx = env.thisAddressIdx)
          then [] else (dm.info treeIdx nid).readerList } := by
  unfold handleOwnershipMsg
  cases h : (dm.info treeIdx nid).isWarm <;>
    simp [getCoherencyInfo, h, setOwner, setDirty, modifyInfo_info_same]

/-- Whatever the record and the message, `handleOwnershipMsg` installs the
owner and the timestamp of the message. -/
theorem handleOwnershipMsg_installs (env : Env) (dm : SharedDataManager)
    (treeIdx nid timestamp ownerIdx senderIdx : Int) :
    ((handleOwnershipMsg env dm treeIdx nid timestamp ownerIdx senderIdx).1.info treeIdx nid).ownerIdx
        = ownerIdx ∧
    ((handleOwnershipMsg env dm treeIdx nid timestamp ownerIdx senderIdx).1.info treeIdx nid).timestamp
        = timestamp := by
  rw [handleOwnershipMsg_info]
  exact ⟨rfl, rfl⟩

/-- C1, evaluated on the code at scenario S6: a peer whose record is
(timestamp 7, owner 2) handles OWNERSHIP(timestamp 3, owner 4). The claim
says the message is dropped; the code installs owner 4 with timestamp 3 and
sets the dirty flag. -/
theorem handleOwnershipMsg_stale_claim_installed :
    (nonOwnerRecord 2 7).timestamp = 7 ∧ (nonOwnerRecord 2 7).ownerIdx = 2 ∧
    (handleOwnershipMsg (testEnv 3 [2, 4] true) (constStore (nonOwnerRecord 2 7) []) 0 7 3 4 4).1.info
        0 7 = CoherencyInfo.mk false 4 false true 3 [] [] ∧
    (handleOwnershipMsg (testEnv 3 [2, 4] true) (constStore (nonOwnerRecord 2 7) []) 0 7 3 4 4).2
      = [] := by
  decide

/-- C2, evaluated on the code at scenario S4: peer 3 handles the claims of
peers 2 and 5, both with timestamp 10. Handled as 2-then-5 the recorded owner
is 5, handled as 5-then-2 it is 2: the last message wins, not the larger
index. -/
theorem handleOwnershipMsg_tie_depends_on_order :
    ((handleOwnershipMsg (testEnv 3 [2, 5] true)
        (handleOwnershipMsg (testEnv 3 [2, 5] true) (constStore CoherencyInfo.fresh [])
          0 7 10 2 2).1 0 7 10 5 5).1.info 0 7).ownerIdx = 5 ∧
    ((handleOwnershipMsg (testEnv 3 [2, 5] true)
        (handleOwnershipMsg (testEnv 3 [2, 5] true) (constStore CoherencyInfo.fresh [])
          0 7 10 5 5).1 0 7 10 2 2).1.info 0 7).ownerIdx = 2 := by
  decide

/-- C3, evaluated on the code: one OWNERSHIP step takes the recorded timestamp
of node (0, 7) from 7 down to 3, both when `handleOwnershipMsg` is called with
timestamp 3 and when `handleMessage` dispatches a buffer that carries it. -/
theorem timestamp_decreases_on_stale_ownership :
    ((constStore (nonOwnerRecord 2 7) []).info 0 7).timestamp = 7 ∧
    ((handleOwnershipMsg (testEnv 3 [2, 4] true) (constStore (nonOwnerRecord 2 7) [])
        0 7 3 4 4).1.info 0 7).timestamp = 3 ∧
    (handleMessage (testEnv 3 [2, 4] true) (constStore (nonOwnerRecord 2 7) []) 4
        [0, 0, 0, 7, 0, 0, 0, 0, 0, 0, 0, 3, 4, 0, 0, 0, 0, 0, 0, 0] 2).map
      (fun r => (r.1.info 0 7).timestamp) = some 3 := by
  decide

/-- C5, evaluated on the code: `handleMessage` takes `treeIdx` from byte
offset 16, not 4. A DATA body whose bytes 0..3 encode nid 7, whose bytes 4..7
encode tree 0 and whose bytes 16..19 encode 1 reaches `handleDataMsg` with
tree 1; a body of 8 bytes (REQUEST_DATA for nid 7, tree 0) or of 13 bytes
(OWNERSHIP) ends before offset 16, so the read leaves the buffer. -/
theorem handleMessage_treeIdx_from_offset_16 :
    handleMessage (testEnv 1 [2] true) (constStore CoherencyInfo.fresh []) 2
        (bytesBE 7 ++ bytesBE 0 ++ [0, 0, 0, 0, 0, 0, 0, 0] ++ bytesBE 1) 4
      = some (handleDataMsg (testEnv 1 [2] true) (constStore CoherencyInfo.fresh []) 1 7
          ([0, 0, 0, 0, 0, 0, 0, 0] ++ bytesBE 1) 12 2) ∧
    handleMessage (testEnv 1 [2] true) (constStore CoherencyInfo.fresh []) 2
        (bytesBE 7 ++ bytesBE 0) 1 = none ∧
    handleMessage (testEnv 1 [2] true) (constStore CoherencyInfo.fresh []) 2
        (bytesBE 7 ++ bytesBE 0 ++ bytesBE 6 ++ [2]) 2 = none := by
  refine ⟨rfl, rfl, rfl⟩

/-- C6, evaluated on the code: peer 2 holds the 12-byte payload
`0 0 0 0 0 0 0 0 0 0 0 1` for node (tree 0, nid 7) and answers a request of
peer 1 with a DATA message; peer 1, handling that message, stores the
payload under (tree 1, nid 7) and leaves (tree 0, nid 7) as it was. With the
2-byte payload `0xDE 0xAD` the message is 10 bytes long and the read of
`treeIdx` leaves the buffer. -/
theorem data_round_trip_stores_under_other_tree :
    (handleRequestDataMsg (testEnv 2 [1] true)
        (constStore (ownerRecord 2 1 [] []) [0, 0, 0, 0, 0, 0, 0, 0, 0, 0, 0, 1]) 0 7 1).2
      = [Effect.send 1 [0, 0, 0, 7, 0, 0, 0, 0, 0, 0, 0, 0, 0, 0, 0, 0, 0, 0, 0, 1] 4] ∧
    (handleMessage (testEnv 1 [2] true) (constStore (nonOwnerRecord 2 1) []) 2
        [0, 0, 0, 7, 0, 0, 0, 0, 0, 0, 0, 0, 0, 0, 0, 0, 0, 0, 0, 1] 4).map
      (fun r => (r.1.serialized 0 7, r.1.serialized 1 7))
      = some ([], [0, 0, 0, 0, 0, 0, 0, 0, 0, 0, 0, 1]) ∧
    (handleRequestDataMsg (testEnv 2 [1] true)
        (constStore (ownerRecord 2 1 [] []) [222, 173]) 0 7 1).2
      = [Effect.send 1 [0, 0, 0, 7, 0, 0, 0, 0, 222, 173] 4] ∧
    handleMessage (testEnv 1 [2] true) (constStore (nonOwnerRecord 2 1) []) 2
        [0, 0, 0, 7, 0, 0, 0, 0, 222, 173] 4 = none := by
  refine ⟨by decide, by decide, by decide, rfl⟩

/-- A header-only buffer (`nid`, `treeIdx` converted to network byte order)
handed to the channel with length `2 * sizeof(int)`. -/
theorem sendMessage_header (env : Env) (a nid treeIdx type : Int) :
    sendMessage a (putWire env nid ++ putWire env treeIdx) (2 * 4) type
      = Effect.send a (bytesBE (toUInt32 nid) ++ bytesBE (toUInt32 treeIdx)) type := by
  rw [sendMessage, putWire_eq, putWire_eq]
  rfl

/-- A DATA buffer handed to the channel with its full length. -/
theorem sendMessage_data (env : Env) (a nid treeIdx type : Int) (p : List Nat) :
    sendMessage a (putWire env nid ++ putWire env treeIdx ++ p) (p.length + 2 * 4) type
      = Effect.send a (bytesBE (toUInt32 nid) ++ bytesBE (toUInt32 treeIdx) ++ p) type := by
  rw [sendMessage, putWire_eq, putWire_eq, List.take_of_length_le]
  simp [bytesBE_length]
  omega

/-- An OWNERSHIP buffer handed to the channel with its full length. -/
theorem sendMessage_ownership (env : Env) (a nid treeIdx timestamp type : Int) (c : Nat) :
    sendMessage a (putWire env nid ++ putWire env treeIdx ++ putWire env timestamp ++ [c])
        (3 * 4 + 1) type
      = Effect.send a (bytesBE (toUInt32 nid) ++ bytesBE (toUInt32 treeIdx)
          ++ bytesBE (toUInt32 timestamp) ++ [c]) type := by
  rw [sendMessage, putWire_eq, putWire_eq, putWire_eq]
  rfl

/-- The low 32 bits of the two's complement reading of a word are the word. -/
theorem toUInt32_toInt32 (n : Nat) : toUInt32 (toInt32 n) = n % 4294967296 := by
  unfold toUInt32 toInt32
  split_ifs <;> omega

/-- Wrapping to a C `int` keeps the low 32 bits. -/
theorem toUInt32_wrapInt32 (x : Int) : toUInt32 (wrapInt32 x) = toUInt32 x := by
  rw [wrapInt32, toUInt32_toInt32]
  exact Nat.mod_eq_of_lt (toUInt32_lt x)

/-- An integer in the range of a C `int` is not changed by wrapping. -/
theorem wrapInt32_of_range (x : Int) (h1 : -2147483648 ≤ x) (h2 : x < 2147483648) :
    wrapInt32 x = x :=
  toInt32_toUInt32 x h1 h2

/-- Result of `checkWrite` on a record that is not owner. -/
theorem checkWrite_of_not_owner (env : Env) (dm : SharedDataManager) (treeIdx nid : Int)
    (hcomm : env.communicationEnabled = true)
    (hown : (dm.info treeIdx nid).isOwner = false) :
    checkWrite env dm treeIdx nid =
      (setCoherencyInfo dm treeIdx nid true (-1) (dm.info treeIdx nid).isWarm
          (wrapInt32 ((dm.info treeIdx nid).timestamp + 1)) [] [],
        env.otherAddresses.map fun a =>
          Effect.send a
            (bytesBE (toUInt32 nid) ++ bytesBE (toUInt32 treeIdx)
              ++ bytesBE (toUInt32 ((dm.info treeIdx nid).timestamp + 1))
              ++ [toChar env.thisAddressIdx])
            env.OWNERSHIP_TYPE) := by
  unfold checkWrite
  simp only [sendMessage_ownership, getCoherencyInfo, toUInt32_wrapInt32]
  simp [hcomm, hown]

/-- Result of `checkWrite` on a record that is owner. -/
theorem checkWrite_of_owner (env : Env) (dm : SharedDataManager) (treeIdx nid : Int)
    (hcomm : env.communicationEnabled = true)
    (hown : (dm.info treeIdx nid).isOwner = true) :
    checkWrite env dm treeIdx nid =
      (dm,
        (dm.info treeIdx nid).warmList.map (fun w =>
          Effect.send w
            (bytesBE (toUInt32 nid) ++ bytesBE (toUInt32 treeIdx) ++ dm.serialized treeIdx nid)
            env.DATA_TYPE)
        ++ (dm.info treeIdx nid).readerList.map (fun r =>
          Effect.send r (bytesBE (toUInt32 nid) ++ bytesBE (toUInt32 treeIdx))
            env.DIRTY_TYPE)) := by
  unfold checkWrite
  simp only [getSerializedSize, getSerialized, sendMessage_header, sendMessage_data,
    getCoherencyInfo, getAddress]
  by_cases h1 : (dm.info treeIdx nid).warmList.length > 0 <;>
    by_cases h2 : (dm.info treeIdx nid).readerList.length > 0
  · simp [hcomm, hown, h1, h2]
  · simp [hcomm, hown, h1, h2]
  · have e1 : (dm.info treeIdx nid).warmList = [] := List.eq_nil_of_length_eq_zero (by omega)
    simp [hcomm, hown, h2, e1]
  · have e1 : (dm.info treeIdx nid).warmList = [] := List.eq_nil_of_length_eq_zero (by omega)
    have e2 : (dm.info treeIdx nid).readerList = [] := List.eq_nil_of_length_eq_zero (by omega)
    simp [hcomm, hown, e1, e2]

/-- C7: `checkRead` never changes the store; it sends exactly when
communication is enabled and the record is not owner, has a known owner, is
not warm and is dirty, and then it sends one REQUEST_DATA whose body is
`to_wire(nid)`, `to_wire(treeIdx)` to the recorded owner and waits on the
event of the node. -/
theorem checkRead_spec (env : Env) (dm : SharedDataManager) (treeIdx nid : Int) :
    (checkRead env dm treeIdx nid).1 = dm ∧
    (checkRead env dm treeIdx nid).2 =
      if env.communicationEnabled = true ∧ (dm.info treeIdx nid).isOwner = false ∧
          (dm.info treeIdx nid).ownerIdx ≠ -1 ∧ (dm.info treeIdx nid).isWarm = false ∧
          (dm.info treeIdx nid).isDirty = true
      then [Effect.send (dm.info treeIdx nid).ownerIdx
              (bytesBE (toUInt32 nid) ++ bytesBE (toUInt32 treeIdx)) env.REQUEST_DATA_TYPE,
            Effect.wait treeIdx nid]
      else [] := by
  unfold checkRead
  simp only [sendMessage_header, getCoherencyInfo, getAddress]
  cases hc : env.communicationEnabled
  · simp
  · cases ho : (dm.info treeIdx nid).isOwner <;> cases hw : (dm.info treeIdx nid).isWarm <;>
      cases hd : (dm.info treeIdx nid).isDirty <;>
      by_cases hi : (dm.info treeIdx nid).ownerIdx = -1 <;>
      simp [hi]

/-- C8, evaluated on the code: the record of node (0, 7) at peer 1 is not
owner and has the timestamp `INT_MAX` = 2147483647, which one OWNERSHIP
message installs. `checkWrite` increments the C `int`: the record and the
OWNERSHIP message carry -2147483648 (bytes `80 00 00 00`), not 2147483648. -/
theorem checkWrite_takeover_wraps_at_int_max :
    ((handleOwnershipMsg (testEnv 1 [2] true) (constStore CoherencyInfo.fresh []) 0 7 2147483647
        2 2).1.info 0 7).timestamp = 2147483647 ∧
    ((checkWrite (testEnv 1 [2] true)
        (handleOwnershipMsg (testEnv 1 [2] true) (constStore CoherencyInfo.fresh []) 0 7
          2147483647 2 2).1 0 7).1.info 0 7).timestamp = -2147483648 ∧
    ((checkWrite (testEnv 1 [2] true) (constStore (nonOwnerRecord 2 2147483647) []) 0 7).1.info
        0 7).timestamp = -2147483648 ∧
    (checkWrite (testEnv 1 [2] true) (constStore (nonOwnerRecord 2 2147483647) []) 0 7).2
      = [Effect.send 2 [0, 0, 0, 7, 0, 0, 0, 0, 128, 0, 0, 0, 1] 2] := by
  decide

/-- C8, as the code has it: with communication enabled, `checkWrite` on a
record that is not owner and whose timestamp `t` is a C `int` below `INT_MAX`
leaves the record owner, with timestamp `t + 1`, the warm flag as it was and
both subscriber lists empty, and its effects are exactly one OWNERSHIP message
per other known peer, whose body is `to_wire(nid)`, `to_wire(treeIdx)`,
`to_wire(t + 1)` and the index of this peer as one byte. -/
theorem checkWrite_takeover (env : Env) (dm : SharedDataManager) (treeIdx nid : Int)
    (hcomm : env.communicationEnabled = true)
    (hown : (dm.info treeIdx nid).isOwner = false)
    (hts : -2147483648 ≤ (dm.info treeIdx nid).timestamp ∧
      (dm.info treeIdx nid).timestamp < 2147483647) :
    ((checkWrite env dm treeIdx nid).1.info treeIdx nid).isOwner = true ∧
    ((checkWrite env dm treeIdx nid).1.info treeIdx nid).timestamp
      = (dm.info treeIdx nid).timestamp + 1 ∧
    ((checkWrite env dm treeIdx nid).1.info treeIdx nid).isWarm = (dm.info treeIdx nid).isWarm ∧
    ((checkWrite env dm treeIdx nid).1.info treeIdx nid).warmList = [] ∧
    ((checkWrite env dm treeIdx nid).1.info treeIdx nid).readerList = [] ∧
    (checkWrite env dm treeIdx nid).2 = env.otherAddresses.map fun a =>
      Effect.send a
        (bytesBE (toUInt32 nid) ++ bytesBE (toUInt32 treeIdx)
          ++ bytesBE (toUInt32 ((dm.info treeIdx nid).timestamp + 1))
          ++ [toChar env.thisAddressIdx])
        env.OWNERSHIP_TYPE := by
  rw [checkWrite_of_not_owner env dm treeIdx nid hcomm hown,
    wrapInt32_of_range _ (by omega) (by omega)]
  simp [setCoherencyInfo, modifyInfo_info_same]

/-- C8 at scenario S3 (peer 1 of peers {1, 2}, record with owner 2 and
timestamp 5, node (tree 0, nid 7)) and at a first write on a fresh record. -/
theorem checkWrite_takeover_witness :
    ((testEnv 1 [2] true).communicationEnabled = true ∧
      ((constStore (nonOwnerRecord 2 5) []).info 0 7).isOwner = false ∧
      ((-2147483648 : Int) ≤ ((constStore (nonOwnerRecord 2 5) []).info 0 7).timestamp ∧
        ((constStore (nonOwnerRecord 2 5) []).info 0 7).timestamp < 2147483647)) ∧
    (((checkWrite (testEnv 1 [2] true) (constStore (nonOwnerRecord 2 5) []) 0 7).1.info 0 7).isOwner
        = true ∧
      ((checkWrite (testEnv 1 [2] true) (constStore (nonOwnerRecord 2 5) []) 0 7).1.info 0 7).timestamp
        = 5 + 1 ∧
      ((checkWrite (testEnv 1 [2] true) (constStore (nonOwnerRecord 2 5) []) 0 7).1.info 0 7).isWarm
        = false ∧
      ((checkWrite (testEnv 1 [2] true) (constStore (nonOwnerRecord 2 5) []) 0 7).1.info 0 7).warmList
        = [] ∧
      ((checkWrite (testEnv 1 [2] true) (constStore (nonOwnerRecord 2 5) []) 0 7).1.info 0 7).readerList
        = [] ∧
      (checkWrite (testEnv 1 [2] true) (constStore (nonOwnerRecord 2 5) []) 0 7).2
        = [Effect.send 2 [0, 0, 0, 7, 0, 0, 0, 0, 0, 0, 0, 6, 1] 2]) ∧
    ((checkWrite (testEnv 1 [2] true) (constStore CoherencyInfo.fresh []) 0 7).1.info 0 7).timestamp
      = 0 + 1 :=
  ⟨⟨rfl, rfl, by decide⟩,
    checkWrite_takeover (testEnv 1 [2] true) (constStore (nonOwnerRecord 2 5) []) 0 7 rfl rfl
      (by decide),
    (checkWrite_takeover (testEnv 1 [2] true) (constStore CoherencyInfo.fresh []) 0 7 rfl rfl
      (by decide)).2.1⟩

/-- C9: with communication enabled, `checkWrite` on a record that is owner
leaves the store as it is, and its effects are, in this order, one DATA
message (header and current payload) per entry of `warms` and then one DIRTY
message (header only) per entry of `readers`; nothing else is sent, and
nothing at all when both lists are empty. -/
theorem checkWrite_owner_fanout (env : Env) (dm : SharedDataManager) (treeIdx nid : Int)
    (hcomm : env.communicationEnabled = true)
    (hown : (dm.info treeIdx nid).isOwner = true) :
    (checkWrite env dm treeIdx nid).1 = dm ∧
    (checkWrite env dm treeIdx nid).2 =
      (dm.info treeIdx nid).warmList.map (fun w =>
        Effect.send w
          (bytesBE (toUInt32 nid) ++ bytesBE (toUInt32 treeIdx) ++ dm.serialized treeIdx nid)
          env.DATA_TYPE)
      ++ (dm.info treeIdx nid).readerList.map (fun r =>
        Effect.send r (bytesBE (toUInt32 nid) ++ bytesBE (toUInt32 treeIdx)) env.DIRTY_TYPE) := by
  rw [checkWrite_of_owner env dm treeIdx nid hcomm hown]
  exact ⟨rfl, rfl⟩

/-- C9 at scenario S2: peer 1 owner with `readers = {2}`, `warms = {3}` and
payload `0x01`; peer 3 is sent DATA with `0x01`, then peer 2 is sent DIRTY. -/
theorem checkWrite_owner_fanout_witness :
    ((testEnv 1 [2, 3] true).communicationEnabled = true ∧
      ((constStore (ownerRecord 1 4 [3] [2]) [1]).info 0 7).isOwner = true) ∧
    (checkWrite (testEnv 1 [2, 3] true) (constStore (ownerRecord 1 4 [3] [2]) [1]) 0 7).1
      = constStore (ownerRecord 1 4 [3] [2]) [1] ∧
    (checkWrite (testEnv 1 [2, 3] true) (constStore (ownerRecord 1 4 [3] [2]) [1]) 0 7).2
      = [Effect.send 3 [0, 0, 0, 7, 0, 0, 0, 0, 1] 4, Effect.send 2 [0, 0, 0, 7, 0, 0, 0, 0] 5] :=
  ⟨⟨rfl, rfl⟩,
    checkWrite_owner_fanout (testEnv 1 [2, 3] true) (constStore (ownerRecord 1 4 [3] [2]) [1]) 0 7
      rfl rfl⟩

theorem mem_setInsert (x y : Int) (xs : List Int) : y ∈ setInsert x xs ↔ y = x ∨ y ∈ xs := by
  unfold setInsert
  split_ifs with h
  · constructor
    · intro hy; exact Or.inr hy
    · rintro (rfl | hy)
      · exact h
      · exact hy
  · simp [or_comm]

/-- C10: whatever the record, `handleRequestDataMsg` sends exactly one
message, a DATA to the sender carrying header and current payload, the
readers afterwards are the former readers together with the sender, and
every other field of the record, the payload, and every other record are
unchanged. -/
theorem handleRequestDataMsg_spec (env : Env) (dm : SharedDataManager)
    (treeIdx nid senderIdx : Int) :
    (handleRequestDataMsg env dm treeIdx nid senderIdx).2 =
      [Effect.send senderIdx
        (bytesBE (toUInt32 nid) ++ bytesBE (toUInt32 treeIdx) ++ dm.serialized treeIdx nid)
        env.DATA_TYPE] ∧
    (∀ x, x ∈ ((handleRequestDataMsg env dm treeIdx nid senderIdx).1.info treeIdx nid).readerList
      ↔ x = senderIdx ∨ x ∈ (dm.info treeIdx nid).readerList) ∧
    (handleRequestDataMsg env dm treeIdx nid senderIdx).1.info treeIdx nid =
      { dm.info treeIdx nid with
        readerList := ((handleRequestDataMsg env dm treeIdx nid senderIdx).1.info treeIdx nid).readerList } ∧
    (∀ t n, ¬ (t = treeIdx ∧ n = nid) →
      (handleRequestDataMsg env dm treeIdx nid senderIdx).1.info t n = dm.info t n) ∧
    (handleRequestDataMsg env dm treeIdx nid senderIdx).1.serialized = dm.serialized := by
  unfold handleRequestDataMsg
  refine ⟨?_, ?_, ?_, ?_, ?_⟩
  · simp only [getSerializedSize, getSerialized, sendMessage_data, getAddress]
  · intro x
    simp [addReader, modifyInfo_info_same, mem_setInsert]
  · simp [addReader, modifyInfo_info_same]
  · intro t n h
    simp [addReader, modifyInfo_info_other _ _ _ _ _ _ h]
  · rfl

/-! ## Steps that leave ownership alone -/

/-- The store is the same after `checkRead`. -/
theorem checkRead_fst (env : Env) (dm : SharedDataManager) (treeIdx nid : Int) :
    (checkRead env dm treeIdx nid).1 = dm := by
  unfold checkRead
  simp only []
  split_ifs <;> rfl

/-- The handlers other than `handleOwnershipMsg`, and `checkRead`, leave the
owner flag of every node as it is. -/
theorem other_steps_keep_isOwner (env : Env) (dm : SharedDataManager)
    (treeIdx nid senderIdx : Int) (serializedData : List Nat) (dataLen : Nat) (t n : Int) :
    ((handleRequestDataMsg env dm treeIdx nid senderIdx).1.info t n).isOwner
      = (dm.info t n).isOwner ∧
    ((handleOwnershipWarmMessage env dm treeIdx nid senderIdx).1.info t n).isOwner
      = (dm.info t n).isOwner ∧
    ((handleDataMsg env dm treeIdx nid serializedData dataLen senderIdx).1.info t n).isOwner
      = (dm.info t n).isOwner ∧
    ((handleDirtyMsg env dm treeIdx nid senderIdx).1.info t n).isOwner = (dm.info t n).isOwner ∧
    ((checkRead env dm treeIdx nid).1.info t n).isOwner = (dm.info t n).isOwner := by
  refine ⟨?_, ?_, ?_, ?_, ?_⟩
  · by_cases h : t = treeIdx ∧ n = nid <;>
      simp [handleRequestDataMsg, addReader, SharedDataManager.modifyInfo, h]
  · unfold handleOwnershipWarmMessage
    cases ho : (dm.info treeIdx nid).isOwner
    · simp [getCoherencyInfo, ho]
    · by_cases h : t = treeIdx ∧ n = nid <;>
        simp [getCoherencyInfo, ho, addWarm, SharedDataManager.modifyInfo, h]
  · by_cases h : t = treeIdx ∧ n = nid <;>
      simp [handleDataMsg, setDirty, setSerializedData, SharedDataManager.modifyInfo, h]
  · by_cases h : t = treeIdx ∧ n = nid <;>
      simp [handleDirtyMsg, setDirty, SharedDataManager.modifyInfo, h]
  · rw [checkRead_fst]

/-! ## Words read back from a buffer -/

theorem toInt32_wordBE_quad (x : Nat) :
    toInt32 (wordBE [x / 16777216 % 256, x / 65536 % 256, x / 256 % 256, x % 256])
      = toInt32 x := by
  have h : [x / 16777216 % 256, x / 65536 % 256, x / 256 % 256, x % 256] = bytesBE x := rfl
  rw [h, wordBE_bytesBE, toInt32_mod]

/-! ## Handlers, one by one -/

theorem putRaw_length (env : Env) (v : Int) : (putRaw env v).length = 4 := by
  unfold putRaw storeNative
  cases env.littleEndian <;> rfl

/-- A header-only buffer filled without conversion, handed to the channel
with length `2 * sizeof(int)`. -/
theorem sendMessage_raw_header (env : Env) (a nid treeIdx type : Int) :
    sendMessage a (putRaw env nid ++ putRaw env treeIdx) (2 * 4) type
      = Effect.send a (putRaw env nid ++ putRaw env treeIdx) type := by
  rw [sendMessage, List.take_of_length_le]
  simp [putRaw_length]

/-- Result of `handleOwnershipMsg`, by the warm flag of the record. -/
theorem handleOwnershipMsg_eq (env : Env) (dm : SharedDataManager)
    (treeIdx nid timestamp ownerIdx senderIdx : Int) :
    handleOwnershipMsg env dm treeIdx nid timestamp ownerIdx senderIdx =
      if (dm.info treeIdx nid).isWarm then
        (setOwner env dm treeIdx nid ownerIdx timestamp,
          [Effect.send senderIdx (putRaw env nid ++ putRaw env treeIdx)
            env.OWNERSHIP_WARM_ACK_TYPE])
      else (setDirty (setOwner env dm treeIdx nid ownerIdx timestamp) treeIdx nid true, []) := by
  unfold handleOwnershipMsg
  simp only [sendMessage_raw_header, getCoherencyInfo, getAddress]

/-- Result of `handleOwnershipWarmMessage`, by the owner flag of the record. -/
theorem handleOwnershipWarmMessage_eq (env : Env) (dm : SharedDataManager)
    (treeIdx nid senderIdx : Int) :
    handleOwnershipWarmMessage env dm treeIdx nid senderIdx =
      if (dm.info treeIdx nid).isOwner then
        (addWarm dm treeIdx nid senderIdx,
          [Effect.send senderIdx
            (bytesBE (toUInt32 nid) ++ bytesBE (toUInt32 treeIdx) ++ dm.serialized treeIdx nid)
            env.DATA_TYPE])
      else (dm, []) := by
  unfold handleOwnershipWarmMessage
  simp only [getSerializedSize, getSerialized, sendMessage_data, getCoherencyInfo, getAddress]
  cases (dm.info treeIdx nid).isOwner <;> simp [addWarm, modifyInfo_serialized]

/-- Result of `handleRequestDataMsg`. -/
theorem handleRequestDataMsg_eq (env : Env) (dm : SharedDataManager)
    (treeIdx nid senderIdx : Int) :
    handleRequestDataMsg env dm treeIdx nid senderIdx =
      (addReader dm treeIdx nid senderIdx,
        [Effect.send senderIdx
          (bytesBE (toUInt32 nid) ++ bytesBE (toUInt32 treeIdx) ++ dm.serialized treeIdx nid)
          env.DATA_TYPE]) := by
  unfold handleRequestDataMsg
  simp only [getSerializedSize, getSerialized, sendMessage_data, getAddress]

/-- Result of `checkRead`. -/
theorem checkRead_eq (env : Env) (dm : SharedDataManager) (treeIdx nid : Int) :
    checkRead env dm treeIdx nid =
      (dm,
        if env.communicationEnabled = true ∧ (dm.info treeIdx nid).isOwner = false ∧
            (dm.info treeIdx nid).ownerIdx ≠ -1 ∧ (dm.info treeIdx nid).isWarm = false ∧
            (dm.info treeIdx nid).isDirty = true
        then [Effect.send (dm.info treeIdx nid).ownerIdx
                (bytesBE (toUInt32 nid) ++ bytesBE (toUInt32 treeIdx)) env.REQUEST_DATA_TYPE,
              Effect.wait treeIdx nid]
        else []) := by
  unfold checkRead
  simp only [sendMessage_header, getCoherencyInfo, getAddress]
  cases hc : env.communicationEnabled
  · simp
  · cases ho : (dm.info treeIdx nid).isOwner <;> cases hw : (dm.info treeIdx nid).isWarm <;>
      cases hd : (dm.info treeIdx nid).isDirty <;>
      by_cases hi : (dm.info treeIdx nid).ownerIdx = -1 <;>
      simp [hi]

/-- Result of `checkWrite` when communication is disabled. -/
theorem checkWrite_of_disabled (env : Env) (dm : SharedDataManager) (treeIdx nid : Int)
    (hcomm : env.communicationEnabled = false) :
    checkWrite env dm treeIdx nid = (dm, []) := by
  unfold checkWrite
  simp [hcomm]

/-- C11, evaluated on the code: peer 1 is not owner of node (tree 0, nid 7)
(its record names peer 2 as owner) and holds the payload `0xDE 0xAD`; handling
a REQUEST_DATA of peer 3 it sends a DATA message with that payload to peer 3.
The description in the source says the answer is sent only by the owner. -/
theorem handleRequestDataMsg_non_owner_answers :
    ((constStore (nonOwnerRecord 2 5) [222, 173]).info 0 7).isOwner = false ∧
    (handleRequestDataMsg (testEnv 1 [2, 3] true) (constStore (nonOwnerRecord 2 5) [222, 173])
        0 7 3).2
      = [Effect.send 3 [0, 0, 0, 7, 0, 0, 0, 0, 222, 173] (testEnv 1 [2, 3] true).DATA_TYPE] := by
  decide

/-- Flags and effects of `handleOwnershipMsg`: the warm flag stays as it was;
on a warm record exactly one message goes out, to the sender, under the tag
OWNERSHIP_WARM_ACK, with the two words `nid`, `treeIdx` in host byte order as
body, and the dirty flag stays as it was; on a record that is not warm nothing
is sent and the dirty flag is set. -/
theorem handleOwnershipMsg_reply (env : Env) (dm : SharedDataManager)
    (treeIdx nid timestamp ownerIdx senderIdx : Int) :
    ((handleOwnershipMsg env dm treeIdx nid timestamp ownerIdx senderIdx).1.info treeIdx nid).isWarm
      = (dm.info treeIdx nid).isWarm ∧
    (handleOwnershipMsg env dm treeIdx nid timestamp ownerIdx senderIdx).2 =
      (if (dm.info treeIdx nid).isWarm then
        [Effect.send senderIdx (putRaw env nid ++ putRaw env treeIdx) env.OWNERSHIP_WARM_ACK_TYPE]
      else []) ∧
    ((handleOwnershipMsg env dm treeIdx nid timestamp ownerIdx senderIdx).1.info treeIdx nid).isDirty
      = (if (dm.info treeIdx nid).isWarm then (dm.info treeIdx nid).isDirty else true) := by
  rw [handleOwnershipMsg_eq]
  cases h : (dm.info treeIdx nid).isWarm <;>
    simp [setOwner, setDirty, modifyInfo_info_same, h]

/-- C12, evaluated on the code on a little-endian host: the warm record of
peer 1 for node (tree 3, nid 258) handles an OWNERSHIP of peer 2. One message
goes to peer 2 under the tag OWNERSHIP_WARM_ACK, the warm and dirty flags stay
as they were, but the body is `02 01 00 00 03 00 00 00`, the two words as they
lie in memory: read as every receiver reads header words it names nid
33619968 and tree 50331648, while OWNERSHIP_WARM_ACK(nid = 258, tree = 3) in
the byte order of every other emitter is `00 00 01 02 00 00 00 03`. -/
theorem handleOwnershipMsg_ack_decodes_as_other_node :
    (handleOwnershipMsg (testEnv 1 [2] true) (constStore (warmRecord 2 5 false) []) 3 258 6 2 2).2
      = [Effect.send 2 [2, 1, 0, 0, 3, 0, 0, 0] (testEnv 1 [2] true).OWNERSHIP_WARM_ACK_TYPE] ∧
    getWire (testEnv 2 [1] true) [2, 1, 0, 0, 3, 0, 0, 0] 0 = some 33619968 ∧
    getWire (testEnv 2 [1] true) [2, 1, 0, 0, 3, 0, 0, 0] 4 = some 50331648 ∧
    putWire (testEnv 1 [2] true) 258 ++ putWire (testEnv 1 [2] true) 3
      = [0, 0, 1, 2, 0, 0, 0, 3] ∧
    getWire (testEnv 2 [1] true) [0, 0, 1, 2, 0, 0, 0, 3] 0 = some 258 ∧
    getWire (testEnv 2 [1] true) [0, 0, 1, 2, 0, 0, 0, 3] 4 = some 3 ∧
    ((handleOwnershipMsg (testEnv 1 [2] true) (constStore (warmRecord 2 5 false) []) 3 258 6 2
        2).1.info 3 258).isWarm = true ∧
    ((handleOwnershipMsg (testEnv 1 [2] true) (constStore (warmRecord 2 5 false) []) 3 258 6 2
        2).1.info 3 258).isDirty = false := by
  decide

/-- C13: on a record that is not owner `handleOwnershipWarmMessage` changes
nothing and sends nothing; on an owner record it sends exactly one DATA
message (header and current payload) to the sender, the warm list afterwards
is the former one together with the sender, and every other field of the
record, every other record and all payloads are unchanged. -/
theorem handleOwnershipWarmMessage_spec (env : Env) (dm : SharedDataManager)
    (treeIdx nid senderIdx : Int) :
    (handleOwnershipWarmMessage env dm treeIdx nid senderIdx).2 =
      (if (dm.info treeIdx nid).isOwner then
        [Effect.send senderIdx
          (bytesBE (toUInt32 nid) ++ bytesBE (toUInt32 treeIdx) ++ dm.serialized treeIdx nid)
          env.DATA_TYPE]
      else []) ∧
    (handleOwnershipWarmMessage env dm treeIdx nid senderIdx).1.info treeIdx nid =
      (if (dm.info treeIdx nid).isOwner then
        { dm.info treeIdx nid with warmList := setInsert senderIdx (dm.info treeIdx nid).warmList }
      else dm.info treeIdx nid) ∧
    (∀ x, x ∈ setInsert senderIdx (dm.info treeIdx nid).warmList
      ↔ x = senderIdx ∨ x ∈ (dm.info treeIdx nid).warmList) ∧
    (∀ t n, ¬ (t = treeIdx ∧ n = nid) →
      (handleOwnershipWarmMessage env dm treeIdx nid senderIdx).1.info t n = dm.info t n) ∧
    (handleOwnershipWarmMessage env dm treeIdx nid senderIdx).1.serialized = dm.serialized := by
  rw [handleOwnershipWarmMessage_eq]
  refine ⟨?_, ?_, ?_, ?_, ?_⟩
  · cases (dm.info treeIdx nid).isOwner <;> rfl
  · cases h : (dm.info treeIdx nid).isOwner <;> simp [addWarm, modifyInfo_info_same]
  · intro x
    exact mem_setInsert senderIdx x _
  · intro t n h
    cases (dm.info treeIdx nid).isOwner
    · rfl
    · simp [addWarm, modifyInfo_info_other _ _ _ _ _ _ h]
  · cases (dm.info treeIdx nid).isOwner <;> rfl

/-- C14: `handleDataMsg` stores the first `dataLen` bytes of the payload as
the serialized data of the node (all of them when `dataLen` is the payload
length), signals the event of the node and performs no other effect, clears
the dirty flag and leaves every other field of the record, every other
record and every other payload unchanged. -/
theorem handleDataMsg_spec (env : Env) (dm : SharedDataManager) (treeIdx nid : Int)
    (serializedData : List Nat) (dataLen : Nat) (senderIdx : Int) :
    (handleDataMsg env dm treeIdx nid serializedData dataLen senderIdx).1.serialized treeIdx nid
      = serializedData.take dataLen ∧
    ((handleDataMsg env dm treeIdx nid serializedData dataLen senderIdx).1.serialized
        treeIdx nid).length = min dataLen serializedData.length ∧
    (handleDataMsg env dm treeIdx nid serializedData serializedData.length senderIdx).1.serialized
        treeIdx nid = serializedData ∧
    (handleDataMsg env dm treeIdx nid serializedData dataLen senderIdx).2
      = [Effect.signal treeIdx nid] ∧
    (handleDataMsg env dm treeIdx nid serializedData dataLen senderIdx).1.info treeIdx nid
      = { dm.info treeIdx nid with isDirty := false } ∧
    (∀ t n, ¬ (t = treeIdx ∧ n = nid) →
      (handleDataMsg env dm treeIdx nid serializedData dataLen senderIdx).1.info t n
          = dm.info t n ∧
      (handleDataMsg env dm treeIdx nid serializedData dataLen senderIdx).1.serialized t n
          = dm.serialized t n) := by
  unfold handleDataMsg
  refine ⟨?_, ?_, ?_, ?_, ?_, ?_⟩
  · simp [setDirty, setSerializedData, SharedDataManager.modifyInfo]
  · simp [setDirty, setSerializedData, SharedDataManager.modifyInfo, List.length_take]
  · simp [setDirty, setSerializedData, SharedDataManager.modifyInfo]
  · rfl
  · simp [setDirty, setSerializedData, SharedDataManager.modifyInfo]
  · intro t n h
    simp [setDirty, setSerializedData, SharedDataManager.modifyInfo, h]

/-! ## Steps and invariants of a record -/

/-- What `handleMessage` does when its reads stay inside the buffer is one
inbound step (with the sender it was given), or nothing but the report of an
unsupported type. -/
theorem handleMessage_dispatch (env : Env) (dm : SharedDataManager) (senderIdx : Int)
    (buf : List Nat) (type : Int) (r : SharedDataManager × List Effect)
    (h : handleMessage env dm senderIdx buf type = some r) :
    r = (dm, [Effect.unsupported type]) ∨
    (∃ treeIdx nid, r = (Step.requestData treeIdx nid senderIdx).run env dm) ∨
    (∃ treeIdx nid timestamp ownerIdx,
      r = (Step.ownership treeIdx nid timestamp ownerIdx senderIdx).run env dm) ∨
    (∃ treeIdx nid, r = (Step.ownershipWarm treeIdx nid senderIdx).run env dm) ∨
    (∃ treeIdx nid serializedData dataLen,
      r = (Step.data treeIdx nid serializedData dataLen senderIdx).run env dm) ∨
    (∃ treeIdx nid, r = (Step.dirty treeIdx nid senderIdx).run env dm) := by
  unfold handleMessage at h
  split_ifs at h
  · simp only [Option.bind_eq_some, Option.some.injEq] at h
    obtain ⟨nid, -, treeIdx, -, h⟩ := h
    exact Or.inr (Or.inl ⟨treeIdx, nid, h.symm⟩)
  · simp only [Option.bind_eq_some, Option.some.injEq] at h
    obtain ⟨nid, -, treeIdx, -, timestamp, -, ownerByte, -, h⟩ := h
    exact Or.inr (Or.inr (Or.inl ⟨treeIdx, nid, timestamp, toInt8 ownerByte, h.symm⟩))
  · simp only [Option.bind_eq_some, Option.some.injEq] at h
    obtain ⟨nid, -, treeIdx, -, h⟩ := h
    exact Or.inr (Or.inr (Or.inr (Or.inl ⟨treeIdx, nid, h.symm⟩)))
  · simp only [Option.bind_eq_some, Option.some.injEq] at h
    obtain ⟨nid, -, treeIdx, -, h⟩ := h
    exact Or.inr (Or.inr (Or.inr (Or.inr (Or.inl ⟨treeIdx, nid, _, _, h.symm⟩))))
  · simp only [Option.bind_eq_some, Option.some.injEq] at h
    obtain ⟨nid, -, treeIdx, -, h⟩ := h
    exact Or.inr (Or.inr (Or.inr (Or.inr (Or.inr ⟨treeIdx, nid, h.symm⟩))))
  · simp only [Option.some.injEq] at h
    exact Or.inl h.symm

/-- The record of any node after a step, in terms of the record before. -/
theorem Step.run_info (env : Env) (dm : SharedDataManager) (s : Step) (t n : Int) :
    (s.run env dm).1.info t n =
      match s with
      | Step.requestData treeIdx nid senderIdx =>
        if t = treeIdx ∧ n = nid then
          { dm.info t n with readerList := setInsert senderIdx (dm.info t n).readerList }
        else dm.info t n
      | Step.ownership treeIdx nid timestamp ownerIdx _ =>
        if t = treeIdx ∧ n = nid then
          { isOwner := decide (ownerIdx = env.thisAddressIdx)
            ownerIdx := ownerIdx
            isWarm := (dm.info t n).isWarm
            isDirty := if (dm.info t n).isWarm then (dm.info t n).isDirty else true
            timestamp := timestamp
            warmList := if (dm.info t n).isOwner && !decide (ownerIdx = env.thisAddressIdx)
              then [] else (dm.info t n).warmList
            readerList := if (dm.info t n).isOwner && !decide (ownerIdx = env.thisAddressIdx)
              then [] else (dm.info t n).readerList }
        else dm.info t n
      | Step.ownershipWarm treeIdx nid senderIdx =>
        if (t = treeIdx ∧ n = nid) ∧ (dm.info t n).isOwner = true then
          { dm.info t n with warmList := setInsert senderIdx (dm.info t n).warmList }
        else dm.info t n
      | Step.data treeIdx nid _ _ _ =>
        if t = treeIdx ∧ n = nid then { dm.info t n with isDirty := false } else dm.info t n
      | Step.dirty treeIdx nid _ =>
        if t = treeIdx ∧ n = nid then { dm.info t n with isDirty := true } else dm.info t n
      | Step.read _ _ => dm.info t n
      | Step.write treeIdx nid =>
        if (t = treeIdx ∧ n = nid) ∧ env.communicationEnabled = true ∧ (dm.info t n).isOwner = false
        then
          { isOwner := true
            ownerIdx := -1
            isWarm := (dm.info t n).isWarm
            isDirty := (dm.info t n).isDirty
            timestamp := wrapInt32 ((dm.info t n).timestamp + 1)
            warmList := []
            readerList := [] }
        else dm.info t n := by
  cases s with
  | requestData treeIdx nid senderIdx =>
    simp only [Step.run, handleRequestDataMsg_eq, addReader, SharedDataManager.modifyInfo]
  | ownership treeIdx nid timestamp ownerIdx senderIdx =>
    simp only [Step.run]
    by_cases h : t = treeIdx ∧ n = nid
    · obtain ⟨rfl, rfl⟩ := h
      simp [handleOwnershipMsg_info]
    · rw [handleOwnershipMsg_eq]
      cases (dm.info treeIdx nid).isWarm <;>
        simp [setOwner, setDirty, SharedDataManager.modifyInfo, h]
  | ownershipWarm treeIdx nid senderIdx =>
    simp only [Step.run, handleOwnershipWarmMessage_eq]
    by_cases h : t = treeIdx ∧ n = nid
    · obtain ⟨rfl, rfl⟩ := h
      cases ho : (dm.info t n).isOwner <;> simp [addWarm, SharedDataManager.modifyInfo, ho]
    · cases (dm.info treeIdx nid).isOwner <;> simp [addWarm, SharedDataManager.modifyInfo, h]
  | data treeIdx nid serializedData dataLen senderIdx =>
    simp only [Step.run, handleDataMsg, setDirty, setSerializedData,
      SharedDataManager.modifyInfo]
  | dirty treeIdx nid senderIdx =>
    simp only [Step.run, handleDirtyMsg, setDirty, SharedDataManager.modifyInfo]
  | read treeIdx nid =>
    simp only [Step.run, checkRead_fst]
  | write treeIdx nid =>
    simp only [Step.run]
    cases hc : env.communicationEnabled
    · rw [checkWrite_of_disabled env dm treeIdx nid hc]
      simp
    · cases ho : (dm.info treeIdx nid).isOwner
      · rw [checkWrite_of_not_owner env dm treeIdx nid hc ho]
        by_cases h : t = treeIdx ∧ n = nid
        · obtain ⟨rfl, rfl⟩ := h
          simp [setCoherencyInfo, SharedDataManager.modifyInfo, ho]
        · simp [setCoherencyInfo, SharedDataManager.modifyInfo, h]
      · rw [checkWrite_of_owner env dm treeIdx nid hc ho]
        by_cases h : t = treeIdx ∧ n = nid
        · obtain ⟨rfl, rfl⟩ := h
          simp [ho]
        · simp [h]

/-- C15, evaluated on the code: three steps that start from a record
satisfying "owner implies not dirty" and end with a record that is owner and
dirty: `checkWrite` on a dirty record that is not owner, `handleDirtyMsg` on
an owner record, and `handleOwnershipMsg` naming this peer (index 1) on a
record that is not warm. -/
theorem owner_and_dirty_after_step :
    ((checkWrite (testEnv 1 [2] true) (constStore (CoherencyInfo.mk false 2 false true 5 [] []) [])
        0 7).1.info 0 7 = CoherencyInfo.mk true (-1) false true 6 [] []) ∧
    ((handleDirtyMsg (testEnv 1 [2] true) (constStore (ownerRecord 1 5 [] [2]) []) 0 7 2).1.info 0 7
      = CoherencyInfo.mk true 1 false true 5 [] [2]) ∧
    ((handleOwnershipMsg (testEnv 1 [2] true) (constStore (nonOwnerRecord 2 5) []) 0 7 6 1 2).1.info
        0 7 = CoherencyInfo.mk true 1 false true 6 [] []) := by
  decide

/-- C15, as the code has it: a step keeps "owner implies not dirty" on every
record when it is not one of the three steps that can produce an owner with
the dirty flag set, that is when an inbound OWNERSHIP names another peer or
meets a warm record that is not dirty, an inbound DIRTY meets a record that
is not owner, and `checkWrite` (with communication enabled) meets a record
that is owner or not dirty. Every step of `handleMessage` is such a step by
`handleMessage_dispatch`. -/
theorem owner_not_dirty_preserved (env : Env) (dm : SharedDataManager) (s : Step) (t n : Int)
    (hinv : (dm.info t n).isOwner = true → (dm.info t n).isDirty = false)
    (hown : ∀ treeIdx nid timestamp ownerIdx senderIdx,
      s = Step.ownership treeIdx nid timestamp ownerIdx senderIdx →
        ownerIdx ≠ env.thisAddressIdx ∨
          ((dm.info treeIdx nid).isWarm = true ∧ (dm.info treeIdx nid).isDirty = false))
    (hdirty : ∀ treeIdx nid senderIdx,
      s = Step.dirty treeIdx nid senderIdx → (dm.info treeIdx nid).isOwner = false)
    (hwrite : ∀ treeIdx nid, s = Step.write treeIdx nid →
      env.communicationEnabled = false ∨ (dm.info treeIdx nid).isOwner = true ∨
        (dm.info treeIdx nid).isDirty = false) :
    ((s.run env dm).1.info t n).isOwner = true → ((s.run env dm).1.info t n).isDirty = false := by
  rw [Step.run_info]
  cases s with
  | requestData treeIdx nid senderIdx =>
    by_cases h : t = treeIdx ∧ n = nid
    · simpa [h] using hinv
    · simpa [h] using hinv
  | ownership treeIdx nid timestamp ownerIdx senderIdx =>
    have h1 := hown treeIdx nid timestamp ownerIdx senderIdx rfl
    by_cases h : t = treeIdx ∧ n = nid
    · obtain ⟨rfl, rfl⟩ := h
      rcases h1 with h1 | ⟨h1, h2⟩
      · simp [h1]
      · simp [h1, h2]
    · simpa [h] using hinv
  | ownershipWarm treeIdx nid senderIdx =>
    simp only []
    by_cases h : (t = treeIdx ∧ n = nid) ∧ (dm.info t n).isOwner = true
    · rw [if_pos h]
      exact hinv
    · rw [if_neg h]
      exact hinv
  | data treeIdx nid serializedData dataLen senderIdx =>
    by_cases h : t = treeIdx ∧ n = nid
    · simp [h]
    · simpa [h] using hinv
  | dirty treeIdx nid senderIdx =>
    have h1 := hdirty treeIdx nid senderIdx rfl
    by_cases h : t = treeIdx ∧ n = nid
    · obtain ⟨rfl, rfl⟩ := h
      simp [h1]
    · simpa [h] using hinv
  | read treeIdx nid => exact hinv
  | write treeIdx nid =>
    have h1 := hwrite treeIdx nid rfl
    by_cases h : (t = treeIdx ∧ n = nid) ∧ env.communicationEnabled = true ∧
        (dm.info t n).isOwner = false
    · obtain ⟨⟨rfl, rfl⟩, hc, ho⟩ := h
      rcases h1 with h1 | h1 | h1
      · simp [hc] at h1
      · simp [ho] at h1
      · simp [hc, ho, h1]
    · simp only []
      rw [if_neg h]
      exact hinv

/-- C15 at an owner write: peer 1 owner of node (0, 7), clean; after
`checkWrite` the record is still owner and not dirty. -/
theorem owner_not_dirty_preserved_witness :
    ((((constStore (ownerRecord 1 5 [3] [2]) [1]).info 0 7).isOwner = true →
        ((constStore (ownerRecord 1 5 [3] [2]) [1]).info 0 7).isDirty = false) ∧
      ((testEnv 1 [2, 3] true).communicationEnabled = false ∨
        ((constStore (ownerRecord 1 5 [3] [2]) [1]).info 0 7).isOwner = true ∨
        ((constStore (ownerRecord 1 5 [3] [2]) [1]).info 0 7).isDirty = false)) ∧
    ((((Step.write 0 7).run (testEnv 1 [2, 3] true)
          (constStore (ownerRecord 1 5 [3] [2]) [1])).1.info 0 7).isOwner = true →
      (((Step.write 0 7).run (testEnv 1 [2, 3] true)
          (constStore (ownerRecord 1 5 [3] [2]) [1])).1.info 0 7).isDirty = false) :=
  ⟨⟨fun _ => rfl, Or.inr (Or.inl rfl)⟩,
    owner_not_dirty_preserved (testEnv 1 [2, 3] true) (constStore (ownerRecord 1 5 [3] [2]) [1])
      (Step.write 0 7) 0 7 (fun _ => rfl) (fun _ _ _ _ _ h => by cases h)
      (fun _ _ _ h => by cases h)
      (fun _ _ h => by cases h; exact Or.inr (Or.inl rfl))⟩

/-- C16, evaluated on the code. First: peers {1, 2}, peer 1 warm and not
owner of node (0, 7), peer 2 its owner; peer 1 runs `checkWrite`, whose only
message is the OWNERSHIP to peer 2, and peer 2 handles it without sending
anything; peer 1 is then owner and warm. Second: a warm record of peer 1
handles an OWNERSHIP naming peer 1 and, after the DATA that answers its
OWNERSHIP_WARM_ACK, is owner and warm. -/
theorem warm_and_owner_after_step :
    ((checkWrite (peerEnv (testEnv 0 [] true) [1, 2] 1) (constStore (warmRecord 2 5 false) []) 0 7).2
      = [Effect.send 2 [0, 0, 0, 7, 0, 0, 0, 0, 0, 0, 0, 6, 1] 2]) ∧
    ((handleOwnershipMsg (peerEnv (testEnv 0 [] true) [1, 2] 2)
        (constStore (ownerRecord 2 5 [1] []) []) 0 7 6 1 1).2 = []) ∧
    ((checkWrite (peerEnv (testEnv 0 [] true) [1, 2] 1) (constStore (warmRecord 2 5 false) [])
        0 7).1.info 0 7
      = CoherencyInfo.mk true (-1) true false 6 [] []) ∧
    ((handleDataMsg (testEnv 1 [2] true)
        (handleOwnershipMsg (testEnv 1 [2] true) (constStore (warmRecord 2 5 false) [])
          0 7 6 1 2).1 0 7 [9] 1 2).1.info 0 7
      = CoherencyInfo.mk true 1 true false 6 [] []) := by
  decide

/-- C16, as the code has it: no step changes the warm flag of any record, and
a step keeps "not both warm and owner" on every record when it is not one of
the two steps that make a warm record owner, that is when `checkWrite` (with
communication enabled) meets a record that is owner or not warm, and an
inbound OWNERSHIP names another peer or meets a record that is not warm.
Every step of `handleMessage` is such a step by `handleMessage_dispatch`. -/
theorem warm_owner_exclusive_preserved (env : Env) (dm : SharedDataManager) (s : Step)
    (t n : Int)
    (hinv : ¬ ((dm.info t n).isWarm = true ∧ (dm.info t n).isOwner = true))
    (hown : ∀ treeIdx nid timestamp ownerIdx senderIdx,
      s = Step.ownership treeIdx nid timestamp ownerIdx senderIdx →
        ownerIdx ≠ env.thisAddressIdx ∨ (dm.info treeIdx nid).isWarm = false)
    (hwrite : ∀ treeIdx nid, s = Step.write treeIdx nid →
      env.communicationEnabled = false ∨ (dm.info treeIdx nid).isOwner = true ∨
        (dm.info treeIdx nid).isWarm = false) :
    ((s.run env dm).1.info t n).isWarm = (dm.info t n).isWarm ∧
    ¬ (((s.run env dm).1.info t n).isWarm = true ∧ ((s.run env dm).1.info t n).isOwner = true) := by
  rw [Step.run_info]
  cases s with
  | requestData treeIdx nid senderIdx =>
    simp only []
    by_cases h : t = treeIdx ∧ n = nid
    · rw [if_pos h]
      exact ⟨rfl, hinv⟩
    · rw [if_neg h]
      exact ⟨rfl, hinv⟩
  | ownership treeIdx nid timestamp ownerIdx senderIdx =>
    have h1 := hown treeIdx nid timestamp ownerIdx senderIdx rfl
    simp only []
    by_cases h : t = treeIdx ∧ n = nid
    · rw [if_pos h]
      obtain ⟨rfl, rfl⟩ := h
      refine ⟨rfl, ?_⟩
      rcases h1 with h1 | h1
      · simp [h1]
      · simp [h1]
    · rw [if_neg h]
      exact ⟨rfl, hinv⟩
  | ownershipWarm treeIdx nid senderIdx =>
    simp only []
    by_cases h : (t = treeIdx ∧ n = nid) ∧ (dm.info t n).isOwner = true
    · rw [if_pos h]
      exact ⟨rfl, hinv⟩
    · rw [if_neg h]
      exact ⟨rfl, hinv⟩
  | data treeIdx nid serializedData dataLen senderIdx =>
    simp only []
    by_cases h : t = treeIdx ∧ n = nid
    · rw [if_pos h]
      exact ⟨rfl, hinv⟩
    · rw [if_neg h]
      exact ⟨rfl, hinv⟩
  | dirty treeIdx nid senderIdx =>
    simp only []
    by_cases h : t = treeIdx ∧ n = nid
    · rw [if_pos h]
      exact ⟨rfl, hinv⟩
    · rw [if_neg h]
      exact ⟨rfl, hinv⟩
  | read treeIdx nid => exact ⟨rfl, hinv⟩
  | write treeIdx nid =>
    have h1 := hwrite treeIdx nid rfl
    simp only []
    by_cases h : (t = treeIdx ∧ n = nid) ∧ env.communicationEnabled = true ∧
        (dm.info t n).isOwner = false
    · rw [if_pos h]
      obtain ⟨⟨rfl, rfl⟩, hc, ho⟩ := h
      refine ⟨rfl, ?_⟩
      rcases h1 with h1 | h1 | h1
      · simp [hc] at h1
      · simp [ho] at h1
      · simp [h1]
    · rw [if_neg h]
      exact ⟨rfl, hinv⟩

/-- C16 at scenario S3: peer 1, neither warm nor owner, takes ownership of
node (0, 7) by `checkWrite`; afterwards it is owner and still not warm. -/
theorem warm_owner_exclusive_preserved_witness :
    (¬ (((constStore (nonOwnerRecord 2 5) []).info 0 7).isWarm = true ∧
        ((constStore (nonOwnerRecord 2 5) []).info 0 7).isOwner = true) ∧
      ((testEnv 1 [2] true).communicationEnabled = false ∨
        ((constStore (nonOwnerRecord 2 5) []).info 0 7).isOwner = true ∨
        ((constStore (nonOwnerRecord 2 5) []).info 0 7).isWarm = false)) ∧
    ((((Step.write 0 7).run (testEnv 1 [2] true) (constStore (nonOwnerRecord 2 5) [])).1.info
          0 7).isWarm = ((constStore (nonOwnerRecord 2 5) []).info 0 7).isWarm ∧
      ¬ ((((Step.write 0 7).run (testEnv 1 [2] true) (constStore (nonOwnerRecord 2 5) [])).1.info
            0 7).isWarm = true ∧
          (((Step.write 0 7).run (testEnv 1 [2] true) (constStore (nonOwnerRecord 2 5) [])).1.info
            0 7).isOwner = true)) :=
  ⟨⟨by decide, Or.inr (Or.inr rfl)⟩,
    warm_owner_exclusive_preserved (testEnv 1 [2] true) (constStore (nonOwnerRecord 2 5) [])
      (Step.write 0 7) 0 7 (by decide) (fun _ _ _ _ _ h => by cases h)
      (fun _ _ h => by cases h; exact Or.inr (Or.inr rfl))⟩

/-- C17, evaluated on the code: peer 1 starts without a record for node
(0, 7) and runs `checkWrite`; the record is then owner with recorded owner
index `-1`, not 1. -/
theorem owner_idx_after_checkWrite :
    (testEnv 1 [2] true).thisAddressIdx = 1 ∧
    ((checkWrite (testEnv 1 [2] true) (constStore CoherencyInfo.fresh []) 0 7).1.info 0 7).isOwner
      = true ∧
    ((checkWrite (testEnv 1 [2] true) (constStore CoherencyInfo.fresh []) 0 7).1.info 0 7).ownerIdx
      = -1 := by
  decide

/-- One step keeps the relation between owner flag and owner index: an owner
index equal to this peer comes with the owner flag, and the owner flag comes
with an owner index that is this peer or `-1`. -/
theorem step_owner_idx (env : Env) (hthis : env.thisAddressIdx ≠ -1) (dm : SharedDataManager)
    (s : Step) (t n : Int)
    (h1 : (dm.info t n).ownerIdx = env.thisAddressIdx → (dm.info t n).isOwner = true)
    (h2 : (dm.info t n).isOwner = true →
      (dm.info t n).ownerIdx = env.thisAddressIdx ∨ (dm.info t n).ownerIdx = -1) :
    (((s.run env dm).1.info t n).ownerIdx = env.thisAddressIdx →
      ((s.run env dm).1.info t n).isOwner = true) ∧
    (((s.run env dm).1.info t n).isOwner = true →
      ((s.run env dm).1.info t n).ownerIdx = env.thisAddressIdx ∨
        ((s.run env dm).1.info t n).ownerIdx = -1) := by
  rw [Step.run_info]
  cases s with
  | requestData treeIdx nid senderIdx =>
    simp only []
    by_cases h : t = treeIdx ∧ n = nid
    · rw [if_pos h]
      exact ⟨h1, h2⟩
    · rw [if_neg h]
      exact ⟨h1, h2⟩
  | ownership treeIdx nid timestamp ownerIdx senderIdx =>
    simp only []
    by_cases h : t = treeIdx ∧ n = nid
    · rw [if_pos h]
      simp only [decide_eq_true_eq]
      exact ⟨fun h3 => h3, fun h3 => Or.inl h3⟩
    · rw [if_neg h]
      exact ⟨h1, h2⟩
  | ownershipWarm treeIdx nid senderIdx =>
    simp only []
    by_cases h : (t = treeIdx ∧ n = nid) ∧ (dm.info t n).isOwner = true
    · rw [if_pos h]
      exact ⟨h1, h2⟩
    · rw [if_neg h]
      exact ⟨h1, h2⟩
  | data treeIdx nid serializedData dataLen senderIdx =>
    simp only []
    by_cases h : t = treeIdx ∧ n = nid
    · rw [if_pos h]
      exact ⟨h1, h2⟩
    · rw [if_neg h]
      exact ⟨h1, h2⟩
  | dirty treeIdx nid senderIdx =>
    simp only []
    by_cases h : t = treeIdx ∧ n = nid
    · rw [if_pos h]
      exact ⟨h1, h2⟩
    · rw [if_neg h]
      exact ⟨h1, h2⟩
  | read treeIdx nid => exact ⟨h1, h2⟩
  | write treeIdx nid =>
    simp only []
    by_cases h : (t = treeIdx ∧ n = nid) ∧ env.communicationEnabled = true ∧
        (dm.info t n).isOwner = false
    · rw [if_pos h]
      refine ⟨fun h3 => ?_, fun _ => Or.inr rfl⟩
      exact absurd h3.symm hthis
    · rw [if_neg h]
      exact ⟨h1, h2⟩

/-- C17, as the code has it: at every store reachable at a peer whose index
is not the reserved `-1`, a record whose owner index is this peer has the
owner flag, a record with the owner flag has owner index this peer or `-1`,
and after `checkWrite` makes this peer owner the recorded owner index is
`-1`. -/
theorem reachable_owner_idx (env : Env) (hthis : env.thisAddressIdx ≠ -1)
    (dm : SharedDataManager) (hreach : Reachable env dm) (t n : Int) :
    ((dm.info t n).ownerIdx = env.thisAddressIdx → (dm.info t n).isOwner = true) ∧
    ((dm.info t n).isOwner = true →
      (dm.info t n).ownerIdx = env.thisAddressIdx ∨ (dm.info t n).ownerIdx = -1) ∧
    (env.communicationEnabled = true → (dm.info t n).isOwner = false →
      ((checkWrite env dm t n).1.info t n).isOwner = true ∧
      ((checkWrite env dm t n).1.info t n).ownerIdx = -1) := by
  have key : ((dm.info t n).ownerIdx = env.thisAddressIdx → (dm.info t n).isOwner = true) ∧
      ((dm.info t n).isOwner = true →
        (dm.info t n).ownerIdx = env.thisAddressIdx ∨ (dm.info t n).ownerIdx = -1) := by
    induction hreach with
    | start payload =>
      refine ⟨fun h => ?_, fun h => ?_⟩
      · exact absurd h.symm hthis
      · simp [CoherencyInfo.fresh] at h
    | step dm0 s _ ih => exact step_owner_idx env hthis dm0 s t n ih.1 ih.2
    | message dm0 senderIdx buf type r _ hmsg ih =>
      rcases handleMessage_dispatch env dm0 senderIdx buf type r hmsg with
        h | ⟨a, b, h⟩ | ⟨a, b, c, d, h⟩ | ⟨a, b, h⟩ | ⟨a, b, c, d, h⟩ | ⟨a, b, h⟩
      · rw [h]
        exact ih
      all_goals
        rw [h]
        exact step_owner_idx env hthis dm0 _ t n ih.1 ih.2
  refine ⟨key.1, key.2, fun hc ho => ?_⟩
  rw [checkWrite_of_not_owner env dm t n hc ho]
  simp [setCoherencyInfo, modifyInfo_info_same]

/-- C17 at peer 1 after its first write on node (0, 7), reached from the
start by one `checkWrite`. -/
theorem reachable_owner_idx_witness :
    ((testEnv 1 [2] true).thisAddressIdx ≠ -1 ∧
      Reachable (testEnv 1 [2] true)
        ((Step.write 0 7).run (testEnv 1 [2] true)
          { info := fun _ _ => CoherencyInfo.fresh, serialized := fun _ _ => [] }).1) ∧
    ((((Step.write 0 7).run (testEnv 1 [2] true)
          { info := fun _ _ => CoherencyInfo.fresh, serialized := fun _ _ => [] }).1.info
        0 7).isOwner = true →
      (((Step.write 0 7).run (testEnv 1 [2] true)
          { info := fun _ _ => CoherencyInfo.fresh, serialized := fun _ _ => [] }).1.info
        0 7).ownerIdx = (testEnv 1 [2] true).thisAddressIdx ∨
      (((Step.write 0 7).run (testEnv 1 [2] true)
          { info := fun _ _ => CoherencyInfo.fresh, serialized := fun _ _ => [] }).1.info
        0 7).ownerIdx = -1) :=
  ⟨⟨by decide, Reachable.step _ _ (Reachable.start _)⟩,
    (reachable_owner_idx (testEnv 1 [2] true) (by decide) _
      (Reachable.step _ (Step.write 0 7) (Reachable.start fun _ _ => [])) 0 7).2.1⟩

/-- C18: when a step takes the record of a node from owner to not owner, the
step is an inbound OWNERSHIP for that node naming another peer, and after it
both subscriber lists of the node are empty. -/
theorem subscribers_cleared_on_ownership_loss (env : Env) (dm : SharedDataManager) (s : Step)
    (t n : Int)
    (hbefore : (dm.info t n).isOwner = true)
    (hafter : ((s.run env dm).1.info t n).isOwner = false) :
    ((s.run env dm).1.info t n).warmList = [] ∧
    ((s.run env dm).1.info t n).readerList = [] ∧
    ∃ timestamp ownerIdx senderIdx,
      s = Step.ownership t n timestamp ownerIdx senderIdx ∧ ownerIdx ≠ env.thisAddressIdx := by
  rw [Step.run_info] at hafter ⊢
  cases s with
  | requestData treeIdx nid senderIdx =>
    simp only [] at hafter
    by_cases h : t = treeIdx ∧ n = nid
    · rw [if_pos h] at hafter
      exact absurd (hbefore.symm.trans hafter) (by decide)
    · rw [if_neg h] at hafter
      exact absurd (hbefore.symm.trans hafter) (by decide)
  | ownership treeIdx nid timestamp ownerIdx senderIdx =>
    simp only [] at hafter ⊢
    by_cases h : t = treeIdx ∧ n = nid
    · rw [if_pos h] at hafter ⊢
      obtain ⟨rfl, rfl⟩ := h
      have hne : ownerIdx ≠ env.thisAddressIdx := by simpa using hafter
      refine ⟨?_, ?_, timestamp, ownerIdx, senderIdx, rfl, hne⟩
      · simp [hbefore, hne]
      · simp [hbefore, hne]
    · rw [if_neg h] at hafter
      exact absurd (hbefore.symm.trans hafter) (by decide)
  | ownershipWarm treeIdx nid senderIdx =>
    simp only [] at hafter
    by_cases h : (t = treeIdx ∧ n = nid) ∧ (dm.info t n).isOwner = true
    · rw [if_pos h] at hafter
      exact absurd (hbefore.symm.trans hafter) (by decide)
    · rw [if_neg h] at hafter
      exact absurd (hbefore.symm.trans hafter) (by decide)
  | data treeIdx nid serializedData dataLen senderIdx =>
    simp only [] at hafter
    by_cases h : t = treeIdx ∧ n = nid
    · rw [if_pos h] at hafter
      exact absurd (hbefore.symm.trans hafter) (by decide)
    · rw [if_neg h] at hafter
      exact absurd (hbefore.symm.trans hafter) (by decide)
  | dirty treeIdx nid senderIdx =>
    simp only [] at hafter
    by_cases h : t = treeIdx ∧ n = nid
    · rw [if_pos h] at hafter
      exact absurd (hbefore.symm.trans hafter) (by decide)
    · rw [if_neg h] at hafter
      exact absurd (hbefore.symm.trans hafter) (by decide)
  | read treeIdx nid => exact absurd (hbefore.symm.trans hafter) (by decide)
  | write treeIdx nid =>
    simp only [] at hafter
    by_cases h : (t = treeIdx ∧ n = nid) ∧ env.communicationEnabled = true ∧
        (dm.info t n).isOwner = false
    · rw [if_pos h] at hafter
      simp at hafter
    · rw [if_neg h] at hafter
      exact absurd (hbefore.symm.trans hafter) (by decide)

/-- C18 at scenario S3, seen from peer 2: owner of node (0, 7) with warm
list `[3]` and reader list `[1]`, it handles the OWNERSHIP of peer 1 and ends
not owner with both lists empty. -/
theorem subscribers_cleared_on_ownership_loss_witness :
    (((constStore (ownerRecord 2 5 [3] [1]) []).info 0 7).isOwner = true ∧
      (((Step.ownership 0 7 6 1 1).run (testEnv 2 [1, 3] true)
          (constStore (ownerRecord 2 5 [3] [1]) [])).1.info 0 7).isOwner = false) ∧
    ((((Step.ownership 0 7 6 1 1).run (testEnv 2 [1, 3] true)
          (constStore (ownerRecord 2 5 [3] [1]) [])).1.info 0 7).warmList = [] ∧
      (((Step.ownership 0 7 6 1 1).run (testEnv 2 [1, 3] true)
          (constStore (ownerRecord 2 5 [3] [1]) [])).1.info 0 7).readerList = [] ∧
      ∃ timestamp ownerIdx senderIdx,
        Step.ownership 0 7 6 1 1 = Step.ownership 0 7 timestamp ownerIdx senderIdx ∧
          ownerIdx ≠ (testEnv 2 [1, 3] true).thisAddressIdx) :=
  ⟨⟨by decide, by decide⟩,
    subscribers_cleared_on_ownership_loss (testEnv 2 [1, 3] true)
      (constStore (ownerRecord 2 5 [3] [1]) []) (Step.ownership 0 7 6 1 1) 0 7
      (by decide) (by decide)⟩

/-- C19, evaluated on the code on a little-endian host: a warm record of
peer 1 for node (tree 0, nid 7) handles an OWNERSHIP of peer 2; the body of
the OWNERSHIP_WARM_ACK it sends is `07 00 00 00 00 00 00 00`, the words as
they lie in memory, while the network-order form of `nid`, `treeIdx`, sent in
the REQUEST_DATA of `checkRead` for the same node, is
`00 00 00 07 00 00 00 00`. -/
theorem warm_ack_body_not_converted :
    (testEnv 1 [2] true).littleEndian = true ∧
    (handleOwnershipMsg (testEnv 1 [2] true) (constStore (warmRecord 2 5 false) []) 0 7 6 2 2).2
      = [Effect.send 2 [7, 0, 0, 0, 0, 0, 0, 0] (testEnv 1 [2] true).OWNERSHIP_WARM_ACK_TYPE] ∧
    storeNative true (fromNative true (toUInt32 7)) ++ storeNative true (fromNative true (toUInt32 0))
      = [0, 0, 0, 7, 0, 0, 0, 0] ∧
    (checkRead (testEnv 1 [2] true) (constStore (CoherencyInfo.mk false 2 false true 5 [] []) [])
        0 7).2
      = [Effect.send 2 [0, 0, 0, 7, 0, 0, 0, 0] (testEnv 1 [2] true).REQUEST_DATA_TYPE,
          Effect.wait 0 7] := by
  decide

/-- C20: every message sent by a step has the length of its tag and starts
with the words `nid`, `treeIdx` of the step: 8 bytes for REQUEST_DATA,
OWNERSHIP_WARM_ACK and DIRTY, 13 bytes for OWNERSHIP (then the timestamp word
and the owner byte), and 8 bytes plus the serialized size of the node for
DATA (then the payload). -/
theorem emitted_body_layout (env : Env) (dm : SharedDataManager) (s : Step) (a : Int)
    (body : List Nat) (type : Int) (h : Effect.send a body type ∈ (s.run env dm).2) :
    (type = env.REQUEST_DATA_TYPE ∧
      body = bytesBE (toUInt32 s.nid) ++ bytesBE (toUInt32 s.treeIdx) ∧ body.length = 8) ∨
    (type = env.OWNERSHIP_WARM_ACK_TYPE ∧
      body = putRaw env s.nid ++ putRaw env s.treeIdx ∧ body.length = 8) ∨
    (type = env.DIRTY_TYPE ∧
      body = bytesBE (toUInt32 s.nid) ++ bytesBE (toUInt32 s.treeIdx) ∧ body.length = 8) ∨
    (type = env.OWNERSHIP_TYPE ∧
      body = bytesBE (toUInt32 s.nid) ++ bytesBE (toUInt32 s.treeIdx)
        ++ bytesBE (toUInt32 ((dm.info s.treeIdx s.nid).timestamp + 1))
        ++ [toChar env.thisAddressIdx] ∧
      body.length = 13) ∨
    (type = env.DATA_TYPE ∧
      body = bytesBE (toUInt32 s.nid) ++ bytesBE (toUInt32 s.treeIdx)
        ++ dm.serialized s.treeIdx s.nid ∧
      body.length = 8 + getSerializedSize dm s.treeIdx s.nid) := by
  cases s with
  | requestData treeIdx nid senderIdx =>
    simp only [Step.run, handleRequestDataMsg_eq, List.mem_singleton, Effect.send.injEq] at h
    obtain ⟨-, rfl, rfl⟩ := h
    refine Or.inr (Or.inr (Or.inr (Or.inr ⟨rfl, rfl, ?_⟩)))
    simp [Step.treeIdx, Step.nid, getSerializedSize, bytesBE_length]
    omega
  | ownership treeIdx nid timestamp ownerIdx senderIdx =>
    simp only [Step.run, handleOwnershipMsg_eq] at h
    cases hw : (dm.info treeIdx nid).isWarm
    · simp [hw] at h
    · simp only [hw, if_true, List.mem_singleton, Effect.send.injEq] at h
      obtain ⟨-, rfl, rfl⟩ := h
      refine Or.inr (Or.inl ⟨rfl, rfl, ?_⟩)
      simp [putRaw_length]
  | ownershipWarm treeIdx nid senderIdx =>
    simp only [Step.run, handleOwnershipWarmMessage_eq] at h
    cases ho : (dm.info treeIdx nid).isOwner
    · simp [ho] at h
    · simp only [ho, if_true, List.mem_singleton, Effect.send.injEq] at h
      obtain ⟨-, rfl, rfl⟩ := h
      refine Or.inr (Or.inr (Or.inr (Or.inr ⟨rfl, rfl, ?_⟩)))
      simp [Step.treeIdx, Step.nid, getSerializedSize, bytesBE_length]
      omega
  | data treeIdx nid serializedData dataLen senderIdx =>
    simp [Step.run, handleDataMsg] at h
  | dirty treeIdx nid senderIdx =>
    simp [Step.run, handleDirtyMsg] at h
  | read treeIdx nid =>
    simp only [Step.run, checkRead_eq] at h
    split_ifs at h
    · simp only [List.mem_cons, Effect.send.injEq, List.mem_singleton, reduceCtorEq,
        or_false, List.not_mem_nil] at h
      obtain ⟨-, rfl, rfl⟩ := h
      exact Or.inl ⟨rfl, rfl, rfl⟩
    · simp at h
  | write treeIdx nid =>
    simp only [Step.run] at h
    cases hc : env.communicationEnabled
    · rw [checkWrite_of_disabled env dm treeIdx nid hc] at h
      simp at h
    · cases ho : (dm.info treeIdx nid).isOwner
      · rw [checkWrite_of_not_owner env dm treeIdx nid hc ho] at h
        simp only [List.mem_map, Effect.send.injEq] at h
        obtain ⟨x, -, -, rfl, rfl⟩ := h
        exact Or.inr (Or.inr (Or.inr (Or.inl ⟨rfl, rfl, rfl⟩)))
      · rw [checkWrite_of_owner env dm treeIdx nid hc ho] at h
        simp only [List.mem_append, List.mem_map, Effect.send.injEq] at h
        rcases h with ⟨x, -, -, rfl, rfl⟩ | ⟨x, -, -, rfl, rfl⟩
        · refine Or.inr (Or.inr (Or.inr (Or.inr ⟨rfl, rfl, ?_⟩)))
          simp [Step.treeIdx, Step.nid, getSerializedSize, bytesBE_length]
          omega
        · exact Or.inr (Or.inr (Or.inl ⟨rfl, rfl, rfl⟩))

/-- C20 at scenario S2: the DATA message peer 1 sends to peer 3 for node
(0, 7) with payload `0x01` has 9 bytes, header then payload. -/
theorem emitted_body_layout_witness :
    Effect.send 3 [0, 0, 0, 7, 0, 0, 0, 0, 1] 4 ∈
      ((Step.write 0 7).run (testEnv 1 [2, 3] true) (constStore (ownerRecord 1 4 [3] [2]) [1])).2 ∧
    (((4 : Int) = (testEnv 1 [2, 3] true).REQUEST_DATA_TYPE ∧
        [0, 0, 0, 7, 0, 0, 0, 0, 1]
          = bytesBE (toUInt32 (Step.write 0 7).nid) ++ bytesBE (toUInt32 (Step.write 0 7).treeIdx) ∧
        [0, 0, 0, 7, 0, 0, 0, 0, 1].length = 8) ∨
      ((4 : Int) = (testEnv 1 [2, 3] true).OWNERSHIP_WARM_ACK_TYPE ∧
        [0, 0, 0, 7, 0, 0, 0, 0, 1]
          = putRaw (testEnv 1 [2, 3] true) (Step.write 0 7).nid
            ++ putRaw (testEnv 1 [2, 3] true) (Step.write 0 7).treeIdx ∧
        [0, 0, 0, 7, 0, 0, 0, 0, 1].length = 8) ∨
      ((4 : Int) = (testEnv 1 [2, 3] true).DIRTY_TYPE ∧
        [0, 0, 0, 7, 0, 0, 0, 0, 1]
          = bytesBE (toUInt32 (Step.write 0 7).nid) ++ bytesBE (toUInt32 (Step.write 0 7).treeIdx) ∧
        [0, 0, 0, 7, 0, 0, 0, 0, 1].length = 8) ∨
      ((4 : Int) = (testEnv 1 [2, 3] true).OWNERSHIP_TYPE ∧
        [0, 0, 0, 7, 0, 0, 0, 0, 1]
          = bytesBE (toUInt32 (Step.write 0 7).nid) ++ bytesBE (toUInt32 (Step.write 0 7).treeIdx)
            ++ bytesBE (toUInt32 (((constStore (ownerRecord 1 4 [3] [2]) [1]).info
                (Step.write 0 7).treeIdx (Step.write 0 7).nid).timestamp + 1))
            ++ [toChar (testEnv 1 [2, 3] true).thisAddressIdx] ∧
        [0, 0, 0, 7, 0, 0, 0, 0, 1].length = 13) ∨
      ((4 : Int) = (testEnv 1 [2, 3] true).DATA_TYPE ∧
        [0, 0, 0, 7, 0, 0, 0, 0, 1]
          = bytesBE (toUInt32 (Step.write 0 7).nid) ++ bytesBE (toUInt32 (Step.write 0 7).treeIdx)
            ++ (constStore (ownerRecord 1 4 [3] [2]) [1]).serialized
                (Step.write 0 7).treeIdx (Step.write 0 7).nid ∧
        [0, 0, 0, 7, 0, 0, 0, 0, 1].length
          = 8 + getSerializedSize (constStore (ownerRecord 1 4 [3] [2]) [1])
              (Step.write 0 7).treeIdx (Step.write 0 7).nid)) :=
  ⟨by decide,
    emitted_body_layout (testEnv 1 [2, 3] true) (constStore (ownerRecord 1 4 [3] [2]) [1])
      (Step.write 0 7) 3 [0, 0, 0, 7, 0, 0, 0, 0, 1] 4 (by decide)⟩

/-! ## Dispatch: short bodies, unknown tags, disabled communication -/

/-- A converted load at byte offset 16 of a buffer shorter than 20 bytes is
outside the buffer. -/
theorem getWire_16_short (env : Env) (buf : List Nat) (h : buf.length < 20) :
    getWire env buf (4 * 4) = none := by
  rw [getWire_eq]
  have : ¬ (4 * 4 + 4 ≤ buf.length) := by omega
  simp [this]

/-- Result of `handleMessage` for one of the five tags when the read at
offset 16 leaves the buffer. -/
theorem handleMessage_of_short (env : Env) (dm : SharedDataManager) (senderIdx : Int)
    (buf : List Nat) (type : Int)
    (htype : type = env.REQUEST_DATA_TYPE ∨ type = env.OWNERSHIP_TYPE ∨
      type = env.OWNERSHIP_WARM_ACK_TYPE ∨ type = env.DATA_TYPE ∨ type = env.DIRTY_TYPE)
    (hlen : buf.length < 20) :
    handleMessage env dm senderIdx buf type = none := by
  unfold handleMessage
  rw [getWire_16_short env buf hlen]
  split_ifs with h1 h2 h3 h4 h5
  · cases getWire env buf 0 <;> rfl
  · cases getWire env buf 0 <;> rfl
  · cases getWire env buf 0 <;> rfl
  · cases getWire env buf 0 <;> rfl
  · cases getWire env buf 0 <;> rfl
  · rcases htype with h | h | h | h | h
    · exact absurd h h1
    · exact absurd h h2
    · exact absurd h h3
    · exact absurd h h4
    · exact absurd h h5

/-- C21, evaluated on the code: a REQUEST_DATA body of 4 bytes and an
OWNERSHIP body of 12 bytes, both shorter than their tag requires, are not
dropped: `handleMessage` has no result of the form "store unchanged, nothing
sent", because it reads the tree index outside the body. -/
theorem handleMessage_short_body_not_dropped :
    handleMessage (testEnv 1 [2] true) (constStore CoherencyInfo.fresh []) 2 [0, 0, 0, 7] 1
      ≠ some (constStore CoherencyInfo.fresh [], []) ∧
    handleMessage (testEnv 1 [2] true) (constStore CoherencyInfo.fresh []) 2 [0, 0, 0, 7] 1
      = none ∧
    handleMessage (testEnv 1 [2] true) (constStore CoherencyInfo.fresh []) 2
        [0, 0, 0, 7, 0, 0, 0, 0, 0, 0, 0, 3] 2
      ≠ some (constStore CoherencyInfo.fresh [], []) ∧
    handleMessage (testEnv 1 [2] true) (constStore CoherencyInfo.fresh []) 2
        [0, 0, 0, 7, 0, 0, 0, 0, 0, 0, 0, 3] 2 = none := by
  have h1 : handleMessage (testEnv 1 [2] true) (constStore CoherencyInfo.fresh []) 2
      [0, 0, 0, 7] 1 = none := rfl
  have h2 : handleMessage (testEnv 1 [2] true) (constStore CoherencyInfo.fresh []) 2
      [0, 0, 0, 7, 0, 0, 0, 0, 0, 0, 0, 3] 2 = none := rfl
  refine ⟨?_, h1, ?_, h2⟩
  · rw [h1]
    exact fun h => Option.noConfusion h
  · rw [h2]
    exact fun h => Option.noConfusion h

/-- C21, as the code has it: `handleMessage` makes no length check; for each
of the five tags and every body shorter than the length its tag requires (8
bytes, 13 for OWNERSHIP) a header read is outside the body and the call has
no defined result: the message is not dropped. -/
theorem handleMessage_short_body_undefined (env : Env) (dm : SharedDataManager)
    (senderIdx : Int) (buf : List Nat) (type : Int)
    (hshort : (type = env.REQUEST_DATA_TYPE ∧ buf.length < 8) ∨
      (type = env.OWNERSHIP_TYPE ∧ buf.length < 13) ∨
      (type = env.OWNERSHIP_WARM_ACK_TYPE ∧ buf.length < 8) ∨
      (type = env.DATA_TYPE ∧ buf.length < 8) ∨
      (type = env.DIRTY_TYPE ∧ buf.length < 8)) :
    handleMessage env dm senderIdx buf type = none := by
  rcases hshort with ⟨h, hl⟩ | ⟨h, hl⟩ | ⟨h, hl⟩ | ⟨h, hl⟩ | ⟨h, hl⟩
  · exact handleMessage_of_short env dm senderIdx buf type (Or.inl h) (by omega)
  · exact handleMessage_of_short env dm senderIdx buf type (Or.inr (Or.inl h)) (by omega)
  · exact handleMessage_of_short env dm senderIdx buf type (Or.inr (Or.inr (Or.inl h)))
      (by omega)
  · exact handleMessage_of_short env dm senderIdx buf type
      (Or.inr (Or.inr (Or.inr (Or.inl h)))) (by omega)
  · exact handleMessage_of_short env dm senderIdx buf type
      (Or.inr (Or.inr (Or.inr (Or.inr h)))) (by omega)

/-- C21 at a DIRTY body of 7 bytes. -/
theorem handleMessage_short_body_undefined_witness :
    (((5 : Int) = (testEnv 1 [2] true).REQUEST_DATA_TYPE ∧ [0, 0, 0, 7, 0, 0, 0].length < 8) ∨
      ((5 : Int) = (testEnv 1 [2] true).OWNERSHIP_TYPE ∧ [0, 0, 0, 7, 0, 0, 0].length < 13) ∨
      ((5 : Int) = (testEnv 1 [2] true).OWNERSHIP_WARM_ACK_TYPE ∧
        [0, 0, 0, 7, 0, 0, 0].length < 8) ∨
      ((5 : Int) = (testEnv 1 [2] true).DATA_TYPE ∧ [0, 0, 0, 7, 0, 0, 0].length < 8) ∨
      ((5 : Int) = (testEnv 1 [2] true).DIRTY_TYPE ∧ [0, 0, 0, 7, 0, 0, 0].length < 8)) ∧
    handleMessage (testEnv 1 [2] true) (constStore CoherencyInfo.fresh []) 2
      [0, 0, 0, 7, 0, 0, 0] 5 = none :=
  ⟨by decide,
    handleMessage_short_body_undefined (testEnv 1 [2] true) (constStore CoherencyInfo.fresh [])
      2 [0, 0, 0, 7, 0, 0, 0] 5 (by decide)⟩

/-- C22: for a type tag that is none of the five defined ones and any body,
`handleMessage` returns the store as it was, with every record and payload
unchanged, and its only effect is the report of the unsupported type: no
message is sent. -/
theorem handleMessage_unknown_type (env : Env) (dm : SharedDataManager) (senderIdx : Int)
    (buf : List Nat) (type : Int)
    (h1 : type ≠ env.REQUEST_DATA_TYPE) (h2 : type ≠ env.OWNERSHIP_TYPE)
    (h3 : type ≠ env.OWNERSHIP_WARM_ACK_TYPE) (h4 : type ≠ env.DATA_TYPE)
    (h5 : type ≠ env.DIRTY_TYPE) :
    handleMessage env dm senderIdx buf type = some (dm, [Effect.unsupported type]) ∧
    ∀ a body t, Effect.send a body t ∉ [Effect.unsupported type] := by
  refine ⟨?_, ?_⟩
  · unfold handleMessage
    simp [h1, h2, h3, h4, h5]
  · intro a body t h
    simp at h

/-- C22 at tag 9 with an empty body and with a body of 20 bytes. -/
theorem handleMessage_unknown_type_witness :
    ((9 : Int) ≠ (testEnv 1 [2] true).REQUEST_DATA_TYPE ∧
      (9 : Int) ≠ (testEnv 1 [2] true).OWNERSHIP_TYPE ∧
      (9 : Int) ≠ (testEnv 1 [2] true).OWNERSHIP_WARM_ACK_TYPE ∧
      (9 : Int) ≠ (testEnv 1 [2] true).DATA_TYPE ∧
      (9 : Int) ≠ (testEnv 1 [2] true).DIRTY_TYPE) ∧
    (handleMessage (testEnv 1 [2] true) (constStore (ownerRecord 1 5 [3] [2]) [1]) 2 [] 9
        = some (constStore (ownerRecord 1 5 [3] [2]) [1], [Effect.unsupported 9]) ∧
      ∀ a body t, Effect.send a body t ∉ [Effect.unsupported 9]) :=
  ⟨⟨by decide, by decide, by decide, by decide, by decide⟩,
    handleMessage_unknown_type (testEnv 1 [2] true) (constStore (ownerRecord 1 5 [3] [2]) [1]) 2
      [] 9 (by decide) (by decide) (by decide) (by decide) (by decide)⟩

/-- C23: when communication is disabled, `checkWrite` and `checkRead` return
the store they were given, so no field of any record changes, and perform no
effect, so no message is sent. -/
theorem disabled_communication_noop (env : Env) (dm : SharedDataManager) (treeIdx nid : Int)
    (hcomm : env.communicationEnabled = false) :
    checkWrite env dm treeIdx nid = (dm, []) ∧ checkRead env dm treeIdx nid = (dm, []) := by
  refine ⟨checkWrite_of_disabled env dm treeIdx nid hcomm, ?_⟩
  rw [checkRead_eq]
  simp [hcomm]

/-- C23 at a record that is not owner (timestamp 5) and at a dirty record
with a known owner: with communication disabled neither accessor changes the
store or sends anything. -/
theorem disabled_communication_noop_witness :
    (disabledEnv 1 [2] true).communicationEnabled = false ∧
    (checkWrite (disabledEnv 1 [2] true) (constStore (CoherencyInfo.mk false 2 false true 5 [] []) [])
        0 7 = (constStore (CoherencyInfo.mk false 2 false true 5 [] []) [], []) ∧
      checkRead (disabledEnv 1 [2] true) (constStore (CoherencyInfo.mk false 2 false true 5 [] []) [])
        0 7 = (constStore (CoherencyInfo.mk false 2 false true 5 [] []) [], [])) :=
  ⟨rfl,
    disabled_communication_noop (disabledEnv 1 [2] true)
      (constStore (CoherencyInfo.mk false 2 false true 5 [] []) []) 0 7 rfl⟩

/-! ## Messages handled by their addressee -/

theorem tagsDistinct_ne (env : Env) (h : env.tagsDistinct) :
    env.REQUEST_DATA_TYPE ≠ env.OWNERSHIP_TYPE ∧
    env.REQUEST_DATA_TYPE ≠ env.OWNERSHIP_WARM_ACK_TYPE ∧
    env.REQUEST_DATA_TYPE ≠ env.DATA_TYPE ∧
    env.REQUEST_DATA_TYPE ≠ env.DIRTY_TYPE ∧
    env.OWNERSHIP_TYPE ≠ env.OWNERSHIP_WARM_ACK_TYPE ∧
    env.OWNERSHIP_TYPE ≠ env.DATA_TYPE ∧
    env.OWNERSHIP_TYPE ≠ env.DIRTY_TYPE ∧
    env.OWNERSHIP_WARM_ACK_TYPE ≠ env.DATA_TYPE ∧
    env.OWNERSHIP_WARM_ACK_TYPE ≠ env.DIRTY_TYPE ∧
    env.DATA_TYPE ≠ env.DIRTY_TYPE := by
  unfold Env.tagsDistinct at h
  simp only [List.nodup_cons, List.mem_cons, List.mem_singleton, List.not_mem_nil, not_or,
    or_false, List.nodup_nil, and_true, not_false_eq_true] at h
  tauto

/-- The two header words of a body written by an emitter, read back. -/
theorem getWire_header (env : Env) (a b : Nat) (rest : List Nat) :
    getWire env (bytesBE a ++ bytesBE b ++ rest) 0 = some (toInt32 a) ∧
    getWire env (bytesBE a ++ bytesBE b ++ rest) 4 = some (toInt32 b) := by
  simp only [getWire_eq]
  constructor
  · simp [bytesBE, toInt32_wordBE_quad]
  · simp [bytesBE, toInt32_wordBE_quad]

theorem handleAddressed_append (env : Env) (p senderIdx : Int) (l1 l2 : List Effect)
    (dm : SharedDataManager) :
    handleAddressed env p senderIdx dm (l1 ++ l2)
      = (handleAddressed env p senderIdx dm l1).bind fun d =>
          handleAddressed env p senderIdx d l2 := by
  induction l1 generalizing dm with
  | nil => rfl
  | cons e es ih =>
    cases e with
    | send addr buf type =>
      simp only [List.cons_append, handleAddressed]
      by_cases h : addr = p
      · cases handleMessage env dm senderIdx buf type with
        | none => simp [h]
        | some r => simp [h, ih]
      · simp [h, ih]
    | signal t n => simpa [handleAddressed] using ih dm
    | wait t n => simpa [handleAddressed] using ih dm
    | unsupported t => simpa [handleAddressed] using ih dm

/-- C4, evaluated on the code: peers {1, 2} without record for node (0, 7);
peer 1 writes, then peer 2 writes. The OWNERSHIP of each write is 13 bytes
long and `handleMessage` reads `treeIdx` at byte offset 16: handed the body,
the read leaves it; handed a buffer in which the body is followed by bytes
that read as tree 1, it installs the owner in the record of node (1, 7). The
record of node (0, 7) at the addressee stays as it was, so after the two
writes peer 1 and peer 2 are both owner of node (0, 7). -/
theorem ownership_broadcast_leaves_two_owners :
    (checkWrite (testEnv 1 [2] true) (constStore CoherencyInfo.fresh []) 0 7).2
      = [Effect.send 2 [0, 0, 0, 7, 0, 0, 0, 0, 0, 0, 0, 1, 1] 2] ∧
    handleAddressed (testEnv 2 [1] true) 2 1 (constStore CoherencyInfo.fresh [])
        (checkWrite (testEnv 1 [2] true) (constStore CoherencyInfo.fresh []) 0 7).2 = none ∧
    (handleMessage (testEnv 2 [1] true) (constStore CoherencyInfo.fresh []) 1
        ([0, 0, 0, 7, 0, 0, 0, 0, 0, 0, 0, 1, 1] ++ [0, 0, 0, 0, 0, 0, 1]) 2).map
        (fun r => (r.1.info 0 7, (r.1.info 1 7).ownerIdx,
          (checkWrite (testEnv 2 [1] true) r.1 0 7).2,
          ((checkWrite (testEnv 2 [1] true) r.1 0 7).1.info 0 7).isOwner))
      = some (CoherencyInfo.fresh, 1,
          [Effect.send 1 [0, 0, 0, 7, 0, 0, 0, 0, 0, 0, 0, 1, 2] 2], true) ∧
    handleAddressed (testEnv 1 [2] true) 1 2
        (checkWrite (testEnv 1 [2] true) (constStore CoherencyInfo.fresh []) 0 7).1
        [Effect.send 1 [0, 0, 0, 7, 0, 0, 0, 0, 0, 0, 0, 1, 2] 2] = none ∧
    (handleMessage (testEnv 1 [2] true)
        (checkWrite (testEnv 1 [2] true) (constStore CoherencyInfo.fresh []) 0 7).1 2
        ([0, 0, 0, 7, 0, 0, 0, 0, 0, 0, 0, 1, 2] ++ [0, 0, 0, 0, 0, 0, 1]) 2).map
        (fun r => ((r.1.info 0 7).isOwner, (r.1.info 1 7).ownerIdx))
      = some (true, 2) := by
  refine ⟨by decide, rfl, by decide, rfl, by decide⟩

/-- C24, evaluated on the code at peers {1, 2}: peer 1 owns node (0, 7) and
lists peer 2 in `warms` only; peer 2 is warm, dirty and holds the payload
`0x00`. With the payload `0xDE 0xAD` the DATA of `checkWrite` is 10 bytes
long and `handleMessage` at peer 2 reads `treeIdx` outside it. With a payload
of 12 bytes that ends in `00 00 00 01` the DATA is 20 bytes long and
`handleMessage` takes tree 1 from the payload: peer 2 stores the payload for
node (1, 7), and for node (0, 7) it still holds `0x00` and is dirty. -/
theorem warm_push_data_not_dispatched :
    (checkWrite (testEnv 1 [2] true) (constStore (ownerRecord 1 4 [2] []) [222, 173]) 0 7).2
      = [Effect.send 2 [0, 0, 0, 7, 0, 0, 0, 0, 222, 173] 4] ∧
    handleAddressed (testEnv 2 [1] true) 2 1 (constStore (warmRecord 1 4 true) [0])
        (checkWrite (testEnv 1 [2] true) (constStore (ownerRecord 1 4 [2] []) [222, 173])
          0 7).2 = none ∧
    (checkWrite (testEnv 1 [2] true)
        (constStore (ownerRecord 1 4 [2] []) [0, 0, 0, 0, 0, 0, 0, 0, 0, 0, 0, 1]) 0 7).2
      = [Effect.send 2 [0, 0, 0, 7, 0, 0, 0, 0, 0, 0, 0, 0, 0, 0, 0, 0, 0, 0, 0, 1] 4] ∧
    (handleAddressed (testEnv 2 [1] true) 2 1 (constStore (warmRecord 1 4 true) [0])
        (checkWrite (testEnv 1 [2] true)
          (constStore (ownerRecord 1 4 [2] []) [0, 0, 0, 0, 0, 0, 0, 0, 0, 0, 0, 1]) 0 7).2).map
        (fun d => (d.serialized 0 7, (d.info 0 7).isDirty, d.serialized 1 7))
      = some ([0], true, [0, 0, 0, 0, 0, 0, 0, 0, 0, 0, 0, 1]) := by
  refine ⟨by decide, rfl, by decide, by decide⟩

/-- A step through which the node stays owned keeps every reader listed. -/
theorem step_keeps_reader (env : Env) (dm : SharedDataManager) (s : Step) (t n p : Int)
    (hbefore : (dm.info t n).isOwner = true)
    (hafter : ((s.run env dm).1.info t n).isOwner = true)
    (hp : p ∈ (dm.info t n).readerList) :
    p ∈ ((s.run env dm).1.info t n).readerList := by
  rw [Step.run_info] at hafter ⊢
  cases s with
  | requestData treeIdx nid senderIdx =>
    simp only []
    by_cases h : t = treeIdx ∧ n = nid
    · rw [if_pos h]
      exact (mem_setInsert senderIdx p _).mpr (Or.inr hp)
    · rw [if_neg h]
      exact hp
  | ownership treeIdx nid timestamp ownerIdx senderIdx =>
    simp only [] at hafter ⊢
    by_cases h : t = treeIdx ∧ n = nid
    · rw [if_pos h] at hafter ⊢
      have ho : ownerIdx = env.thisAddressIdx := by simpa using hafter
      simp [ho, hp]
    · rw [if_neg h]
      exact hp
  | ownershipWarm treeIdx nid senderIdx =>
    simp only []
    by_cases h : (t = treeIdx ∧ n = nid) ∧ (dm.info t n).isOwner = true
    · rw [if_pos h]
      exact hp
    · rw [if_neg h]
      exact hp
  | data treeIdx nid serializedData dataLen senderIdx =>
    simp only []
    by_cases h : t = treeIdx ∧ n = nid
    · rw [if_pos h]
      exact hp
    · rw [if_neg h]
      exact hp
  | dirty treeIdx nid senderIdx =>
    simp only []
    by_cases h : t = treeIdx ∧ n = nid
    · rw [if_pos h]
      exact hp
    · rw [if_neg h]
      exact hp
  | read treeIdx nid => exact hp
  | write treeIdx nid =>
    simp only []
    by_cases h : (t = treeIdx ∧ n = nid) ∧ env.communicationEnabled = true ∧
        (dm.info t n).isOwner = false
    · rw [hbefore] at h
      exact absurd h.2.2 (by decide)
    · rw [if_neg h]
      exact hp

/-- Steps through all of which the node stays owned keep every reader
listed. -/
theorem runSteps_keeps_reader (env : Env) (t n p : Int) (steps : List Step)
    (dm : SharedDataManager)
    (hstill : ∀ k, ((runSteps env dm (steps.take k)).info t n).isOwner = true)
    (hp : p ∈ (dm.info t n).readerList) :
    p ∈ ((runSteps env dm steps).info t n).readerList := by
  induction steps generalizing dm with
  | nil => exact hp
  | cons s ss ih =>
    have h0 : (dm.info t n).isOwner = true := hstill 0
    have h1 : (((s.run env dm).1).info t n).isOwner = true := hstill 1
    have hnext : ∀ k, ((runSteps env (s.run env dm).1 (ss.take k)).info t n).isOwner = true :=
      fun k => hstill (k + 1)
    exact ih (s.run env dm).1 hnext (step_keeps_reader env dm s t n p h0 h1 hp)

/-- C25, evaluated on the code at peers {1, 2}: peer 2 owns node (0, 7) and
has handled the REQUEST_DATA of peer 1, which is neither owner nor warm and
not dirty; the `checkWrite` of peer 2 that follows sends peer 1 a DIRTY
message of 8 bytes. `handleMessage` at peer 1 reads `treeIdx` at byte offset
16: handed the body, the read leaves it; handed a buffer in which the body is
followed by bytes that read as tree 1, it marks node (1, 7) dirty. The record
of node (0, 7) at peer 1 is not marked dirty. -/
theorem dirty_message_not_dispatched :
    ((handleRequestDataMsg (testEnv 2 [1] true) (constStore (ownerRecord 2 5 [] []) [222, 173])
        0 7 1).1.info 0 7).readerList = [1] ∧
    (checkWrite (testEnv 2 [1] true)
        (handleRequestDataMsg (testEnv 2 [1] true)
          (constStore (ownerRecord 2 5 [] []) [222, 173]) 0 7 1).1 0 7).2
      = [Effect.send 1 [0, 0, 0, 7, 0, 0, 0, 0] 5] ∧
    handleAddressed (testEnv 1 [2] true) 1 2 (constStore (nonOwnerRecord 2 5) [222, 173])
        (checkWrite (testEnv 2 [1] true)
          (handleRequestDataMsg (testEnv 2 [1] true)
            (constStore (ownerRecord 2 5 [] []) [222, 173]) 0 7 1).1 0 7).2 = none ∧
    (handleMessage (testEnv 1 [2] true) (constStore (nonOwnerRecord 2 5) [222, 173]) 2
        ([0, 0, 0, 7, 0, 0, 0, 0] ++ [0, 0, 0, 0, 0, 0, 0, 0, 0, 0, 0, 1]) 5).map
        (fun r => ((r.1.info 0 7).isDirty, (r.1.info 1 7).isDirty))
      = some (false, true) := by
  refine ⟨by decide, by decide, rfl, by decide⟩

/-- C27, evaluated on the code on little-endian hosts (scenario S5): peer 3
takes ownership of node (0, 7) and broadcasts OWNERSHIP; the warm peer 2,
whose `handleOwnershipMsg` is called with the fields of that message, answers
with an OWNERSHIP_WARM_ACK whose body is `07 00 00 00 00 00 00 00`. The first
word, read as `handleMessage` reads it, is nid 117440512. `handleMessage` at
peer 3 reads `treeIdx` outside that body; handed a buffer in which the body is
followed by zero bytes, it calls `handleOwnershipWarmMessage` for node
(0, 117440512), of which peer 3 is not owner: peer 3 registers nobody in the
warm list of node (0, 7) and sends no DATA. -/
theorem warm_handover_ack_names_other_node :
    (checkWrite (testEnv 3 [1, 2] true) (constStore (nonOwnerRecord 1 5) [9, 9]) 0 7).2
      = [Effect.send 1 [0, 0, 0, 7, 0, 0, 0, 0, 0, 0, 0, 6, 3] 2,
          Effect.send 2 [0, 0, 0, 7, 0, 0, 0, 0, 0, 0, 0, 6, 3] 2] ∧
    (handleOwnershipMsg (testEnv 2 [1, 3] true) (constStore (warmRecord 1 5 false) [1]) 0 7 6 3
        3).2
      = [Effect.send 3 [7, 0, 0, 0, 0, 0, 0, 0] 3] ∧
    getWire (testEnv 3 [1, 2] true) [7, 0, 0, 0, 0, 0, 0, 0] 0 = some 117440512 ∧
    handleMessage (testEnv 3 [1, 2] true)
        (checkWrite (testEnv 3 [1, 2] true) (constStore (nonOwnerRecord 1 5) [9, 9]) 0 7).1 2
        [7, 0, 0, 0, 0, 0, 0, 0] 3 = none ∧
    (handleMessage (testEnv 3 [1, 2] true)
        (checkWrite (testEnv 3 [1, 2] true) (constStore (nonOwnerRecord 1 5) [9, 9]) 0 7).1 2
        ([7, 0, 0, 0, 0, 0, 0, 0] ++ [0, 0, 0, 0, 0, 0, 0, 0, 0, 0, 0, 0]) 3).map
        (fun r => (r.2, (r.1.info 0 7).warmList, (r.1.info 0 117440512).warmList))
      = some ([], [], []) ∧
    (handleOwnershipWarmMessage (testEnv 3 [1, 2] true)
        (checkWrite (testEnv 3 [1, 2] true) (constStore (nonOwnerRecord 1 5) [9, 9]) 0 7).1
        0 117440512 2).2 = [] ∧
    ((handleOwnershipMsg (testEnv 1 [2, 3] true) (constStore (ownerRecord 1 5 [] []) [1]) 0 7 6 3
        3).1.info 0 7).isDirty = true := by
  refine ⟨by decide, by decide, by decide, rfl, by decide, by decide, by decide⟩

end CoherencyManager

namespace Mdsdcl

/-! ## Queries on a command -/

theorem parametersAt_of_no_match (name : String) (k : Nat) (ps : List dclParameter)
    (h : ps.filter (parameterMatches name) = []) : parametersAt name k ps = ps := by
  induction ps with
  | nil => rfl
  | cons p ps ih =>
    by_cases hp : parameterMatches name p = true
    · simp [List.filter_cons, hp] at h
    · have h2 : ps.filter (parameterMatches name) = [] := by
        simpa [List.filter_cons, hp] using h
      have ih2 := ih h2
      unfold parametersAt at ih2 ⊢
      simp [hp, ih2]

theorem qualifiersAt_of_no_match (name : String) (k : Nat) (qs : List dclQualifier)
    (h : qs.filter (qualifierMatches name) = []) : qualifiersAt name k qs = qs := by
  induction qs with
  | nil => rfl
  | cons q qs ih =>
    by_cases hq : qualifierMatches name q = true
    · simp [List.filter_cons, hq] at h
    · have h2 : qs.filter (qualifierMatches name) = [] := by
        simpa [List.filter_cons, hq] using h
      have ih2 := ih h2
      unfold qualifiersAt at ih2 ⊢
      simp [hq, ih2]

/-- The parameter loop of `cli_get_value` changes nothing when no parameter
matches. -/
theorem cli_get_value_parameters_no_match (sts : CliStatus) (name : String)
    (ps : List dclParameter) (h : ps.filter (parameterMatches name) = []) (ans : Int)
    (value : Option String) :
    cli_get_value_parameters sts name ps ans value = (ps, ans, value) := by
  induction ps with
  | nil => rfl
  | cons p ps ih =>
    by_cases hp : parameterMatches name p = true
    · simp [List.filter_cons, hp] at h
    · have h2 : ps.filter (parameterMatches name) = [] := by
        simpa [List.filter_cons, hp] using h
      unfold cli_get_value_parameters
      by_cases ha : ans = sts.CLI_STS_ABSENT
      · subst ha
        simp [hp, ih h2]
      · simp [ha]

/-- The qualifier loop of `cli_get_value` changes nothing when no qualifier
matches. -/
theorem cli_get_value_qualifiers_no_match (sts : CliStatus) (name : String)
    (qs : List dclQualifier) (h : qs.filter (qualifierMatches name) = []) (ans : Int)
    (value : Option String) :
    cli_get_value_qualifiers sts name qs ans value = (qs, ans, value) := by
  induction qs with
  | nil => rfl
  | cons q qs ih =>
    by_cases hq : qualifierMatches name q = true
    · simp [List.filter_cons, hq] at h
    · have h2 : qs.filter (qualifierMatches name) = [] := by
        simpa [List.filter_cons, hq] using h
      unfold cli_get_value_qualifiers
      by_cases ha : ans = sts.CLI_STS_ABSENT
      · subst ha
        simp [hq, ih h2]
      · simp [ha]

/-- The parameter loop on the only matching parameter, whose values are `vs`
and whose value index is `k`. -/
theorem cli_get_value_parameters_at (sts : CliStatus) (name : String) (vs : List String)
    (k : Nat) (ps : List dclParameter)
    (h : (ps.filter (parameterMatches name)).map (fun p => p.values) = [vs])
    (value : Option String) :
    cli_get_value_parameters sts name (parametersAt name k ps) sts.CLI_STS_ABSENT value =
      if k < vs.length then (parametersAt name (k + 1) ps, sts.CLI_STS_PRESENT, vs.get? k)
      else (parametersAt name 0 ps, sts.CLI_STS_ABSENT, value) := by
  induction ps with
  | nil => simp at h
  | cons p ps ih =>
    by_cases hp : parameterMatches name p = true
    · simp only [List.filter_cons, hp, if_true, List.map_cons, List.cons.injEq,
        List.map_eq_nil_iff] at h
      obtain ⟨hv, hrest⟩ := h
      have e1 : ∀ j, parametersAt name j (p :: ps) = { p with value_idx := j } :: ps := by
        intro j
        have := parametersAt_of_no_match name j ps hrest
        unfold parametersAt at this ⊢
        simp [hp, this]
      have hm : ∀ j, parameterMatches name { p with value_idx := j } = true := fun _ => hp
      subst hv
      rw [e1 k, e1 (k + 1), e1 0]
      unfold cli_get_value_parameters
      rw [if_pos rfl, if_pos (hm k), cli_get_value_parameters_no_match sts name ps hrest,
        cli_get_value_parameters_no_match sts name ps hrest]
      by_cases hk : k < p.values.length
      · have hk2 : ¬ (k ≥ p.values.length) := by omega
        rw [if_pos hk]
        simp only []
        rw [if_neg hk2]
      · have hk2 : k ≥ p.values.length := by omega
        rw [if_neg hk]
        simp only []
        rw [if_pos hk2]
    · have h2 : (ps.filter (parameterMatches name)).map (fun p => p.values) = [vs] := by
        simpa [List.filter_cons, hp] using h
      have e1 : ∀ j, parametersAt name j (p :: ps) = p :: parametersAt name j ps := by
        intro j
        unfold parametersAt
        simp [hp]
      rw [e1 k, e1 (k + 1), e1 0]
      unfold cli_get_value_parameters
      simp only [if_true, hp, ih h2]
      by_cases hk : k < vs.length
      · simp [hk]
      · simp [hk]

/-- The qualifier loop on the only matching qualifier, whose values are `vs`
and whose value index is `k`. -/
theorem cli_get_value_qualifiers_at (sts : CliStatus) (name : String) (vs : List String)
    (k : Nat) (qs : List dclQualifier)
    (h : (qs.filter (qualifierMatches name)).map (fun q => q.values) = [vs])
    (value : Option String) :
    cli_get_value_qualifiers sts name (qualifiersAt name k qs) sts.CLI_STS_ABSENT value =
      if k < vs.length then (qualifiersAt name (k + 1) qs, sts.CLI_STS_PRESENT, vs.get? k)
      else (qualifiersAt name 0 qs, sts.CLI_STS_ABSENT, value) := by
  induction qs with
  | nil => simp at h
  | cons q qs ih =>
    by_cases hq : qualifierMatches name q = true
    · simp only [List.filter_cons, hq, if_true, List.map_cons, List.cons.injEq,
        List.map_eq_nil_iff] at h
      obtain ⟨hv, hrest⟩ := h
      have e1 : ∀ j, qualifiersAt name j (q :: qs) = { q with value_idx := j } :: qs := by
        intro j
        have := qualifiersAt_of_no_match name j qs hrest
        unfold qualifiersAt at this ⊢
        simp [hq, this]
      have hm : ∀ j, qualifierMatches name { q with value_idx := j } = true := fun _ => hq
      subst hv
      rw [e1 k, e1 (k + 1), e1 0]
      unfold cli_get_value_qualifiers
      rw [if_pos rfl, if_pos (hm k), cli_get_value_qualifiers_no_match sts name qs hrest,
        cli_get_value_qualifiers_no_match sts name qs hrest]
      by_cases hk : k < q.values.length
      · have hk2 : ¬ (k ≥ q.values.length) := by omega
        rw [if_pos hk]
        simp only []
        rw [if_neg hk2]
      · have hk2 : k ≥ q.values.length := by omega
        rw [if_neg hk]
        simp only []
        rw [if_pos hk2]
    · have h2 : (qs.filter (qualifierMatches name)).map (fun q => q.values) = [vs] := by
        simpa [List.filter_cons, hq] using h
      have e1 : ∀ j, qualifiersAt name j (q :: qs) = q :: qualifiersAt name j qs := by
        intro j
        unfold qualifiersAt
        simp [hq]
      rw [e1 k, e1 (k + 1), e1 0]
      unfold cli_get_value_qualifiers
      simp only [if_true, hq, ih h2]
      by_cases hk : k < vs.length
      · simp [hk]
      · simp [hk]

/-- The parameter loop of `cli_get_value` leaves every list of values as it
is. -/
theorem cli_get_value_parameters_values (sts : CliStatus) (name : String)
    (ps : List dclParameter) (ans : Int) (value : Option String) :
    (cli_get_value_parameters sts name ps ans value).1.map (fun p => p.values)
      = ps.map (fun p => p.values) := by
  induction ps generalizing ans value with
  | nil => rfl
  | cons p ps ih =>
    unfold cli_get_value_parameters
    split_ifs <;> simp [ih]

/-- The qualifier loop of `cli_get_value` leaves every list of values as it
is. -/
theorem cli_get_value_qualifiers_values (sts : CliStatus) (name : String)
    (qs : List dclQualifier) (ans : Int) (value : Option String) :
    (cli_get_value_qualifiers sts name qs ans value).1.map (fun q => q.values)
      = qs.map (fun q => q.values) := by
  induction qs generalizing ans value with
  | nil => rfl
  | cons q qs ih =>
    unfold cli_get_value_qualifiers
    split_ifs <;> simp [ih]

/-- One call of `cli_get_value` leaves every list of values as it is. -/
theorem cli_get_value_values (sts : CliStatus) (cmd : dclCommand) (name : String) :
    (cli_get_value sts cmd name).2.2.parameters.map (fun p => p.values)
      = cmd.parameters.map (fun p => p.values) ∧
    (cli_get_value sts cmd name).2.2.qualifiers.map (fun q => q.values)
      = cmd.qualifiers.map (fun q => q.values) := by
  unfold cli_get_value
  split_ifs
  · exact ⟨rfl, rfl⟩
  · exact ⟨cli_get_value_parameters_values sts name _ _ _,
      cli_get_value_qualifiers_values sts name _ _ _⟩

/-- Any number of calls of `cli_get_value` leaves every list of values as it
is. -/
theorem cli_get_values_values (sts : CliStatus) (name : String) (k : Nat) (cmd : dclCommand) :
    (cli_get_values sts name k cmd).2.parameters.map (fun p => p.values)
      = cmd.parameters.map (fun p => p.values) ∧
    (cli_get_values sts name k cmd).2.qualifiers.map (fun q => q.values)
      = cmd.qualifiers.map (fun q => q.values) := by
  induction k generalizing cmd with
  | zero => exact ⟨rfl, rfl⟩
  | succ k ih =>
    unfold cli_get_values
    have h1 := ih (cli_get_value sts cmd name).2.2
    have h2 := cli_get_value_values sts cmd name
    exact ⟨h1.1.trans h2.1, h1.2.trans h2.2⟩

theorem parametersAt_zero (name : String) (ps : List dclParameter)
    (h : ∀ p ∈ ps, parameterMatches name p = true → p.value_idx = 0) :
    parametersAt name 0 ps = ps := by
  induction ps with
  | nil => rfl
  | cons p ps ih =>
    have h1 := ih fun x hx => h x (List.mem_cons_of_mem _ hx)
    unfold parametersAt at h1 ⊢
    rw [List.map_cons, h1]
    by_cases hp : parameterMatches name p = true
    · have h0 := h p (List.mem_cons_self _ _) hp
      rw [if_pos hp, ← h0]
    · rw [if_neg hp]

theorem qualifiersAt_zero (name : String) (qs : List dclQualifier)
    (h : ∀ q ∈ qs, qualifierMatches name q = true → q.value_idx = 0) :
    qualifiersAt name 0 qs = qs := by
  induction qs with
  | nil => rfl
  | cons q qs ih =>
    have h1 := ih fun x hx => h x (List.mem_cons_of_mem _ hx)
    unfold qualifiersAt at h1 ⊢
    rw [List.map_cons, h1]
    by_cases hq : qualifierMatches name q = true
    · have h0 := h q (List.mem_cons_self _ _) hq
      rw [if_pos hq, ← h0]
    · rw [if_neg hq]

/-- One call of `cli_get_value` on a command in which exactly one parameter
or qualifier matches the name, with values `vs` and value index `k`. -/
theorem cli_get_value_at (sts : CliStatus) (cmd : dclCommand) (name : String)
    (vs : List String) (k : Nat)
    (hname : strcasecmp name "command_line" ≠ 0)
    (hvals : (cmd.parameters.filter (parameterMatches name)).map (fun p => p.values)
      ++ (cmd.qualifiers.filter (qualifierMatches name)).map (fun q => q.values) = [vs]) :
    cli_get_value sts (commandAt name k cmd) name =
      if k < vs.length then (sts.CLI_STS_PRESENT, vs.get? k, commandAt name (k + 1) cmd)
      else (sts.CLI_STS_ABSENT, none, commandAt name 0 cmd) := by
  unfold cli_get_value
  rw [if_neg hname]
  rcases List.append_eq_cons_iff.mp hvals with ⟨hp, hq⟩ | ⟨l, hp, hq⟩
  · have hp0 : cmd.parameters.filter (parameterMatches name) = [] := by
      simpa using hp
    have eP : ∀ j, parametersAt name j cmd.parameters = cmd.parameters :=
      fun j => parametersAt_of_no_match name j _ hp0
    simp only [commandAt, eP, cli_get_value_parameters_no_match sts name _ hp0,
      cli_get_value_qualifiers_at sts name vs k _ hq]
    by_cases hk : k < vs.length
    · simp [hk]
    · simp [hk]
  · have hl : l = [] := by
      have := List.append_eq_nil.mp hq.symm
      exact this.1
    subst hl
    have hq0 : cmd.qualifiers.filter (qualifierMatches name) = [] := by
      have := List.append_eq_nil.mp hq.symm
      simpa using this.2
    have eQ : ∀ j, qualifiersAt name j cmd.qualifiers = cmd.qualifiers :=
      fun j => qualifiersAt_of_no_match name j _ hq0
    simp only [commandAt, eQ, cli_get_value_parameters_at sts name vs k _ hp]
    by_cases hk : k < vs.length
    · simp [hk, cli_get_value_qualifiers_no_match sts name _ hq0]
    · simp [hk, cli_get_value_qualifiers_no_match sts name _ hq0]

/-- Successive calls of `cli_get_value` from value index `k` to the end of
the values and one more. -/
theorem cli_get_values_from (sts : CliStatus) (cmd : dclCommand) (name : String)
    (vs : List String)
    (hname : strcasecmp name "command_line" ≠ 0)
    (hvals : (cmd.parameters.filter (parameterMatches name)).map (fun p => p.values)
      ++ (cmd.qualifiers.filter (qualifierMatches name)).map (fun q => q.values) = [vs])
    (j k : Nat) (hjk : k + j = vs.length) :
    cli_get_values sts name (j + 1) (commandAt name k cmd) =
      ((vs.drop k).map (fun v => (sts.CLI_STS_PRESENT, some v)) ++ [(sts.CLI_STS_ABSENT, none)],
        commandAt name 0 cmd) := by
  induction j generalizing k with
  | zero =>
    have hk : ¬ (k < vs.length) := by omega
    have hd : vs.drop k = [] := List.drop_eq_nil_of_le (by omega)
    simp only [cli_get_values, cli_get_value_at sts cmd name vs k hname hvals, if_neg hk, hd,
      List.map_nil, List.nil_append]
  | succ j ih =>
    have hk : k < vs.length := by omega
    have hd : vs.drop k = vs[k] :: vs.drop (k + 1) := List.drop_eq_getElem_cons hk
    have hg : vs.get? k = some vs[k] := by simp [hk]
    have ih2 := ih (k + 1) (by omega)
    unfold cli_get_values
    simp only [cli_get_value_at sts cmd name vs k hname hvals, if_pos hk, ih2, hd, hg,
      List.map_cons, List.cons_append]

/-- C29, evaluated on the code: the command `show x` has one parameter, named
`command_line`, with the single value `v0` and value index 0; the name
`command_line` matches that parameter only, yet `cli_get_value` returns `1`
with the command line `show x` instead of the value `v0`, and the value
index stays 0. -/
theorem cli_get_value_command_line_name :
    ((testCommand "show x" [testParameter "command_line" none ["v0"]] []).parameters.filter
        (parameterMatches "command_line")).map (fun p => p.values)
      ++ ((testCommand "show x" [testParameter "command_line" none ["v0"]] []).qualifiers.filter
        (qualifierMatches "command_line")).map (fun q => q.values) = [["v0"]] ∧
    cli_get_value testStatus (testCommand "show x" [testParameter "command_line" none ["v0"]] [])
        "command_line"
      = (1, some "show x", testCommand "show x" [testParameter "command_line" none ["v0"]] []) := by
  decide

/-- C29, as the code has it: for a name other than `command_line` (in any
case) that matches exactly one parameter or qualifier of the command, whose
values are `vs` (`n` of them) and whose value index is 0, the first `n` of
`n + 1` successive calls of `cli_get_value` return CLI_STS_PRESENT with the
values in order, the last returns CLI_STS_ABSENT without writing a value, and
the command is then again as at the start, value index 0 included; no number
of calls changes any list of values. -/
theorem cli_get_value_iterates (sts : CliStatus) (cmd : dclCommand) (name : String)
    (vs : List String)
    (hname : strcasecmp name "command_line" ≠ 0)
    (hvals : (cmd.parameters.filter (parameterMatches name)).map (fun p => p.values)
      ++ (cmd.qualifiers.filter (qualifierMatches name)).map (fun q => q.values) = [vs])
    (hidx : (cmd.parameters.filter (parameterMatches name)).map (fun p => p.value_idx)
      ++ (cmd.qualifiers.filter (qualifierMatches name)).map (fun q => q.value_idx) = [0]) :
    cli_get_values sts name (vs.length + 1) cmd =
      (vs.map (fun v => (sts.CLI_STS_PRESENT, some v)) ++ [(sts.CLI_STS_ABSENT, none)], cmd) ∧
    ∀ k, (cli_get_values sts name k cmd).2.parameters.map (fun p => p.values)
        = cmd.parameters.map (fun p => p.values) ∧
      (cli_get_values sts name k cmd).2.qualifiers.map (fun q => q.values)
        = cmd.qualifiers.map (fun q => q.values) := by
  have hP : ∀ p ∈ cmd.parameters, parameterMatches name p = true → p.value_idx = 0 := by
    intro p hp hm
    have h1 : p.value_idx ∈ (cmd.parameters.filter (parameterMatches name)).map
          (fun p => p.value_idx)
        ++ (cmd.qualifiers.filter (qualifierMatches name)).map (fun q => q.value_idx) :=
      List.mem_append_left _ (List.mem_map_of_mem _ (List.mem_filter.mpr ⟨hp, hm⟩))
    rw [hidx] at h1
    simpa using h1
  have hQ : ∀ q ∈ cmd.qualifiers, qualifierMatches name q = true → q.value_idx = 0 := by
    intro q hq hm
    have h1 : q.value_idx ∈ (cmd.parameters.filter (parameterMatches name)).map
          (fun p => p.value_idx)
        ++ (cmd.qualifiers.filter (qualifierMatches name)).map (fun q => q.value_idx) :=
      List.mem_append_right _ (List.mem_map_of_mem _ (List.mem_filter.mpr ⟨hq, hm⟩))
    rw [hidx] at h1
    simpa using h1
  have h0 : commandAt name 0 cmd = cmd := by
    unfold commandAt
    rw [parametersAt_zero name _ hP, qualifiersAt_zero name _ hQ]
  refine ⟨?_, fun k => cli_get_values_values sts name k cmd⟩
  have h := cli_get_values_from sts cmd name vs hname hvals vs.length 0 (by omega)
  rw [h0, List.drop_zero] at h
  exact h

/-- C29 on `open a.dat,b.dat /log=x`: parameter `P1` with label `FILE` and
two values, queried as `file`. -/
theorem cli_get_value_iterates_witness :
    (strcasecmp "file" "command_line" ≠ 0 ∧
      ((testCommand "open a.dat,b.dat /log=x" [testParameter "P1" (some "FILE") ["a.dat", "b.dat"]]
          [testQualifier "LOG" 0 ["x"]]).parameters.filter (parameterMatches "file")).map
          (fun p => p.values)
        ++ ((testCommand "open a.dat,b.dat /log=x"
          [testParameter "P1" (some "FILE") ["a.dat", "b.dat"]]
          [testQualifier "LOG" 0 ["x"]]).qualifiers.filter (qualifierMatches "file")).map
          (fun q => q.values) = [["a.dat", "b.dat"]] ∧
      ((testCommand "open a.dat,b.dat /log=x" [testParameter "P1" (some "FILE") ["a.dat", "b.dat"]]
          [testQualifier "LOG" 0 ["x"]]).parameters.filter (parameterMatches "file")).map
          (fun p => p.value_idx)
        ++ ((testCommand "open a.dat,b.dat /log=x"
          [testParameter "P1" (some "FILE") ["a.dat", "b.dat"]]
          [testQualifier "LOG" 0 ["x"]]).qualifiers.filter (qualifierMatches "file")).map
          (fun q => q.value_idx) = [0]) ∧
    cli_get_values testStatus "file" (["a.dat", "b.dat"].length + 1)
        (testCommand "open a.dat,b.dat /log=x" [testParameter "P1" (some "FILE") ["a.dat", "b.dat"]]
          [testQualifier "LOG" 0 ["x"]])
      = (["a.dat", "b.dat"].map (fun v => (testStatus.CLI_STS_PRESENT, some v))
          ++ [(testStatus.CLI_STS_ABSENT, none)],
        testCommand "open a.dat,b.dat /log=x" [testParameter "P1" (some "FILE") ["a.dat", "b.dat"]]
          [testQualifier "LOG" 0 ["x"]]) :=
  ⟨⟨by decide, by decide, by decide⟩,
    (cli_get_value_iterates testStatus
      (testCommand "open a.dat,b.dat /log=x" [testParameter "P1" (some "FILE") ["a.dat", "b.dat"]]
        [testQualifier "LOG" 0 ["x"]]) "file" ["a.dat", "b.dat"]
      (by decide) (by decide) (by decide)).1⟩

/-- C30, evaluated on the code: the command `open a.dat` has one parameter
with name `P1`, label `FILE` and value `a.dat`. `cli_present` finds it by its
label but not by its name, while `cli_get_value` finds it by its name. -/
theorem cli_present_misses_name_of_labelled_parameter :
    cli_present testStatus (testCommand "open a.dat" [testParameter "P1" (some "FILE") ["a.dat"]] [])
        "P1" = testStatus.CLI_STS_ABSENT ∧
    cli_present testStatus (testCommand "open a.dat" [testParameter "P1" (some "FILE") ["a.dat"]] [])
        "FILE" = testStatus.CLI_STS_PRESENT ∧
    (cli_get_value testStatus
        (testCommand "open a.dat" [testParameter "P1" (some "FILE") ["a.dat"]] []) "P1").1
      = testStatus.CLI_STS_PRESENT ∧
    (cli_get_value testStatus
        (testCommand "open a.dat" [testParameter "P1" (some "FILE") ["a.dat"]] []) "P1").2.1
      = some "a.dat" := by
  decide

/-! ## The result of `cli_present` -/

theorem cli_present_parameters_of_found (sts : CliStatus) (name : String)
    (ps : List dclParameter) (ans : Int) (h : ans ≠ sts.CLI_STS_ABSENT) :
    cli_present_parameters sts name ps ans = ans := by
  cases ps <;> simp [cli_present_parameters, h]

theorem cli_present_qualifiers_of_found (sts : CliStatus) (name : String)
    (qs : List dclQualifier) (ans : Int) (h : ans ≠ sts.CLI_STS_ABSENT) :
    cli_present_qualifiers sts name qs ans = ans := by
  cases qs <;> simp [cli_present_qualifiers, h]

theorem cli_present_parameters_eq (sts : CliStatus)
    (hP : sts.CLI_STS_PRESENT ≠ sts.CLI_STS_ABSENT) (name : String) (ps : List dclParameter) :
    cli_present_parameters sts name ps sts.CLI_STS_ABSENT =
      if ps.any (presentMatches name) = true then sts.CLI_STS_PRESENT
      else sts.CLI_STS_ABSENT := by
  induction ps with
  | nil => simp [cli_present_parameters]
  | cons p ps ih =>
    rw [cli_present_parameters, if_pos rfl]
    by_cases hm : presentMatches name p = true
    · have h0 : strcasecmp name (match p.label with
          | some label => label
          | none => p.name) = 0 := by
        cases hl : p.label <;> simpa [presentMatches, hl] using hm
      simp only []
      rw [if_pos h0, cli_present_parameters_of_found sts name ps _ hP]
      simp [hm]
    · have h0 : ¬ strcasecmp name (match p.label with
          | some label => label
          | none => p.name) = 0 := by
        cases hl : p.label <;> simpa [presentMatches, hl] using hm
      simp only []
      rw [if_neg h0, ih]
      simp [hm]

theorem cli_present_qualifiers_eq (sts : CliStatus)
    (hP : sts.CLI_STS_PRESENT ≠ sts.CLI_STS_ABSENT)
    (hN : sts.CLI_STS_NEGATED ≠ sts.CLI_STS_ABSENT) (name : String) (qs : List dclQualifier) :
    cli_present_qualifiers sts name qs sts.CLI_STS_ABSENT =
      match qs.find? (qualifierMatches name) with
      | some q => if q.negated ≠ 0 then sts.CLI_STS_NEGATED else sts.CLI_STS_PRESENT
      | none => sts.CLI_STS_ABSENT := by
  induction qs with
  | nil => simp [cli_present_qualifiers]
  | cons q qs ih =>
    rw [cli_present_qualifiers, if_pos rfl]
    by_cases hm : qualifierMatches name q = true
    · have h0 : strcasecmp name q.name = 0 := by simpa [qualifierMatches] using hm
      rw [if_pos h0, List.find?_cons_of_pos _ hm]
      by_cases hn : q.negated ≠ 0
      · rw [if_pos hn, cli_present_qualifiers_of_found sts name qs _ hN]
        simp [hn]
      · rw [if_neg hn, cli_present_qualifiers_of_found sts name qs _ hP]
        simp [hn]
    · have h0 : ¬ strcasecmp name q.name = 0 := by simpa [qualifierMatches] using hm
      rw [if_neg h0, List.find?_cons_of_neg _ hm, ih]

/-- The result of `cli_present` by cases, for status codes that differ from
`CLI_STS_ABSENT`: a parameter whose label, or whose name when it has no label,
equals the name gives `CLI_STS_PRESENT`; otherwise the first qualifier whose
name equals the name decides; otherwise the result is `CLI_STS_ABSENT`. -/
theorem cli_present_eq (sts : CliStatus)
    (hP : sts.CLI_STS_PRESENT ≠ sts.CLI_STS_ABSENT)
    (hN : sts.CLI_STS_NEGATED ≠ sts.CLI_STS_ABSENT) (cmd : dclCommand) (name : String) :
    cli_present sts cmd name =
      if cmd.parameters.any (presentMatches name) = true then sts.CLI_STS_PRESENT
      else
        match cmd.qualifiers.find? (qualifierMatches name) with
        | some q => if q.negated ≠ 0 then sts.CLI_STS_NEGATED else sts.CLI_STS_PRESENT
        | none => sts.CLI_STS_ABSENT := by
  rw [cli_present, cli_present_parameters_eq sts hP]
  by_cases h : cmd.parameters.any (presentMatches name) = true
  · rw [if_pos h, if_pos h, cli_present_qualifiers_of_found sts name _ _ hP]
  · rw [if_neg h, if_neg h, cli_present_qualifiers_eq sts hP hN]

/-- C31, evaluated on the code: the command `set tree main /shot=1` has the
parameter with name `P2` and label `TREE` and the qualifier `SHOT`. The name
`p2` equals the name of the parameter, and `cli_get_value` finds the parameter
by it, but `cli_present` compares the label only and returns
`CLI_STS_ABSENT`, not `CLI_STS_PRESENT`. -/
theorem cli_present_absent_for_parameter_name :
    parameterMatches "p2" (testParameter "P2" (some "TREE") ["main"]) = true ∧
    cli_present testStatus
        (testCommand "set tree main /shot=1" [testParameter "P2" (some "TREE") ["main"]]
          [testQualifier "SHOT" 0 ["1"]]) "p2" = testStatus.CLI_STS_ABSENT ∧
    testStatus.CLI_STS_ABSENT ≠ testStatus.CLI_STS_PRESENT ∧
    (cli_get_value testStatus
        (testCommand "set tree main /shot=1" [testParameter "P2" (some "TREE") ["main"]]
          [testQualifier "SHOT" 0 ["1"]]) "p2").1 = testStatus.CLI_STS_PRESENT := by
  decide

/-! ## The name of a command table -/

theorem strstr_occurrence (needle : List Char) :
    ∀ (haystack : List Char) (i : Nat), strstr haystack needle = some i →
      (haystack.drop i).take needle.length = needle := by
  intro haystack
  induction haystack with
  | nil =>
    intro i h
    by_cases hn : needle = []
    · simp [hn]
    · simp [strstr, hn] at h
  | cons c cs ih =>
    intro i h
    rw [strstr] at h
    by_cases h0 : (c :: cs).take needle.length = needle
    · rw [if_pos h0] at h
      have hi : i = 0 := by simpa using h.symm
      subst hi
      simpa using h0
    · rw [if_neg h0] at h
      cases hs : strstr cs needle with
      | none => simp [hs] at h
      | some j =>
        rw [hs] at h
        have hi : i = j + 1 := by simpa using h.symm
        subst hi
        simpa using ih j hs

/-- The table name by cases on the first occurrence of `_commands` in the
name in lower case: when it starts nine characters before the end, the table
name is the name in lower case; in every other case `_commands` is added. -/
theorem mdsdclAddCommands_commands_eq (name_in : String) :
    mdsdclAddCommands_commands name_in =
      if strstr (name_in.data.map Char.toLower) "_commands".data
          = some (name_in.length - 9) ∧ 9 ≤ name_in.length then
        String.mk (name_in.data.map Char.toLower)
      else String.mk (name_in.data.map Char.toLower ++ "_commands".data) := by
  unfold mdsdclAddCommands_commands
  show String.mk ((match strstr (name_in.data.map Char.toLower) "_commands".data with
    | some commands_part =>
      if (name_in.length : Int) - ("_commands".length : Int) = (commands_part : Int) then
        (name_in.data.map Char.toLower).take commands_part
      else name_in.data.map Char.toLower
    | none => name_in.data.map Char.toLower) ++ "_commands".data) = _
  cases hs : strstr (name_in.data.map Char.toLower) "_commands".data with
  | none => simp
  | some i =>
    have hocc := strstr_occurrence _ _ i hs
    have hlen : ("_commands".data).length = 9 := by decide
    have hl : "_commands".length = 9 := by decide
    have hnl : name_in.length = name_in.data.length := rfl
    by_cases hi : ((name_in.length : Int) - ("_commands".length : Int) = (i : Int))
    · have h9 : i + 9 = name_in.length := by rw [hl] at hi; omega
      have hcond : (some i = some (name_in.length - 9) ∧ 9 ≤ name_in.length) := by
        constructor
        · congr 1; omega
        · omega
      simp only [hi, if_true]
      rw [if_pos hcond]
      congr 1
      have hd : ((name_in.data.map Char.toLower).drop i).length = 9 := by
        simp [List.length_drop]; omega
      rw [hlen, List.take_of_length_le (by omega)] at hocc
      conv_rhs => rw [← List.take_append_drop i (name_in.data.map Char.toLower)]
      rw [hocc]
    · have hcond : ¬ (some i = some (name_in.length - 9) ∧ 9 ≤ name_in.length) := by
        rintro ⟨h1, h2⟩
        apply hi
        have : i = name_in.length - 9 := by simpa using h1
        rw [hl]; omega
      simp only [hi, if_false]
      rw [if_neg hcond]

/-- A name whose lower case does not end with `_commands` gets the suffix. -/
theorem mdsdclAddCommands_commands_of_no_suffix (name_in : String)
    (h : ¬ "_commands".data <:+ name_in.data.map Char.toLower) :
    mdsdclAddCommands_commands name_in =
      String.mk (name_in.data.map Char.toLower ++ "_commands".data) := by
  rw [mdsdclAddCommands_commands_eq]
  rw [if_neg]
  rintro ⟨hs, h9⟩
  apply h
  have hocc := strstr_occurrence _ _ _ hs
  have hlen : ("_commands".data).length = 9 := by decide
  have hnl : name_in.length = name_in.data.length := rfl
  rw [hlen, List.take_of_length_le (by simp [List.length_drop]; omega)] at hocc
  exact ⟨(name_in.data.map Char.toLower).take (name_in.length - 9), by
    rw [← hocc, List.take_append_drop]⟩

/-- The names `tcl`, `TCL` and `tcl_commands` give the table `tcl_commands`. -/
theorem mdsdclAddCommands_commands_tcl :
    mdsdclAddCommands_commands "tcl" = "tcl_commands" ∧
    mdsdclAddCommands_commands "TCL" = "tcl_commands" ∧
    mdsdclAddCommands_commands "tcl_commands" = "tcl_commands" := by
  decide

/-- C32, evaluated on the code: the name `Site_Commands_commands` in lower
case ends with `_commands`, but `strstr` finds the occurrence at index 4, which
is not the end, so the suffix is added again. -/
theorem mdsdclAddCommands_commands_doubles_suffix :
    "_commands".data <:+ "Site_Commands_commands".data.map Char.toLower ∧
    strstr ("Site_Commands_commands".data.map Char.toLower) "_commands".data = some 4 ∧
    mdsdclAddCommands_commands "Site_Commands_commands" = "site_commands_commands_commands" ∧
    mdsdclAddCommands_commands "Site_Commands_commands"
      ≠ String.mk ("Site_Commands_commands".data.map Char.toLower) := by
  refine ⟨⟨"site_commands".data, by decide⟩, by decide, by decide, by decide⟩

/-! ## Loading a table twice -/

theorem findLoaded_some (commands : String) :
    ∀ (docs pre post : List dclDocList) (doc_l : dclDocList),
      findLoaded commands docs = some (pre, doc_l, post) →
      docs = pre ++ doc_l :: post ∧ doc_l.name = commands ∧ ∀ x ∈ pre, x.name ≠ commands := by
  intro docs
  induction docs with
  | nil => intro pre post doc_l h; simp [findLoaded] at h
  | cons d ds ih =>
    intro pre post doc_l h
    rw [findLoaded] at h
    by_cases hd : d.name = commands
    · rw [if_pos hd] at h
      simp only [Option.some.injEq, Prod.mk.injEq] at h
      obtain ⟨h1, h2, h3⟩ := h
      subst h1; subst h2; subst h3
      exact ⟨rfl, hd, by simp⟩
    · rw [if_neg hd] at h
      cases hr : findLoaded commands ds with
      | none => simp [hr] at h
      | some r =>
        obtain ⟨b, x, a⟩ := r
        rw [hr] at h
        simp only [Option.map_some', Option.some.injEq, Prod.mk.injEq] at h
        obtain ⟨h1, h2, h3⟩ := h
        subst h1; subst h2; subst h3
        obtain ⟨e1, e2, e3⟩ := ih b a x hr
        refine ⟨by rw [e1]; rfl, e2, ?_⟩
        intro y hy
        rcases List.mem_cons.mp hy with hy | hy
        · rw [hy]; exact hd
        · exact e3 y hy

theorem findLoaded_isSome (commands : String) (docs : List dclDocList)
    (h : ∃ d ∈ docs, d.name = commands) : ∃ r, findLoaded commands docs = some r := by
  induction docs with
  | nil => obtain ⟨d, hd, _⟩ := h; simp at hd
  | cons d ds ih =>
    rw [findLoaded]
    by_cases hd : d.name = commands
    · rw [if_pos hd]; exact ⟨_, rfl⟩
    · rw [if_neg hd]
      obtain ⟨x, hx, hxn⟩ := h
      rcases List.mem_cons.mp hx with hx | hx
      · rw [hx] at hxn; exact absurd hxn hd
      · obtain ⟨r, hr⟩ := ih ⟨x, hx, hxn⟩
        rw [hr]; exact ⟨_, rfl⟩

/-- C33: when a table with the name built by `mdsdclAddCommands` is loaded,
the call returns 0, nothing is parsed, and the loaded tables are the first
table of that name followed by all the other tables in their order: the same
tables, as many as before. -/
theorem mdsdclAddCommands_reload (getenv : String → Option String)
    (xmlParseFile : String → Option xmlDoc) (dclDocs : List dclDocList) (name_in : String)
    (h : ∃ d ∈ dclDocs, d.name = mdsdclAddCommands_commands name_in) :
    ∃ (pre post : List dclDocList) (doc_l : dclDocList),
      dclDocs = pre ++ doc_l :: post ∧
      doc_l.name = mdsdclAddCommands_commands name_in ∧
      (∀ x ∈ pre, x.name ≠ mdsdclAddCommands_commands name_in) ∧
      (mdsdclAddCommands getenv xmlParseFile dclDocs name_in).status = 0 ∧
      (mdsdclAddCommands getenv xmlParseFile dclDocs name_in).dclDocs
        = doc_l :: (pre ++ post) ∧
      (mdsdclAddCommands getenv xmlParseFile dclDocs name_in).dclDocs.head? = some doc_l ∧
      (mdsdclAddCommands getenv xmlParseFile dclDocs name_in).dclDocs.tail = pre ++ post ∧
      List.Perm (mdsdclAddCommands getenv xmlParseFile dclDocs name_in).dclDocs dclDocs ∧
      (mdsdclAddCommands getenv xmlParseFile dclDocs name_in).dclDocs.length
        = dclDocs.length := by
  obtain ⟨r, hr⟩ := findLoaded_isSome _ _ h
  obtain ⟨pre, doc_l, post⟩ := r
  obtain ⟨e1, e2, e3⟩ := findLoaded_some _ _ _ _ _ hr
  have hperm : List.Perm (doc_l :: (pre ++ post)) dclDocs := by
    rw [e1]
    exact (List.perm_middle).symm
  refine ⟨pre, post, doc_l, e1, e2, e3, ?_, ?_, ?_, ?_, ?_, ?_⟩ <;>
    simp only [mdsdclAddCommands, hr]
  · rfl
  · rfl
  · exact hperm
  · exact hperm.length_eq

/-! ## Looking up a verb: `findEntity` and `cmdExecute` -/

theorem lower_take_length (name : String) :
    (name.data.map Char.toLower).take name.length = name.data.map Char.toLower := by
  apply List.take_of_length_le
  have h : name.length = name.data.length := rfl
  rw [h, List.length_map]

theorem entityMatches_eq (category name : String) (nodeName : Option String)
    (properties : Option xmlAttr) (next children : xmlNode) :
    entityMatches category name nodeName properties
      = nodeMatches category name (xmlNode.node nodeName properties next children) := by
  simp only [entityMatches, nodeMatches]
  generalize propertyContent properties = pc
  cases nodeName with
  | none => rfl
  | some nm =>
    cases pc with
    | none => rfl
    | some content =>
      simp only [strncasecmp, lower_take_length]
      by_cases h : List.map Char.toLower name.data
          = List.take name.length (List.map Char.toLower content.data)
      · simp [h]
      · simp [h]

theorem entityExact_eq (category name : String) (nodeName : Option String)
    (properties : Option xmlAttr) (next children : xmlNode) :
    (entityMatches category name nodeName properties = true ∧
        entityExact name properties = true)
      ↔ nodeEquals category name (xmlNode.node nodeName properties next children) = true := by
  simp only [entityMatches, entityExact, nodeEquals]
  generalize propertyContent properties = pc
  cases nodeName with
  | none => simp
  | some nm =>
    cases pc with
    | none => simp
    | some content =>
      simp only [strncasecmp, strcasecmp, lower_take_length, Bool.and_eq_true,
        decide_eq_true_eq]
      constructor
      · rintro ⟨⟨hcat, h1⟩, h2⟩
        refine ⟨hcat, ?_⟩
        have h3 : (List.map Char.toLower name.data
            = List.take name.length (List.map Char.toLower content.data)) := by
          by_contra hne
          rw [if_neg hne] at h1
          exact absurd h1 (by decide)
        rw [h2, lower_take_length] at h3
        rw [if_pos h3]
      · rintro ⟨hcat, h⟩
        have h3 : List.map Char.toLower name.data = List.map Char.toLower content.data := by
          by_contra hne
          rw [if_neg hne] at h
          exact absurd h (by decide)
        have hlen : name.length = content.length := by
          have h4 := congrArg List.length h3
          rw [List.length_map, List.length_map] at h4
          exact h4
        refine ⟨⟨hcat, ?_⟩, hlen⟩
        rw [hlen, lower_take_length, if_pos h3]

theorem findEntity_of_found (category name : String) (node : xmlNode) (l : List xmlNode)
    (e : Int) (he : e ≠ 0) : findEntity category name node (l, e) = (l, e) := by
  cases node <;> simp [findEntity, he]

theorem findEntity_acc (category name : String) :
    ∀ (node : xmlNode) (l : List xmlNode),
      findEntity category name node (l, 0) =
        match (visitOrder node).find? (nodeEquals category name) with
        | some n => ([n], 1)
        | none => (l ++ (visitOrder node).filter (nodeMatches category name), 0) := by
  intro node
  induction node with
  | null => intro l; simp [findEntity, visitOrder]
  | node nodeName properties next children ihn ihc =>
    intro l
    rw [findEntity, if_neg (by simp), visitOrder]
    by_cases hx : nodeEquals category name (xmlNode.node nodeName properties next children) = true
    · rw [if_pos ((entityExact_eq category name nodeName properties next children).mpr hx),
        List.find?_cons_of_pos _ hx]
    · rw [if_neg (fun h => hx ((entityExact_eq category name nodeName properties next children).mp h)),
        List.find?_cons_of_neg _ hx, entityMatches_eq category name nodeName properties next children,
        List.find?_append]
      have key : ∀ l1 : List xmlNode,
          findEntity category name children (findEntity category name next (l1, 0)) =
            match ((visitOrder next).find? (nodeEquals category name)).or
                ((visitOrder children).find? (nodeEquals category name)) with
            | some n => ([n], 1)
            | none => (l1 ++ ((visitOrder next).filter (nodeMatches category name)
                ++ (visitOrder children).filter (nodeMatches category name)), 0) := by
        intro l1
        rw [ihn l1]
        cases hn : (visitOrder next).find? (nodeEquals category name) with
        | some n =>
          simp only [Option.or_some]
          exact findEntity_of_found category name children [n] 1 (by decide)
        | none =>
          simp only [Option.none_or]
          rw [ihc]
          cases hcx : (visitOrder children).find? (nodeEquals category name) with
          | some n => rfl
          | none => simp
      by_cases hm : nodeMatches category name (xmlNode.node nodeName properties next children) = true
      · rw [if_pos hm]
        simp only []
        rw [key, List.filter_cons_of_pos hm, List.filter_append]
        cases ((visitOrder next).find? (nodeEquals category name)).or
            ((visitOrder children).find? (nodeEquals category name)) with
        | some n => rfl
        | none => simp
      · rw [if_neg hm, key, List.filter_cons_of_neg hm, List.filter_append]

theorem cmdExecute_tables_no_single_match (sts : CliStatus) (cli_status : Int)
    (processCommand : dclDocList → xmlNode → Int) (verb : String) :
    ∀ (docs : List dclDocList),
      (∀ doc_l ∈ docs,
        (visitOrder doc_l.doc.children).find? (nodeEquals "verb" verb) = none ∧
        ((visitOrder doc_l.doc.children).filter (nodeMatches "verb" verb)).length ≠ 1) →
      cmdExecute_tables sts cli_status processCommand verb docs sts.CLI_STS_IVVERB
        = sts.CLI_STS_IVVERB := by
  intro docs
  induction docs with
  | nil => intro _; rfl
  | cons d ds ih =>
    intro h
    obtain ⟨h1, h2⟩ := h d (List.mem_cons_self _ _)
    have hrest := ih (fun x hx => h x (List.mem_cons_of_mem _ hx))
    rw [cmdExecute_tables]
    split_ifs with hc
    · simp only [findEntity_acc, h1, List.nil_append]
      rw [if_pos (by omega)]
      exact hrest
    · rfl

/-- C34: started on an empty list with `exactFound` at 0, `findEntity` leaves
the first visited node of the category whose first property equals the name
without regard to case, alone and with `exactFound` set, when there is one;
otherwise it leaves, in the order of the visit, every node of the category
whose first property begins with the name, and `exactFound` stays 0. And
`cmdExecute` returns `CLI_STS_IVVERB` when in every loaded table the verb has
no equal node and not exactly one node that begins with it. -/
theorem findEntity_matching (category name : String) (node : xmlNode) :
    findEntity category name node ([], 0) =
      (match (visitOrder node).find? (nodeEquals category name) with
        | some n => ([n], 1)
        | none => ((visitOrder node).filter (nodeMatches category name), 0)) ∧
    ∀ (sts : CliStatus) (cli_status : Int) (getenv : String → Option String)
      (xmlParseFile : String → Option xmlDoc) (processCommand : dclDocList → xmlNode → Int)
      (dclDocs : List dclDocList),
      (∀ doc_l ∈ (cmdExecute sts cli_status getenv xmlParseFile processCommand dclDocs name).2,
        (visitOrder doc_l.doc.children).find? (nodeEquals "verb" name) = none ∧
        ((visitOrder doc_l.doc.children).filter (nodeMatches "verb" name)).length ≠ 1) →
      (cmdExecute sts cli_status getenv xmlParseFile processCommand dclDocs name).1
        = sts.CLI_STS_IVVERB := by
  constructor
  · rw [findEntity_acc]
    cases (visitOrder node).find? (nodeEquals category name) with
    | some n => rfl
    | none => simp
  · intro sts cli_status getenv xmlParseFile processCommand dclDocs h
    exact cmdExecute_tables_no_single_match sts cli_status processCommand name _ h

/-- C34 on a table with the verbs `show`, `shot` and `set`: the verb `sh`
begins `show` and `shot` and equals none, so `findEntity` leaves these two
nodes and `cmdExecute` returns `CLI_STS_IVVERB`; the verb `SET` equals the
third. -/
theorem findEntity_matching_witness :
    (∀ doc_l ∈ (cmdExecute testStatus 0 (fun _ => none) (fun _ => none) (fun _ _ => 1)
        [testTable "tcl_commands" (testVerb "show" (testVerb "shot" (testVerb "set" xmlNode.null)))]
        "sh").2,
      (visitOrder doc_l.doc.children).find? (nodeEquals "verb" "sh") = none ∧
      ((visitOrder doc_l.doc.children).filter (nodeMatches "verb" "sh")).length ≠ 1) ∧
    (cmdExecute testStatus 0 (fun _ => none) (fun _ => none) (fun _ _ => 1)
        [testTable "tcl_commands" (testVerb "show" (testVerb "shot" (testVerb "set" xmlNode.null)))]
        "sh").1 = testStatus.CLI_STS_IVVERB ∧
    findEntity "verb" "sh"
        (testTable "tcl_commands"
          (testVerb "show" (testVerb "shot" (testVerb "set" xmlNode.null)))).doc.children ([], 0)
      = ([testVerb "show" (testVerb "shot" (testVerb "set" xmlNode.null)),
          testVerb "shot" (testVerb "set" xmlNode.null)], 0) ∧
    findEntity "verb" "SET"
        (testTable "tcl_commands"
          (testVerb "show" (testVerb "shot" (testVerb "set" xmlNode.null)))).doc.children ([], 0)
      = ([testVerb "set" xmlNode.null], 1) :=
  ⟨by decide,
    (findEntity_matching "verb" "sh"
      (testTable "tcl_commands"
        (testVerb "show" (testVerb "shot" (testVerb "set" xmlNode.null)))).doc.children).2 testStatus 0 (fun _ => none) (fun _ => none)
      (fun _ _ => 1)
      [testTable "tcl_commands" (testVerb "show" (testVerb "shot" (testVerb "set" xmlNode.null)))]
      (by decide),
    by decide, by decide⟩

/-- C33 with the tables `mdsdcl_commands`, `tcl_commands` and `cts_commands`
loaded, in this order from the top, and the name `TCL`. -/
theorem mdsdclAddCommands_reload_witness :
    (∃ d ∈ [testTable "mdsdcl_commands" xmlNode.null, testTable "tcl_commands" xmlNode.null,
        testTable "cts_commands" xmlNode.null], d.name = mdsdclAddCommands_commands "TCL") ∧
    (mdsdclAddCommands (fun _ => none) (fun _ => none)
        [testTable "mdsdcl_commands" xmlNode.null, testTable "tcl_commands" xmlNode.null,
          testTable "cts_commands" xmlNode.null] "TCL").dclDocs
      = [testTable "tcl_commands" xmlNode.null, testTable "mdsdcl_commands" xmlNode.null,
          testTable "cts_commands" xmlNode.null] ∧
    ∃ (pre post : List dclDocList) (doc_l : dclDocList),
      [testTable "mdsdcl_commands" xmlNode.null, testTable "tcl_commands" xmlNode.null,
        testTable "cts_commands" xmlNode.null] = pre ++ doc_l :: post ∧
      doc_l.name = mdsdclAddCommands_commands "TCL" ∧
      (∀ x ∈ pre, x.name ≠ mdsdclAddCommands_commands "TCL") ∧
      (mdsdclAddCommands (fun _ => none) (fun _ => none)
        [testTable "mdsdcl_commands" xmlNode.null, testTable "tcl_commands" xmlNode.null,
          testTable "cts_commands" xmlNode.null] "TCL").status = 0 ∧
      (mdsdclAddCommands (fun _ => none) (fun _ => none)
        [testTable "mdsdcl_commands" xmlNode.null, testTable "tcl_commands" xmlNode.null,
          testTable "cts_commands" xmlNode.null] "TCL").dclDocs = doc_l :: (pre ++ post) ∧
      (mdsdclAddCommands (fun _ => none) (fun _ => none)
        [testTable "mdsdcl_commands" xmlNode.null, testTable "tcl_commands" xmlNode.null,
          testTable "cts_commands" xmlNode.null] "TCL").dclDocs.head? = some doc_l ∧
      (mdsdclAddCommands (fun _ => none) (fun _ => none)
        [testTable "mdsdcl_commands" xmlNode.null, testTable "tcl_commands" xmlNode.null,
          testTable "cts_commands" xmlNode.null] "TCL").dclDocs.tail = pre ++ post ∧
      List.Perm (mdsdclAddCommands (fun _ => none) (fun _ => none)
        [testTable "mdsdcl_commands" xmlNode.null, testTable "tcl_commands" xmlNode.null,
          testTable "cts_commands" xmlNode.null] "TCL").dclDocs
        [testTable "mdsdcl_commands" xmlNode.null, testTable "tcl_commands" xmlNode.null,
          testTable "cts_commands" xmlNode.null] ∧
      (mdsdclAddCommands (fun _ => none) (fun _ => none)
        [testTable "mdsdcl_commands" xmlNode.null, testTable "tcl_commands" xmlNode.null,
          testTable "cts_commands" xmlNode.null] "TCL").dclDocs.length
        = [testTable "mdsdcl_commands" xmlNode.null, testTable "tcl_commands" xmlNode.null,
          testTable "cts_commands" xmlNode.null].length :=
  ⟨⟨testTable "tcl_commands" xmlNode.null, by decide, by decide⟩, by decide,
    mdsdclAddCommands_reload (fun _ => none) (fun _ => none)
      [testTable "mdsdcl_commands" xmlNode.null, testTable "tcl_commands" xmlNode.null,
        testTable "cts_commands" xmlNode.null] "TCL"
      ⟨testTable "tcl_commands" xmlNode.null, by decide, by decide⟩⟩

/-! ## The checks of `dispatchToHandler` -/

theorem strncasecmp_eq_zero_iff (a b : String) (n : Nat) :
    strncasecmp a b n = 0 ↔
      (a.data.map Char.toLower).take n = (b.data.map Char.toLower).take n := by
  unfold strncasecmp
  split_ifs with h
  · simp [h]
  · simp [h]

/-- For a text of more than two characters the test of the renaming loop and
the test of the validity check agree on every defined qualifier. -/
theorem qualifierRenames_eq_qualifierValid (user : String) (qdef : dclQualifier)
    (h : user.length > 2) : qualifierRenames user qdef = qualifierValid user qdef := by
  have hn : user.length = (user.data.map Char.toLower).length := by
    rw [List.length_map]; rfl
  have hno : "no".data.map Char.toLower = ['n', 'o'] := by decide
  have hdrop : (String.mk (user.data.drop 2)).data.map Char.toLower
      = (user.data.map Char.toLower).drop 2 := by
    rw [List.map_drop]
  have happ : ("no" ++ qdef.name).data.map Char.toLower
      = 'n' :: 'o' :: qdef.name.data.map Char.toLower := by
    rw [String.data_append, List.map_append, hno]; rfl
  unfold qualifierRenames qualifierValid
  congr 1
  rw [Bool.eq_iff_iff]
  simp only [Bool.and_eq_true, decide_eq_true_eq, strncasecmp_eq_zero_iff, hno, hdrop, happ,
    lower_take_length]
  generalize hlu : user.data.map Char.toLower = lu at hn
  generalize qdef.name.data.map Char.toLower = ld
  rw [hn] at h
  rw [hn]
  match lu, h with
  | a :: b :: c :: rest, _ =>
    simp only [List.length_cons, List.take_succ_cons, List.drop_succ_cons, List.drop_zero,
      List.take_zero, Nat.add_sub_cancel, List.cons.injEq, and_true]
    have e : rest.length + 1 + 1 + 1 - 2 = rest.length + 1 := by omega
    rw [e]
    have e2 : List.take (rest.length + 1) (c :: rest) = c :: rest := by
      apply List.take_of_length_le; simp
    rw [e2]
    constructor
    · rintro ⟨h1, h2, h3⟩
      exact ⟨⟨⟨h1, h2⟩, by omega⟩, h3⟩
    · rintro ⟨⟨⟨h1, h2⟩, _⟩, h3⟩
      exact ⟨h1, h2, h3⟩

theorem renameParameters_passed (pdefs : List dclParameter) :
    ∀ (ps : List dclParameter) (i : Nat), i + ps.length ≤ pdefs.length →
      ∃ r, renameParameters pdefs ps i = Checked.passed r := by
  intro ps
  induction ps with
  | nil => intro i _; exact ⟨[], rfl⟩
  | cons p ps ih =>
    intro i h
    simp only [List.length_cons] at h
    obtain ⟨r, hr⟩ := ih (i + 1) (by omega)
    have hi : i < pdefs.length := by omega
    rw [renameParameters, List.get?_eq_get hi]
    simp only [hr, Checked.andThen]
    exact ⟨_, rfl⟩

theorem checkParameters_length (sts : CliStatus) :
    ∀ (pdefs : List dclParameter) (i : Nat) (ps r : List dclParameter),
      ps.length ≤ i + pdefs.length → checkParameters sts pdefs i ps = Checked.passed r →
      r.length ≤ i + pdefs.length := by
  intro pdefs
  induction pdefs with
  | nil =>
    intro i ps r h hr
    rw [checkParameters] at hr
    injection hr with hr
    subst hr
    exact h
  | cons pdef pdefs ih =>
    intro i ps r h hr
    rw [checkParameters] at hr
    simp only [List.length_cons] at h
    by_cases h1 : pdef.listOk = 0 ∧ i < ps.length ∧
        (match ps.get? i with
          | some p => decide (p.values.length > 1)
          | none => false) = true
    · rw [if_pos h1] at hr
      exact Checked.noConfusion hr
    · rw [if_neg h1] at hr
      simp only [] at hr
      by_cases h2 : pdef.values.length > 0 ∧ i + 1 > ps.length
      · rw [if_pos h2] at hr
        by_cases h3 : pdef.required ≠ 0 ∧ (ps ++ [defaultParameter pdef]).length < i + 1
        · rw [if_pos h3] at hr
          exact Checked.noConfusion hr
        · rw [if_neg h3] at hr
          have h4 := ih (i + 1) _ r
            (by simp only [List.length_append, List.length_singleton]; omega) hr
          simp only [List.length_cons]; omega
      · rw [if_neg h2] at hr
        by_cases h3 : pdef.required ≠ 0 ∧ ps.length < i + 1
        · rw [if_pos h3] at hr
          exact Checked.noConfusion hr
        · rw [if_neg h3] at hr
          have h4 := ih (i + 1) _ r (by omega) hr
          simp only [List.length_cons]; omega

theorem checkParameters_ne_passedNull (sts : CliStatus) (r : List dclParameter) :
    ∀ (pdefs : List dclParameter) (i : Nat) (ps : List dclParameter),
      checkParameters sts pdefs i ps ≠ Checked.passedNull r := by
  intro pdefs
  induction pdefs with
  | nil => intro i ps; simp [checkParameters]
  | cons pdef pdefs ih =>
    intro i ps
    rw [checkParameters]
    by_cases h1 : pdef.listOk = 0 ∧ i < ps.length ∧
        (match ps.get? i with
          | some p => decide (p.values.length > 1)
          | none => false) = true
    · rw [if_pos h1]; simp
    · rw [if_neg h1]
      simp only []
      by_cases h2 : pdef.values.length > 0 ∧ i + 1 > ps.length
      · rw [if_pos h2]
        by_cases h3 : pdef.required ≠ 0 ∧ (ps ++ [defaultParameter pdef]).length < i + 1
        · rw [if_pos h3]; simp
        · rw [if_neg h3]; exact ih _ _
      · rw [if_neg h2]
        by_cases h3 : pdef.required ≠ 0 ∧ ps.length < i + 1
        · rw [if_pos h3]; simp
        · rw [if_neg h3]; exact ih _ _

/-- The reads of `cmdDef->parameters[i]` in the renaming of the parameters
are below the count: when the user has no more parameters than the definition,
the parameters that pass the loop over the defined parameters are renamed
without fault. -/
theorem renameParameters_in_range (sts : CliStatus) (pdefs ps ps1 : List dclParameter)
    (h : ps.length ≤ pdefs.length) (hc : checkParameters sts pdefs 0 ps = Checked.passed ps1) :
    ∃ ps2, renameParameters pdefs ps1 0 = Checked.passed ps2 := by
  have hl := checkParameters_length sts pdefs 0 ps ps1 (by omega) hc
  exact renameParameters_passed pdefs ps1 0 (by omega)

theorem Checked.andThen_fault {α β : Type} (x : Checked α) (f : α → Checked β) (e : Fault)
    (h : x.andThen f = Checked.fault e) :
    x = Checked.fault e ∨
      ∃ a, (x = Checked.passed a ∨ x = Checked.passedNull a) ∧ f a = Checked.fault e := by
  cases x with
  | fault e1 =>
    left
    simpa [Checked.andThen] using h
  | returned status prompt error => simp [Checked.andThen] at h
  | passed a => exact Or.inr ⟨a, Or.inl rfl, h⟩
  | passedNull a =>
    refine Or.inr ⟨a, Or.inr rfl, ?_⟩
    simp only [Checked.andThen] at h
    cases hf : f a with
    | fault e1 => rw [hf] at h; simpa using h
    | returned status prompt error => rw [hf] at h; simp at h
    | passed b => rw [hf] at h; simp at h
    | passedNull b => rw [hf] at h; simp at h

theorem restOfLineParameters_ne_index (i : Nat) (ps : List dclParameter) :
    restOfLineParameters i ps ≠ Checked.fault Fault.index := by
  unfold restOfLineParameters
  by_cases h : ps.length > i
  · rw [if_pos h, List.get?_eq_get h]
    simp only []
    cases hv : (ps.get ⟨i, h⟩).values with
    | nil => simp
    | cons v vs =>
      cases hr : (ps.get ⟨i, h⟩).restOfLine with
      | none => simp
      | some rol => simp
  · rw [if_neg h]
    simp

theorem restOfLine_ne_index (cmd cmdDef : dclCommand) :
    restOfLine cmd cmdDef ≠ Checked.fault Fault.index := by
  unfold restOfLine
  cases useRestOfLineIndex cmdDef.parameters 0 with
  | none => simp
  | some i =>
    simp only []
    intro h
    rcases Checked.andThen_fault _ _ _ h with h1 | ⟨a, -, h2⟩
    · exact restOfLineParameters_ne_index i cmd.parameters h1
    · simp at h2

theorem checkQualifiers_ne_index (sts : CliStatus) (qdefs : List dclQualifier) :
    ∀ slots : List (Option dclQualifier),
      checkQualifiers sts qdefs slots ≠ Checked.fault Fault.index := by
  intro slots
  induction slots with
  | nil => simp [checkQualifiers]
  | cons s slots ih =>
    cases s with
    | none => simp [checkQualifiers]
    | some q =>
      rw [checkQualifiers]
      cases validQualifierIndex q.name qdefs with
      | none => simp
      | some j =>
        simp only []
        intro h
        rcases Checked.andThen_fault _ _ _ h with h1 | ⟨a, -, h2⟩
        · exact ih h1
        · simp at h2

theorem checkParameters_ne_fault (sts : CliStatus) (f : Fault) :
    ∀ (pdefs : List dclParameter) (i : Nat) (ps : List dclParameter),
      checkParameters sts pdefs i ps ≠ Checked.fault f := by
  intro pdefs
  induction pdefs with
  | nil => intro i ps; simp [checkParameters]
  | cons pdef pdefs ih =>
    intro i ps
    rw [checkParameters]
    by_cases h1 : pdef.listOk = 0 ∧ i < ps.length ∧
        (match ps.get? i with
          | some p => decide (p.values.length > 1)
          | none => false) = true
    · rw [if_pos h1]; simp
    · rw [if_neg h1]
      simp only []
      by_cases h2 : pdef.values.length > 0 ∧ i + 1 > ps.length
      · rw [if_pos h2]
        by_cases h3 : pdef.required ≠ 0 ∧ (ps ++ [defaultParameter pdef]).length < i + 1
        · rw [if_pos h3]; simp
        · rw [if_neg h3]; exact ih _ _
      · rw [if_neg h2]
        by_cases h3 : pdef.required ≠ 0 ∧ ps.length < i + 1
        · rw [if_pos h3]; simp
        · rw [if_neg h3]; exact ih _ _

theorem checkDefinedQualifiers_ne_fault (sts : CliStatus) (f : Fault) :
    ∀ (qdefs qs : List dclQualifier), checkDefinedQualifiers sts qdefs qs ≠ Checked.fault f := by
  intro qdefs
  induction qdefs with
  | nil => intro qs; simp [checkDefinedQualifiers]
  | cons qdef qdefs ih =>
    intro qs
    rw [checkDefinedQualifiers]
    split_ifs
    · simp
    · exact ih _
    · exact ih _

theorem renameQualifier_fault_index (sts : CliStatus) (cmdDef_qualifiers : List dclQualifier)
    (i : Nat) (q : dclQualifier) :
    ∀ qdefs : List dclQualifier,
      renameQualifier sts cmdDef_qualifiers i q qdefs = Checked.fault Fault.index →
      cmdDef_qualifiers.length ≤ i ∧ q.values.length > 1 := by
  intro qdefs
  induction qdefs with
  | nil => intro h; simp [renameQualifier] at h
  | cons qdef qdefs ih =>
    intro h
    rw [renameQualifier] at h
    by_cases h1 : qualifierRenames q.name qdef = true
    · rw [if_pos h1] at h
      by_cases h2 : q.values.length > 1 ∧ qdef.listOk = 0
      · rw [if_pos h2] at h
        cases hg : cmdDef_qualifiers.get? i with
        | none => exact ⟨List.get?_eq_none.mp hg, h2.1⟩
        | some qdef_i => rw [hg] at h; simp at h
      · rw [if_neg h2] at h
        split_ifs at h
    · rw [if_neg h1] at h
      exact ih h

theorem renameQualifiers_fault_index (sts : CliStatus) (cmdDef_qualifiers : List dclQualifier) :
    ∀ (qs : List dclQualifier) (i : Nat),
      renameQualifiers sts cmdDef_qualifiers qs i = Checked.fault Fault.index →
      ∃ (k : Nat) (q : dclQualifier),
        qs.get? k = some q ∧ cmdDef_qualifiers.length ≤ i + k ∧ q.values.length > 1 := by
  intro qs
  induction qs with
  | nil => intro i h; simp [renameQualifiers] at h
  | cons q qs ih =>
    intro i h
    rw [renameQualifiers] at h
    rcases Checked.andThen_fault _ _ _ h with h1 | ⟨q1, -, h2⟩
    · obtain ⟨a, b⟩ := renameQualifier_fault_index sts cmdDef_qualifiers i q _ h1
      exact ⟨0, q, rfl, by omega, b⟩
    · rcases Checked.andThen_fault _ _ _ h2 with h3 | ⟨qs1, -, h4⟩
      · obtain ⟨k, q2, a, b, c⟩ := ih (i + 1) h3
        exact ⟨k + 1, q2, a, by omega, c⟩
      · simp at h4

theorem Checked.andThen_passed {α β : Type} (x : Checked α) (f : α → Checked β) (a : α)
    (h : x = Checked.passed a) : x.andThen f = f a := by
  rw [h]
  rfl

/-- The only read of `dispatchToHandler` past a count is the one of the
message for a list of values: when the checks end with a read past a count,
the renaming of the qualifiers met a user's qualifier with more than one value
whose index is not below the count of the defined qualifiers. -/
theorem dispatchToHandler_checks_fault_index (sts : CliStatus) (cmd cmdDef : dclCommand)
    (h : dispatchToHandler_checks sts cmd cmdDef = Checked.fault Fault.index) :
    ∃ (qs : List dclQualifier) (k : Nat) (q : dclQualifier),
      renameQualifiers sts cmdDef.qualifiers qs 0 = Checked.fault Fault.index ∧
      qs.get? k = some q ∧ cmdDef.qualifiers.length ≤ k ∧ q.values.length > 1 := by
  unfold dispatchToHandler_checks at h
  rcases Checked.andThen_fault _ _ _ h with hA | ⟨st, -, hA⟩
  · exact absurd hA (restOfLine_ne_index cmd cmdDef)
  rcases Checked.andThen_fault _ _ _ hA with hB | ⟨qs0, -, hB⟩
  · exact absurd hB (checkQualifiers_ne_index sts _ _)
  by_cases hC : st.1.length > cmdDef.parameters.length
  · rw [if_pos hC] at hB
    simp at hB
  rw [if_neg hC] at hB
  rcases Checked.andThen_fault _ _ _ hB with hD | ⟨ps1, hD1, hD⟩
  · exact absurd hD (checkParameters_ne_fault sts _ _ _ _)
  rcases Checked.andThen_fault _ _ _ hD with hE | ⟨qs1, -, hE⟩
  · exact absurd hE (checkDefinedQualifiers_ne_fault sts _ _ _)
  rcases Checked.andThen_fault _ _ _ hE with hF | ⟨ps2, -, hF⟩
  · exfalso
    have hpass : checkParameters sts cmdDef.parameters 0 st.1 = Checked.passed ps1 := by
      rcases hD1 with h1 | h1
      · exact h1
      · exact absurd h1 (checkParameters_ne_passedNull sts _ _ _ _)
    obtain ⟨r, hr⟩ := renameParameters_in_range sts cmdDef.parameters st.1 ps1 (by omega) hpass
    rw [hr] at hF
    simp at hF
  rcases Checked.andThen_fault _ _ _ hF with hG | ⟨qs2, -, hG⟩
  · obtain ⟨k, q, a, b, c⟩ := renameQualifiers_fault_index sts _ _ _ hG
    exact ⟨qs1, k, q, hG, a, by omega, c⟩
  · simp at hG

/-- The rest of the line at work: the definition has one parameter that uses
the rest of the line, and the user gave `a b` with a qualifier after it. With
the rest of line `a b` the parameter ends with the single value `a b` and the
qualifier is dropped; with a null rest of line the checks pass as well, with
a null pointer in `values[0]`. -/
theorem dispatchToHandler_checks_rest_of_line :
    dispatchToHandler_checks testStatus
        (testCommand "say a b /x"
          [{ testParameter "" none ["a", "b"] with restOfLine := some "a b /x" }]
          [{ testQualifier "x" 0 [] with position := 1 }])
        (testCommand "" [{ testParameter "P1" none [] with useRestOfLine := 1 }] [])
      = Checked.passed (testCommand "say a b /x" [testParameter "P1" none ["a b /x"]] []) ∧
    dispatchToHandler_checks testStatus
        (testCommand "say a b /x" [testParameter "" none ["a", "b"]]
          [{ testQualifier "x" 0 [] with position := 1 }])
        (testCommand "" [{ testParameter "P1" none [] with useRestOfLine := 1 }] [])
      = Checked.passedNull (testCommand "say a b /x" [testParameter "P1" none [""]] []) := by
  decide

/-- C35, evaluated on the code: the definition has the qualifiers `output`
and `name`, and the user wrote `/n`. The validity check accepts `n` at the
defined qualifier of index 1, `name`, the first of which `n` is a beginning.
The renaming loop also accepts a beginning of `no` followed by the defined
name, and `n` begins `nooutput`: the command passes the checks with its
qualifier renamed to `output`. -/
theorem dispatchToHandler_renames_to_other_qualifier :
    validQualifierIndex "n" [testQualifier "output" 0 [], testQualifier "name" 0 ["x"]] = some 1 ∧
    qualifierValid "n" (testQualifier "output" 0 []) = false ∧
    qualifierRenames "n" (testQualifier "output" 0 []) = true ∧
    dispatchToHandler_checks testStatus
        (testCommand "show /n" [] [testQualifier "n" 0 []])
        (testCommand "" [] [testQualifier "output" 0 [], testQualifier "name" 0 ["x"]])
      = Checked.passed (testCommand "show /n" [] [testQualifier "output" 0 []]) := by
  decide

/-- C36, evaluated on the code: the definition has the parameters `P1`,
without default and not required, and `P2` with the default value `x.dat`;
the user gave no parameter. The default of `P2` is added after the user's last
parameter, at index 0, and the renaming gives it the name of the defined
parameter of index 0: the command passes the checks with the single parameter
`P1` holding `x.dat`, and `cli_get_value` finds no `P2`. -/
theorem dispatchToHandler_default_under_other_name :
    dispatchToHandler_checks testStatus
        (testCommand "copy" [] [])
        (testCommand "" [testParameter "P1" none [], testParameter "P2" none ["x.dat"]] [])
      = Checked.passed (testCommand "copy" [defaultParameter (testParameter "P1" none ["x.dat"])] []) ∧
    (cli_get_value testStatus
        (testCommand "copy" [defaultParameter (testParameter "P1" none ["x.dat"])] []) "P2").1
      = testStatus.CLI_STS_ABSENT ∧
    (cli_get_value testStatus
        (testCommand "copy" [defaultParameter (testParameter "P1" none ["x.dat"])] []) "P1").2.1
      = some "x.dat" := by
  decide

/-- C37, evaluated on the code: the definition has the qualifiers `log` and
`node`, and the user wrote `/no`, which the validity check accepts as a
beginning of `node`. In the renaming loop `no` begins `nolog`, it starts with
`no` and `log` does not: the command passes the checks with its qualifier
renamed to `log` and marked negated, although no character of `log` follows
`no` in the user's text. -/
theorem dispatchToHandler_bare_no_negates_first_qualifier :
    validQualifierIndex "no" [testQualifier "log" 0 [], testQualifier "node" 0 []] = some 1 ∧
    dispatchToHandler_checks testStatus
        (testCommand "show /no" [] [testQualifier "no" 0 []])
        (testCommand "" [] [testQualifier "log" 0 [], testQualifier "node" 0 []])
      = Checked.passed (testCommand "show /no" [] [testQualifier "log" 1 []]) := by
  decide

/-- C38, evaluated on the code: the definition has the single qualifier
`file`, which takes no list, and the user wrote `/file=a /file=(b,c)`. For the
user's qualifier of index 1 the message of the error reads
`cmdDef->qualifiers[1]`, and the count of the defined qualifiers is 1. -/
theorem dispatchToHandler_message_reads_past_count :
    (testCommand "" [] [{ testQualifier "file" 0 [] with listOk := 0 }]).qualifiers.length = 1 ∧
    renameQualifier testStatus [{ testQualifier "file" 0 [] with listOk := 0 }] 1
        (testQualifier "file" 0 ["b", "c"]) [{ testQualifier "file" 0 [] with listOk := 0 }]
      = Checked.fault Fault.index ∧
    dispatchToHandler_checks testStatus
        (testCommand "type /file=a /file=(b,c)" []
          [testQualifier "file" 0 ["a"], testQualifier "file" 0 ["b", "c"]])
        (testCommand "" [] [{ testQualifier "file" 0 [] with listOk := 0 }])
      = Checked.fault Fault.index ∧
    ∀ (LibFindImageSymbol_C : String → String → Int × (dclCommand → Int)) (image : String),
      dispatchToHandler testStatus LibFindImageSymbol_C image
        (testCommand "type /file=a /file=(b,c)" []
          [testQualifier "file" 0 ["a"], testQualifier "file" 0 ["b", "c"]])
        (testCommand "" [] [{ testQualifier "file" 0 [] with listOk := 0 }])
      = Checked.fault Fault.index := by
  refine ⟨by decide, by decide, by decide, ?_⟩
  intro lib image
  have h : dispatchToHandler_checks testStatus
      (testCommand "type /file=a /file=(b,c)" []
        [testQualifier "file" 0 ["a"], testQualifier "file" 0 ["b", "c"]])
      (testCommand "" [] [{ testQualifier "file" 0 [] with listOk := 0 }])
      = Checked.fault Fault.index := by decide
  have h0 : ¬ (testCommand "" [] [{ testQualifier "file" 0 [] with listOk := 0 }]).rest_of_line
      ≠ 0 := by decide
  rw [dispatchToHandler, if_neg h0, h]
  rfl

end Mdsdcl
